import Mathlib

/-!
# libqi messaging core: message bodies, copy-on-write handles and the gateway

A shallow embedding of `src/src/message.cpp` and
`src/libqimessaging/src/gateway.cpp`.

* Machine integers are natural numbers (or integers for C `int`) with an explicit
  truncation at every store into a fixed-width field.
* `boost::shared_ptr<MessagePrivate>` is an index into a heap of cells, each cell
  carrying the body and its `use_count`.
* `assert` is compiled in or out according to `NDEBUG`; a failed assertion aborts.
-/

set_option autoImplicit false

namespace qi

/-! ## Fixed-width integers -/

/-- Truncation to an unsigned 32-bit value (`qi::uint32_t`, `unsigned int`). -/
def u32 (n : Nat) : Nat := n % 2 ^ 32

/-- Truncation to an unsigned 16-bit value (`qi::uint16_t`). -/
def u16 (n : Nat) : Nat := n % 2 ^ 16

/-- Truncation to an unsigned 8-bit value. -/
def u8 (n : Nat) : Nat := n % 2 ^ 8

/-- Conversion of a C `int` to `unsigned int` (value modulo 2^32). -/
def intToU32 (i : Int) : Nat := (i % 2 ^ 32).toNat

/-- Conversion of an `unsigned int` to a C `int` (two's complement). -/
def u32ToInt (n : Nat) : Int :=
  if n % 2 ^ 32 < 2 ^ 31 then ((n % 2 ^ 32 : Nat) : Int) else ((n % 2 ^ 32 : Nat) : Int) - 2 ^ 32

/-- Pre-increment of a 32-bit `int` held in a `qi::Atomic<int>` (wraps in two's complement). -/
def incrInt32 (i : Int) : Int := u32ToInt (intToU32 (i + 1))

/-! ## Data model -/

/-- The payload type `qi::Buffer`: a sequence of bytes. -/
abbrev Buffer := List Nat

/-- Modelled from the spec: `MessagePrivate::MessageHeader` is declared in `message.hpp`,
which is not among the sources; the fields and their widths are those of the spec's header
layout (magic u32, id u32, size u32, version u16, type u8, flags u8, service, object,
action u32). -/
structure MessageHeader where
  magic : Nat
  id : Nat
  size : Nat
  version : Nat
  type : Nat
  flags : Nat
  service : Nat
  object : Nat
  action : Nat
deriving DecidableEq, Repr, Inhabited

/-- The shared body `MessagePrivate` of a message: buffer, signature and header. -/
structure MessagePrivate where
  buffer : Buffer
  signature : String
  header : MessageHeader
deriving DecidableEq, Repr, Inhabited

/-- Modelled from the spec: the sentinel `qi::MessagePrivate::magic` (declared in
`message.hpp`), `0x42adde42` on the wire. -/
def MessagePrivate.magic : Nat := 0x42adde42

/-- Modelled from the spec: the enumerators of `Message::Type` in the order of the spec's
type list (and of `Message::typeToString`): `Type_None` is 0. -/
def Type_None : Nat := 0
/-- The enumerator `Message::Type_Call`. -/
def Type_Call : Nat := 1
/-- The enumerator `Message::Type_Reply`. -/
def Type_Reply : Nat := 2
/-- The enumerator `Message::Type_Error`. -/
def Type_Error : Nat := 3
/-- The enumerator `Message::Type_Post`. -/
def Type_Post : Nat := 4
/-- The enumerator `Message::Type_Event`. -/
def Type_Event : Nat := 5

/-- Modelled from the spec: `Message::GenericObject_None` is object id 0 (the log line of
`isValid` reads "object is 0"). -/
def GenericObject_None : Nat := 0

/-- The address quadruple `MessageAddress(messageId, serviceId, objectId, functionId)`. -/
structure MessageAddress where
  messageId : Nat
  serviceId : Nat
  objectId : Nat
  functionId : Nat
deriving DecidableEq, Repr, Inhabited

/-- Modelled from the spec: the typesystem (`serialize`, `GenericValuePtr`) is not among the
sources; a value is represented by whether its kind is `Void` and by the bytes the binary
encoder writes for it. -/
structure GenericValuePtr where
  kindVoid : Bool
  wire : Buffer
deriving DecidableEq, Repr, Inhabited

/-- One heap cell: a `MessagePrivate` and the `use_count` of the shared pointers owning it. -/
structure Cell where
  body : MessagePrivate
  useCount : Nat
deriving DecidableEq, Repr, Inhabited

/-- Process state seen by `Message`: the static counter of `newMessageId` and the heap of
message bodies. -/
structure Runtime where
  idCounter : Int
  cells : List Cell
deriving DecidableEq, Repr, Inhabited

/-- A `qi::Message` object: the shared pointer `_p`. -/
structure Message where
  p : Nat
deriving DecidableEq, Repr, Inhabited

/-- Process start: the counter is 0 and no message exists. -/
def Runtime.init : Runtime := { idCounter := 0, cells := [] }

/-- The body a message points to (`*_p`). -/
def Runtime.deref (rt : Runtime) (m : Message) : MessagePrivate :=
  match rt.cells[m.p]? with
  | some c => c.body
  | none => default

/-- The value of `_p.use_count()`. -/
def Runtime.useCount (rt : Runtime) (m : Message) : Nat :=
  match rt.cells[m.p]? with
  | some c => c.useCount
  | none => 0

/-- A message object is live when its body is owned by at least one shared pointer. -/
def Runtime.live (rt : Runtime) (m : Message) : Prop := 0 < rt.useCount m

instance (rt : Runtime) (m : Message) : Decidable (rt.live m) := by
  unfold Runtime.live; infer_instance

/-- In-place write through `_p->`. -/
def Runtime.modify (rt : Runtime) (m : Message) (f : MessagePrivate → MessagePrivate) : Runtime :=
  match rt.cells[m.p]? with
  | some c => { rt with cells := rt.cells.set m.p { c with body := f c.body } }
  | none => rt

/-- Adjust the use count of the body of `m`. -/
def Runtime.setCount (rt : Runtime) (m : Message) (n : Nat) : Runtime :=
  match rt.cells[m.p]? with
  | some c => { rt with cells := rt.cells.set m.p { c with useCount := n } }
  | none => rt

/-- Allocation by `boost::make_shared<MessagePrivate>(...)`: a new cell with use count 1. -/
def Runtime.alloc (rt : Runtime) (b : MessagePrivate) : Message × Runtime :=
  (⟨rt.cells.length⟩, { rt with cells := rt.cells ++ [⟨b, 1⟩] })

/-! ## `message.cpp` -/

/-- The function `newMessageId`: `static qi::Atomic<int> id(0); return ++id;`. -/
def newMessageId (rt : Runtime) : Nat × Runtime :=
  let c := incrInt32 rt.idCounter
  (intToU32 c, { rt with idCounter := c })

/-- The header after `memset(&header, 0, sizeof(MessageHeader))`. -/
def MessageHeader.zero : MessageHeader :=
  { magic := 0, id := 0, size := 0, version := 0, type := 0, flags := 0,
    service := 0, object := 0, action := 0 }

/-- The constructor `MessagePrivate::MessagePrivate()`. -/
def MessagePrivate.new (rt : Runtime) : MessagePrivate × Runtime :=
  let r := newMessageId rt
  ({ buffer := [], signature := "",
     header := { MessageHeader.zero with id := u32 r.1, magic := u32 MessagePrivate.magic } }, r.2)

/-- The constructor `Message::Message()`. -/
def Message.new (rt : Runtime) : Message × Runtime :=
  let r := MessagePrivate.new rt
  r.2.alloc r.1

/-- The copy constructor `Message::Message(const Message& msg) : _p(msg._p)`. -/
def Message.copy (msg : Message) (rt : Runtime) : Message × Runtime :=
  (⟨msg.p⟩, rt.setCount msg (rt.useCount msg + 1))

/-- The destructor `Message::~Message()`: the shared pointer is released. -/
def Message.destroy (m : Message) (rt : Runtime) : Runtime :=
  rt.setCount m (rt.useCount m - 1)

/-- The method `Message::cow`: clone the body when it is shared. -/
def Message.cow (m : Message) (rt : Runtime) : Message × Runtime :=
  if rt.useCount m > 1 then
    (rt.setCount m (rt.useCount m - 1)).alloc (rt.deref m)
  else (m, rt)

/-- The assignment `Message::operator=`: buffer and header are written through `_p`. -/
def Message.assign (m : Message) (msg : Message) (rt : Runtime) : Runtime :=
  rt.modify m (fun b => { b with buffer := (rt.deref msg).buffer, header := (rt.deref msg).header })

/-- The getter `Message::id`. -/
def Message.id (m : Message) (rt : Runtime) : Nat := (rt.deref m).header.id
/-- The getter `Message::version`. -/
def Message.version (m : Message) (rt : Runtime) : Nat := (rt.deref m).header.version
/-- The getter `Message::type`. -/
def Message.type (m : Message) (rt : Runtime) : Nat := (rt.deref m).header.type
/-- The getter `Message::service`. -/
def Message.service (m : Message) (rt : Runtime) : Nat := (rt.deref m).header.service
/-- The getter `Message::object`. -/
def Message.object (m : Message) (rt : Runtime) : Nat := (rt.deref m).header.object
/-- The getter `Message::function` (the debug log on events has no effect on the result). -/
def Message.function (m : Message) (rt : Runtime) : Nat := (rt.deref m).header.action
/-- The getter `Message::event`. -/
def Message.event (m : Message) (rt : Runtime) : Nat := (rt.deref m).header.action
/-- The getter `Message::action`. -/
def Message.action (m : Message) (rt : Runtime) : Nat := (rt.deref m).header.action
/-- The getter `Message::buffer`. -/
def Message.buffer (m : Message) (rt : Runtime) : Buffer := (rt.deref m).buffer

/-- The getter `Message::address`. -/
def Message.address (m : Message) (rt : Runtime) : MessageAddress :=
  ⟨(rt.deref m).header.id, (rt.deref m).header.service, (rt.deref m).header.object,
   (rt.deref m).header.action⟩

/-- A setter body: `cow()` followed by a write through `_p->`. -/
def Message.cowWrite (f : MessagePrivate → MessagePrivate) (m : Message) (rt : Runtime) :
    Message × Runtime :=
  let r := m.cow rt
  (r.1, r.2.modify r.1 f)

/-- The setter `Message::setId`. -/
def Message.setId (id : Nat) (m : Message) (rt : Runtime) : Message × Runtime :=
  m.cowWrite (fun b => { b with header := { b.header with id := u32 id } }) rt

/-- The setter `Message::setVersion`. -/
def Message.setVersion (version : Nat) (m : Message) (rt : Runtime) : Message × Runtime :=
  m.cowWrite (fun b => { b with header := { b.header with version := u16 version } }) rt

/-- The setter `Message::setType`. -/
def Message.setType (type : Nat) (m : Message) (rt : Runtime) : Message × Runtime :=
  m.cowWrite (fun b => { b with header := { b.header with type := u8 type } }) rt

/-- The setter `Message::setService`. -/
def Message.setService (service : Nat) (m : Message) (rt : Runtime) : Message × Runtime :=
  m.cowWrite (fun b => { b with header := { b.header with service := u32 service } }) rt

/-- The setter `Message::setObject`. -/
def Message.setObject (object : Nat) (m : Message) (rt : Runtime) : Message × Runtime :=
  m.cowWrite (fun b => { b with header := { b.header with object := u32 object } }) rt

/-- The setter `Message::setFunction` (the debug log has no effect on the state). -/
def Message.setFunction (function : Nat) (m : Message) (rt : Runtime) : Message × Runtime :=
  m.cowWrite (fun b => { b with header := { b.header with action := u32 function } }) rt

/-- The setter `Message::setEvent` (the debug log has no effect on the state). -/
def Message.setEvent (event : Nat) (m : Message) (rt : Runtime) : Message × Runtime :=
  m.cowWrite (fun b => { b with header := { b.header with action := u32 event } }) rt

/-- The setter `Message::setBuffer`. -/
def Message.setBuffer (buffer : Buffer) (m : Message) (rt : Runtime) : Message × Runtime :=
  m.cowWrite (fun b => { b with buffer := buffer }) rt

/-- The setter `Message::setAddress`. -/
def Message.setAddress (address : MessageAddress) (m : Message) (rt : Runtime) :
    Message × Runtime :=
  m.cowWrite (fun b => { b with header := { b.header with
    id := u32 address.messageId, service := u32 address.serviceId,
    object := u32 address.objectId, action := u32 address.functionId } }) rt

/-- The setter `Message::setValue`: after `cow()`, a `BinaryEncoder` over `_p->buffer` appends
the serialized value unless its kind is `Void`. -/
def Message.setValue (value : GenericValuePtr) (m : Message) (rt : Runtime) : Message × Runtime :=
  m.cowWrite (fun b => if value.kindVoid then b else { b with buffer := b.buffer ++ value.wire }) rt

/-- Modelled from the spec: `qi::makeGenericTuplePtr` is not among the sources; a tuple is not
of kind `Void` and is written as its elements one after the other. -/
def makeGenericTuplePtr (values : List GenericValuePtr) : GenericValuePtr :=
  { kindVoid := false, wire := (values.map (fun v => v.wire)).flatten }

/-- The setter `Message::setValues`. -/
def Message.setValues (values : List GenericValuePtr) (m : Message) (rt : Runtime) :
    Message × Runtime :=
  m.setValue (makeGenericTuplePtr values) rt

/-- Four bytes of a 32-bit value, least significant first. -/
def encodeU32 (n : Nat) : Buffer :=
  [n % 256, n / 256 % 256, n / 65536 % 256, n / 16777216 % 256]

/-- Modelled from the spec: `BinaryEncoder::write(const std::string&)` is not among the
sources; a string is written as its byte length (u32, little-endian) and its UTF-8 bytes. -/
def encodeString (s : String) : Buffer :=
  encodeU32 s.utf8ByteSize ++ s.toUTF8.toList.map (fun b => b.toNat)

/-- Modelled from the spec: the signature of `std::string` in the signature grammar. -/
def stringSignature : String := "s"

/-- The setter `Message::setError`. -/
def Message.setError (error : String) (m : Message) (rt : Runtime) : Message × Runtime :=
  if m.type rt ≠ Type_Error then (m, rt)
  else m.setBuffer (encodeString stringSignature ++ encodeString error) rt

/-- The constructor `Message::Message(Type type, const MessageAddress& address)`. -/
def Message.newAt (type : Nat) (address : MessageAddress) (rt : Runtime) : Message × Runtime :=
  let r0 := MessagePrivate.new rt
  let r1 := r0.2.alloc r0.1
  let r2 := r1.1.setType type r1.2
  r2.1.setAddress address r2.2

/-- The result of a call that may hit a failing `assert`: `none` is the abort. -/
abbrev Asserted (α : Type) := Option α

/-- The method `Message::isValid`. `ndebug` tells whether `assert` is compiled out; with
assertions compiled in, `assert(object() != GenericObject_None)` is evaluated inside the
branch taken when `object() == GenericObject_None`. -/
def Message.isValid (ndebug : Bool) (m : Message) (rt : Runtime) : Asserted Bool :=
  if (rt.deref m).header.magic ≠ u32 MessagePrivate.magic then some false
  else if m.type rt = Type_None then some false
  else if m.object rt = GenericObject_None then
    (if ndebug ∨ m.object rt ≠ GenericObject_None then some false else none)
  else some true

/-- The mutators of `Message` other than assignment. -/
inductive Setter where
  | setId (id : Nat)
  | setVersion (version : Nat)
  | setType (type : Nat)
  | setService (service : Nat)
  | setObject (object : Nat)
  | setFunction (function : Nat)
  | setEvent (event : Nat)
  | setBuffer (buffer : Buffer)
  | setAddress (address : MessageAddress)
  | setValue (value : GenericValuePtr)
  | setValues (values : List GenericValuePtr)
  | setError (error : String)
deriving DecidableEq, Repr

/-- Call the setter `s` on the message `m`. -/
def Message.apply (s : Setter) (m : Message) (rt : Runtime) : Message × Runtime :=
  match s with
  | .setId id => m.setId id rt
  | .setVersion v => m.setVersion v rt
  | .setType t => m.setType t rt
  | .setService x => m.setService x rt
  | .setObject x => m.setObject x rt
  | .setFunction x => m.setFunction x rt
  | .setEvent x => m.setEvent x rt
  | .setBuffer b => m.setBuffer b rt
  | .setAddress a => m.setAddress a rt
  | .setValue v => m.setValue v rt
  | .setValues vs => m.setValues vs rt
  | .setError e => m.setError e rt

/-- Call a sequence of setters, one after the other, on the same message object. -/
def Message.applyAll : List Setter → Message → Runtime → Message × Runtime
  | [], m, rt => (m, rt)
  | s :: ss, m, rt => let r := m.apply s rt; Message.applyAll ss r.1 r.2

/-- The state of the process after `k` calls of `newMessageId`. -/
def newMessageIdCalls : Nat → Runtime → Runtime
  | 0, rt => rt
  | k + 1, rt => (newMessageId (newMessageIdCalls k rt)).2

/-! ## `std::map` as an association list kept in key order -/

/-- The lookup `m.find(k)` of a `std::map`: the mapped value, or `none` for `m.end()`. -/
def mapFind {K V : Type} [DecidableEq K] (k : K) : List (K × V) → Option V
  | [] => none
  | (k', v) :: rest => if k = k' then some v else mapFind k rest

/-- The assignment `m[k] = v` of a `std::map`: the value of an existing key is replaced, a new
key is inserted at its place in key order. -/
def mapSet {K V : Type} [DecidableEq K] [LT K] [DecidableRel (fun a b : K => a < b)]
    (k : K) (v : V) : List (K × V) → List (K × V)
  | [] => [(k, v)]
  | (k', v') :: rest =>
    if k = k' then (k, v) :: rest
    else if k < k' then (k, v) :: (k', v') :: rest
    else (k', v') :: mapSet k v rest

/-- The reference `m[k]` of a `std::map` read as a value: the mapped value, or the
default-constructed one that `operator[]` inserts for a new key. -/
def mapAt {K V : Type} [DecidableEq K] (k : K) (m : List (K × V)) (dflt : V) : V :=
  (mapFind k m).getD dflt

/-! ## `gateway.cpp` -/

/-- A `TransportSocket*`: the address of the socket, 0 for `NULL`. -/
abbrev Socket := Nat

/-- The type `RequestIdMap = std::map<int, std::pair<int, TransportSocket*>>`. -/
abbrev RequestIdMap := List (Int × (Int × Socket))

/-- The type `ServiceRequestIdMap = std::map<TransportSocket*, RequestIdMap>`. -/
abbrev ServiceRequestIdMap := List (Socket × RequestIdMap)

/-- The type `ServiceSocketMap = std::map<unsigned int, qi::TransportSocket*>`. -/
abbrev ServiceSocketMap := List (Nat × Socket)

/-- The type `PendingMessageVector = std::vector<std::pair<qi::Message, TransportSocket*>>`. -/
abbrev PendingMessageVector := List (Message × Socket)

/-- The type `PendingMessageMap = std::map<unsigned int, PendingMessageVector>`. -/
abbrev PendingMessageMap := List (Nat × PendingMessageVector)

/-- The data members of `GatewayPrivate` (`_services`, `_clients`, `_endpoints`, `_tso`,
`_serviceToClient`, `_pendingMessage`). -/
structure GatewayPrivate where
  services : ServiceSocketMap
  clients : List Socket
  endpoints : List Nat
  tso : Socket
  serviceToClient : ServiceRequestIdMap
  pendingMessage : PendingMessageMap
deriving DecidableEq, Repr, Inhabited

/-- The process running the gateway: the message runtime, the file-level `static int reqid`,
the gateway object, the messages handed to `TransportSocket::send` (socket and content, in
call order), the address the next `new qi::TransportSocket()` returns, and the
`connect` calls made (socket and endpoint string). -/
structure World where
  rt : Runtime
  reqid : Int
  gw : GatewayPrivate
  wire : List (Socket × MessagePrivate)
  nextSocket : Nat
  connects : List (Socket × List Nat)
deriving DecidableEq, Repr, Inhabited

/-- Modelled from the spec: `Message::ServiceDirectory`, service id 1, is declared in a header
that is not among the sources. -/
def ServiceDirectory : Nat := 1

/-- Modelled from the spec: `Message::Service`, the directory action `service` (id 100). -/
def ServiceDirectoryAction_Service : Nat := 100

/-- The call `socket->send(msg)`: `TransportSocket` is not among the sources; the content of
the message at the time of the call is recorded. -/
def World.send (w : World) (socket : Socket) (msg : Message) : World :=
  { w with wire := w.wire ++ [(socket, w.rt.deref msg)] }

/-- Modelled from the spec: `DataStream << std::vector<unsigned int>` is not among the sources;
a list is written as its count followed by its elements, 32-bit little-endian. -/
def encodeUIntVector (l : List Nat) : Buffer :=
  encodeU32 (u32 l.length) ++ (l.map (fun x => encodeU32 (u32 x))).flatten

/-- Read a 32-bit little-endian value. -/
def decodeU32 : Buffer → Option (Nat × Buffer)
  | b0 :: b1 :: b2 :: b3 :: rest => some (b0 + 256 * b1 + 65536 * b2 + 16777216 * b3, rest)
  | _ => none

/-- Read `n` length-prefixed byte strings. -/
def decodeStrings : Nat → Buffer → List (List Nat)
  | 0, _ => []
  | n + 1, b =>
    match decodeU32 b with
    | none => []
    | some (len, rest) =>
      if rest.length < len then [] else rest.take len :: decodeStrings n (rest.drop len)

/-- Modelled from the spec: `DataStream >> std::vector<std::string>` is not among the sources;
a list is read as its count followed by length-prefixed strings (a `std::string` is its
bytes); reading stops at the end of the data. -/
def decodeStringVector (b : Buffer) : List (List Nat) :=
  match decodeU32 b with
  | none => []
  | some (n, rest) => decodeStrings n rest

/-- Modelled from the spec: `Message::buildReplyFrom` is not among the sources; a reply has
type `Reply` and shares the id, service, object and action of the call. -/
def Message.buildReplyFrom (m : Message) (call : Message) (rt : Runtime) : Message × Runtime :=
  let r1 := m.setId (call.id rt) rt
  let r2 := r1.1.setType Type_Reply r1.2
  let r3 := r2.1.setService (call.service r2.2) r2.2
  let r4 := r3.1.setObject (call.object r3.2) r3.2
  r4.1.setFunction (call.function r4.2) r4.2

/-- Modelled from the spec: `Message::setPath` is not among the sources; the path of the older
interface is the object id of the address quadruple. -/
def Message.setPath (path : Nat) (m : Message) (rt : Runtime) : Message × Runtime :=
  m.setObject path rt

/-- A `DataStream` over `msg.buffer()` writing `bytes`: the bytes are appended to the buffer
of the body, in place. -/
def Message.streamWrite (bytes : Buffer) (m : Message) (rt : Runtime) : Runtime :=
  rt.modify m (fun b => { b with buffer := b.buffer ++ bytes })

/-- The method `GatewayPrivate::newConnection`; `socket` is what
`_ts.nextPendingConnection()` returns (0 for none). -/
def GatewayPrivate.newConnection (socket : Socket) (w : World) : World :=
  if socket = 0 then w
  else { w with gw := { w.gw with clients := w.gw.clients ++ [socket] } }

/-- The method `GatewayPrivate::forwardClientMessage`. The post-increment of the `int`
counter wraps in two's complement. -/
def GatewayPrivate.forwardClientMessage (client service : Socket) (msg : Message) (w : World) :
    World :=
  let servMsg := msg.copy w.rt
  let reqIdMap := mapAt service w.gw.serviceToClient []
  let r := servMsg.1.setId (intToU32 w.reqid) servMsg.2
  let reqIdMap := mapSet (u32ToInt (r.1.id r.2)) (u32ToInt (msg.id r.2), client) reqIdMap
  let w1 : World :=
    { w with rt := r.2, reqid := incrInt32 w.reqid,
             gw := { w.gw with serviceToClient := mapSet service reqIdMap w.gw.serviceToClient } }
  let w2 := w1.send service r.1
  { w2 with rt := r.1.destroy w2.rt }

/-- The method `GatewayPrivate::handleClientRead`. -/
def GatewayPrivate.handleClientRead (client : Socket) (msg : Message) (w : World) : World :=
  if msg.service w.rt = ServiceDirectory ∧ msg.function w.rt = ServiceDirectoryAction_Service then
    -- C.1
    let retval := Message.new w.rt
    let r := retval.1.buildReplyFrom msg retval.2
    let tmpEndPoint := msg.service r.2 :: w.gw.endpoints
    let rt := r.1.streamWrite (encodeUIntVector tmpEndPoint) r.2
    let w1 := ({ w with rt := rt } : World).send client r.1
    { w1 with rt := r.1.destroy w1.rt }
  else
    match mapFind (msg.service w.rt) w.gw.services with
    | some service =>
      -- C.3
      GatewayPrivate.forwardClientMessage client service msg w
    | none =>
      -- C.2
      let masterMsg := Message.new w.rt
      let rt := masterMsg.1.streamWrite (encodeU32 (msg.service masterMsg.2)) masterMsg.2
      let r1 := masterMsg.1.setType Type_Call rt
      let r2 := r1.1.setService ServiceDirectory r1.2
      let r3 := r2.1.setPath 0 r2.2
      let r4 := r3.1.setFunction ServiceDirectoryAction_Service r3.2
      let reqIdMap := mapAt w.gw.tso w.gw.serviceToClient []
      let reqIdMap := mapSet (u32ToInt (r4.1.id r4.2)) ((0 : Int), (0 : Socket)) reqIdMap
      let serviceToClient := mapSet w.gw.tso reqIdMap w.gw.serviceToClient
      let stored := msg.copy r4.2
      let pendingMessage :=
        match mapFind (msg.service stored.2) w.gw.pendingMessage with
        | none => mapSet (msg.service stored.2) [(stored.1, client)] w.gw.pendingMessage
        | some pendingMsg =>
          mapSet (msg.service stored.2) (pendingMsg ++ [(stored.1, client)]) w.gw.pendingMessage
      let w1 : World :=
        { w with rt := stored.2,
                 gw := { w.gw with serviceToClient := serviceToClient,
                                   pendingMessage := pendingMessage } }
      let w2 := w1.send w.gw.tso r4.1
      { w2 with rt := r4.1.destroy w2.rt }

/-- The method `GatewayPrivate::handleGatewayServiceRead`. The element access `result[1]` is
undefined when the decoded list has fewer than two elements: the result is `none`. -/
def GatewayPrivate.handleGatewayServiceRead (master : Socket) (msg : Message) (w : World) :
    Option World :=
  match mapFind master w.gw.serviceToClient with
  | none => some w
  | some _ =>
    let result := decodeStringVector (msg.buffer w.rt)
    match result[1]? with
    | none => none
    | some url =>
      let servSocket := w.nextSocket
      let serviceName := 0
      some { w with nextSocket := w.nextSocket + 1,
                    connects := w.connects ++ [(servSocket, url)],
                    gw := { w.gw with services := mapSet serviceName servSocket w.gw.services } }

/-- The method `GatewayPrivate::handleServiceRead`. -/
def GatewayPrivate.handleServiceRead (service : Socket) (msg : Message) (w : World) :
    Option World :=
  match mapFind service w.gw.serviceToClient with
  | none => some w
  | some request =>
    match mapFind (u32ToInt (msg.id w.rt)) request with
    | none => some w
    | some itReq =>
      if itReq.2 = 0 then GatewayPrivate.handleGatewayServiceRead service msg w
      else
        -- S.3
        let ans := msg.copy w.rt
        let r := ans.1.setId (intToU32 itReq.1) ans.2
        let w1 := ({ w with rt := r.2 } : World).send itReq.2 r.1
        some { w1 with rt := r.1.destroy w1.rt }

/-- The method `GatewayPrivate::onReadyRead`. -/
def GatewayPrivate.onReadyRead (client : Socket) (msg : Message) (w : World) : Option World :=
  if client ∈ w.gw.clients then some (GatewayPrivate.handleClientRead client msg w)
  else GatewayPrivate.handleServiceRead client msg w

/-- The method `GatewayPrivate::onWriteDone`. -/
def GatewayPrivate.onWriteDone (_client : Socket) (w : World) : World := w

/-- The search loop of `onConnected`: the first entry of `_services`, in key order, whose
socket is `service`. -/
def findServiceId (service : Socket) : ServiceSocketMap → Option Nat
  | [] => none
  | (k, s) :: rest => if s = service then some k else findServiceId service rest

/-- The forwarding loop of `onConnected` over the pending vector. -/
def forwardPending (service : Socket) : PendingMessageVector → World → World
  | [], w => w
  | (msg, client) :: rest, w =>
    forwardPending service rest (GatewayPrivate.forwardClientMessage client service msg w)

/-- The method `GatewayPrivate::onConnected`. -/
def GatewayPrivate.onConnected (service : Socket) (w : World) : World :=
  if service = w.gw.tso then w
  else
    match findServiceId service w.gw.services with
    | none => w
    | some serviceId =>
      let pmv := mapAt serviceId w.gw.pendingMessage []
      let w1 : World :=
        { w with gw := { w.gw with pendingMessage := mapSet serviceId pmv w.gw.pendingMessage } }
      forwardPending service pmv w1

/-- The method `GatewayPrivate::onDisconnected`. -/
def GatewayPrivate.onDisconnected (_client : Socket) (w : World) : World := w

/-- The state after `Gateway::Gateway()` and `Gateway::listen` in a process whose message
runtime is `rt`: the directory socket is created and entered in `_services` under
`ServiceDirectory`, the endpoint list is `[0]`, the counter `reqid` is 500; the endpoint
recorded for the directory socket is the text `127.0.0.1:5555`. -/
def World.listen (rt : Runtime) (firstSocket : Nat) : World :=
  { rt := rt, reqid := 500,
    gw := { services := mapSet ServiceDirectory firstSocket [], clients := [], endpoints := [0],
            tso := firstSocket, serviceToClient := [], pendingMessage := [] },
    wire := [], nextSocket := firstSocket + 1,
    connects := [(firstSocket, [49, 50, 55, 46, 48, 46, 48, 46, 49, 58, 53, 53, 53, 53])] }

/-- A message object holding a header and payload read from a socket: message objects are only
created by the constructors of `Message`, so a fresh body (and a fresh id) is allocated and
then filled with the received content. -/
def World.receive (content : MessagePrivate) (w : World) : Message × World :=
  let r := Message.new w.rt
  (r.1, { w with rt := r.2.modify r.1 (fun _ => content) })

/-- The callbacks the transport layer invokes on the gateway. -/
inductive Event where
  | newConnection (socket : Socket)
  | readyRead (socket : Socket) (content : MessagePrivate)
  | writeDone (socket : Socket)
  | connected (socket : Socket)
  | disconnected (socket : Socket)
deriving DecidableEq, Repr

/-- One callback; the message object of `readyRead` is released by the caller afterwards. -/
def World.step (e : Event) (w : World) : Option World :=
  match e with
  | .newConnection s => some (GatewayPrivate.newConnection s w)
  | .readyRead s content =>
    let r := w.receive content
    match GatewayPrivate.onReadyRead s r.1 r.2 with
    | none => none
    | some w1 => some { w1 with rt := r.1.destroy w1.rt }
  | .writeDone s => some (GatewayPrivate.onWriteDone s w)
  | .connected s => some (GatewayPrivate.onConnected s w)
  | .disconnected s => some (GatewayPrivate.onDisconnected s w)

/-- A sequence of callbacks, in order. -/
def World.run : List Event → World → Option World
  | [], w => some w
  | e :: es, w =>
    match w.step e with
    | none => none
    | some w1 => World.run es w1

/-- The body of a message with its id replaced. -/
def withId (b : MessagePrivate) (id : Nat) : MessagePrivate :=
  { b with header := { b.header with id := id } }

/-- The messages a drain of the pending vector `pmv` hands to `service`, from the counter value
`n`: each staged message with its id replaced by the counter, which advances by one (modulo
2^32) per message. The bodies are read in the runtime `rt`. -/
def sentList (service : Socket) (rt : Runtime) : Nat → PendingMessageVector →
    List (Socket × MessagePrivate)
  | _, [] => []
  | n, (m, _) :: rest =>
    (service, withId (rt.deref m) n) :: sentList service rt ((n + 1) % 2 ^ 32) rest

/-- The table of a socket after a drain of `pmv` from the counter value `n`: under each
rewritten id, the original id and the client of the staged message. -/
def recordAll (rt : Runtime) : Nat → PendingMessageVector → RequestIdMap → RequestIdMap
  | _, [], t => t
  | n, (m, c) :: rest, t =>
    recordAll rt ((n + 1) % 2 ^ 32) rest (mapSet (u32ToInt n) (u32ToInt (m.id rt), c) t)

/-- The states of a gateway process: those reached from `Gateway::listen` by a sequence of
callbacks. -/
def World.Reachable (w : World) : Prop :=
  ∃ (rt : Runtime) (firstSocket : Nat) (es : List Event),
    World.run es (World.listen rt firstSocket) = some w

/-- What holds of the directory socket in every state of a gateway process: it is the socket
registered under `ServiceDirectory` and under no other id, every registered socket was
created before the next one to be created, and nothing is staged for the directory. -/
def World.DirectoryInv (w : World) : Prop :=
  mapFind ServiceDirectory w.gw.services = some w.gw.tso ∧
  (∀ x ∈ w.gw.services, x.2 = w.gw.tso → x.1 = ServiceDirectory) ∧
  (∀ x ∈ w.gw.services, x.2 < w.nextSocket) ∧
  mapAt ServiceDirectory w.gw.pendingMessage [] = []

/-! ## `object.cpp` -/

/-- A `std::string` of the object layer: its characters; the order of `std::map` keys is the
lexicographic order of the character lists. -/
abbrev StdString := List Char

/-- A `const qi::Functor*`: the address of the functor, 0 for `NULL`. -/
abbrev FunctorPtr := Nat

/-- The class `MetaMethod` (`_name`, `_signature`, `_functor`). -/
structure MetaMethod where
  name : StdString
  signature : StdString
  functor : FunctorPtr
deriving DecidableEq, Repr, Inhabited

/-- Modelled from the spec: the default constructor `MetaMethod()` is declared in `object.hpp`,
which is not among the sources; a default-constructed method has empty strings and no
functor. -/
def MetaMethod.empty : MetaMethod := { name := [], signature := [], functor := 0 }

/-- The class `MetaObject`: `_methods` is a `std::map<std::string, MetaMethod>`,
`_methodsTable` a `std::vector<MetaMethod*>` and `_methodsNumber` a counter. An element of
`_methodsTable` points to an element of `_methods`; elements of a `std::map` never move and
none is ever erased, so the pointer is represented by the key of the element it points to. -/
structure MetaObject where
  methods : List (StdString × MetaMethod)
  methodsTable : List StdString
  methodsNumber : Nat
deriving DecidableEq, Repr, Inhabited

/-- Modelled from the spec: the constructor `MetaObject()` is declared in `object.hpp`; a new
metaobject has no method and its counter is 0, uids being dense from 0. -/
def MetaObject.new : MetaObject := { methods := [], methodsTable := [], methodsNumber := 0 }

/-- The class `Object`: the owned `_meta`. -/
structure Object where
  meta : MetaObject
deriving DecidableEq, Repr, Inhabited

/-- The method `Object::xAdvertiseService`: the uid returned and the object afterwards. -/
def Object.xAdvertiseService (name signature : StdString) (functor : FunctorPtr) (o : Object) :
    Nat × Object :=
  let mm : MetaMethod := { name := name, signature := signature, functor := functor }
  let methods := mapSet name mm o.meta.methods
  let idx := o.meta.methodsNumber
  (idx, { meta := { methods := methods,
                    methodsNumber := u32 (o.meta.methodsNumber + 1),
                    methodsTable := o.meta.methodsTable ++ [name] } })

/-- Modelled from the spec: the template `Object::advertiseMethod` is declared in
`object.hpp`; it registers the method through `xAdvertiseService` with the signature and the
functor it builds from the member function. -/
def Object.advertiseMethod (name signature : StdString) (functor : FunctorPtr) (o : Object) :
    Nat × Object :=
  o.xAdvertiseService name signature functor

/-- The constructor `Object::Object()`: a new metaobject on which `__metaobject` is
advertised; `signature` and `functor` are what `advertiseMethod` builds for
`&Object::metaObject`. -/
def Object.new (signature : StdString) (functor : FunctorPtr) : Object :=
  (Object.advertiseMethod "__metaobject".toList signature functor { meta := MetaObject.new }).2

/-- What a `metaCall` did: it ran `call(in, out)` of a functor, it returned without doing
anything, or it reported an error to the caller. -/
inductive CallResult where
  | invoked (functor : FunctorPtr)
  | nothing
  | error (what : String)
deriving DecidableEq, Repr

/-- The method `Object::metaCall(const std::string& method, ...)`: `_methods[method]` inserts a
default-constructed element when the key is absent. -/
def Object.metaCall (method : StdString) (o : Object) : CallResult × Object :=
  let o1 : Object :=
    match mapFind method o.meta.methods with
    | some _ => o
    | none => { meta := { o.meta with methods := mapSet method MetaMethod.empty o.meta.methods } }
  let mm := mapAt method o1.meta.methods MetaMethod.empty
  if mm.functor ≠ 0 then (CallResult.invoked mm.functor, o1) else (CallResult.nothing, o1)

/-- The method `Object::metaCall(unsigned int method, ...)`. The element access
`_methodsTable[method]` is undefined when `method` is not below the size of the table: the
result is `none`. -/
def Object.metaCallUid (method : Nat) (o : Object) : Option (CallResult × Object) :=
  match o.meta.methodsTable[method]? with
  | none => none
  | some key =>
    match mapFind key o.meta.methods with
    | none => none
    | some mm =>
      if mm.functor ≠ 0 then some (CallResult.invoked mm.functor, o) else some (CallResult.nothing, o)

/-- A sequence of registrations `(name, signature, functor)`, in order: the uids returned and
the object afterwards. -/
def Object.advertiseAll : List (StdString × StdString × FunctorPtr) → Object →
    List Nat × Object
  | [], o => ([], o)
  | (name, signature, functor) :: rest, o =>
    let r := o.xAdvertiseService name signature functor
    let rs := Object.advertiseAll rest r.2
    (r.1 :: rs.1, rs.2)

/-- The UTF-8 bytes of a string. -/
def utf8Bytes (s : String) : Buffer := s.toUTF8.toList.map (fun b => b.toNat)

/-! ## Reading a value back: `Message::value` -/

/-- Modelled from the spec: the typesystem (`Type::fromSignature`, `deserialize`) and the
binary decoder are not among the sources. A codec tells which signatures name a type, which
values have a given signature, and what a reader positioned at the start of a buffer decodes
for a signature (`none` when the data cannot be decoded). -/
structure Codec where
  fromSignature : String → Bool
  hasSignature : GenericValuePtr → String → Bool
  deserialize : String → Buffer → Option GenericValuePtr

/-- The method `Message::value`: `none` stands for the exception thrown for an unknown
signature and for a failed decoding; the reader starts at the beginning of the buffer. -/
def Message.value (c : Codec) (signature : String) (m : Message) (rt : Runtime) :
    Option GenericValuePtr :=
  if c.fromSignature signature = false then none
  else c.deserialize signature (rt.deref m).buffer

/-- Modelled from the spec: `DataStream << std::string` is not among the sources; a string is
written as its length (32-bit little-endian) and its bytes. -/
def encodeStdString (s : StdString) : Buffer :=
  encodeU32 (u32 s.length) ++ s.map (fun c => c.toNat)

/-- The operator `operator<<(DataStream&, const MetaMethod&)`: name, then signature. -/
def encodeMetaMethod (meta : MetaMethod) : Buffer :=
  encodeStdString meta.name ++ encodeStdString meta.signature

/-- Modelled from the spec: `DataStream << std::map` is not among the sources; a map is
written as its count followed by its key/value pairs in key order. -/
def encodeMethodMap (methods : List (StdString × MetaMethod)) : Buffer :=
  encodeU32 (u32 methods.length) ++
    (methods.map (fun kv => encodeStdString kv.1 ++ encodeMetaMethod kv.2)).flatten

/-- The operator `operator<<(DataStream&, const MetaObject&)`: the method map. -/
def encodeMetaObject (meta : MetaObject) : Buffer :=
  encodeMethodMap meta.methods

/-! ## `log.cpp` -/

/-- Modelled from the spec: the enumerators of `qi::LogLevel` are declared in `log.hpp`, which
is not among the sources; their values are those of the level table of `log.cpp`
(`0: silent` to `6: debug`). -/
def LogLevel_Silent : Int := 0
/-- The enumerator `LogLevel_Fatal`. -/
def LogLevel_Fatal : Int := 1
/-- The enumerator `LogLevel_Error`. -/
def LogLevel_Error : Int := 2
/-- The enumerator `LogLevel_Warning`. -/
def LogLevel_Warning : Int := 3
/-- The enumerator `LogLevel_Info`. -/
def LogLevel_Info : Int := 4
/-- The enumerator `LogLevel_Verbose`. -/
def LogLevel_Verbose : Int := 5
/-- The enumerator `LogLevel_Debug`. -/
def LogLevel_Debug : Int := 6

/-- Modelled from the spec: the bits of `qi::LogContext` are declared in `log.hpp`; their
values are those of the context table of `log.cpp` (`1: Verbosity` to `128: EndOfLine`). -/
def LogContextAttr_Verbosity : Nat := 1
/-- The bit `LogContextAttr_ShortVerbosity`. -/
def LogContextAttr_ShortVerbosity : Nat := 2
/-- The bit `LogContextAttr_Date`. -/
def LogContextAttr_Date : Nat := 4
/-- The bit `LogContextAttr_Tid`. -/
def LogContextAttr_Tid : Nat := 8
/-- The bit `LogContextAttr_Category`. -/
def LogContextAttr_Category : Nat := 16
/-- The bit `LogContextAttr_File`. -/
def LogContextAttr_File : Nat := 32
/-- The bit `LogContextAttr_Function`. -/
def LogContextAttr_Function : Nat := 64
/-- The bit `LogContextAttr_Return`. -/
def LogContextAttr_Return : Nat := 128

/-- The modulus of `size_t` arithmetic (64-bit). -/
def sizeMod : Nat := 2 ^ 64

/-- The character `msg[i]` of a C string whose content is `msg`: the content, then the
terminating NUL at index `strlen(msg)`; `none` for an index outside the string. -/
def cstrAt (msg : StdString) (i : Nat) : Option Char :=
  if i < msg.length then msg[i]?
  else if i = msg.length then some (Char.ofNat 0)
  else none

/-- The function `detail::rtrim`. `p` is a `size_t`: for the empty string `strlen(msg) - 1`
wraps and the read `msg[p]` is outside the string, which is undefined: the result is `none`.
The value `p + 1` is returned as an `int`. -/
def rtrim (msg : StdString) : Option Int :=
  let p := (msg.length + sizeMod - 1) % sizeMod
  match cstrAt msg p with
  | none => none
  | some last =>
    if last = '\r' then some (u32ToInt (((p + sizeMod - 1) % sizeMod + 1) % sizeMod))
    else if last = '\n' then
      if p ≠ 0 then
        match cstrAt msg (p - 1) with
        | none => none
        | some before =>
          if before = '\r' then some (u32ToInt (((p + sizeMod - 2) % sizeMod + 1) % sizeMod))
          else some (u32ToInt (((p + sizeMod - 1) % sizeMod + 1) % sizeMod))
      else some (u32ToInt (((p + sizeMod - 1) % sizeMod + 1) % sizeMod))
    else some (u32ToInt ((p + 1) % sizeMod))

/-- Decimal text of an integer, as written by `operator<<`. -/
def decimal (i : Int) : StdString :=
  if i < 0 then '-' :: (Nat.repr i.natAbs).toList else (Nat.repr i.toNat).toList

/-- The function `log::logLevelToString`. -/
def logLevelToString (level : Int) (verbose : Bool) : StdString :=
  if level < 0 ∨ level > LogLevel_Debug then "Invalid log level".toList
  else if verbose then
    (["[SILENT]", "[FATAL]", "[ERROR]", "[WARN ]", "[INFO ]", "[VERB ]", "[DEBUG]"].getD
      level.toNat "").toList
  else
    (["[SILENT]", "[F]", "[E]", "[W]", "[I]", "[V]", "[D]"].getD level.toNat "").toList

/-- The function `detail::dateToString`: seconds, a dot, and the microseconds right-aligned in
a field of six characters filled with `0`. -/
def dateToString (tv_sec tv_usec : Int) : StdString :=
  decimal tv_sec ++ ['.'] ++
    List.replicate (6 - (decimal tv_usec).length) '0' ++ decimal tv_usec

/-- The function `detail::tidToString`; `tid` is what `qi::os::gettid()` returns. -/
def tidToString (tid : Int) : StdString := decimal tid

/-- The text `detail::logline` writes before the message: the fields selected by the bits
of `context`, in the order of the tests of the function. -/
def loglineHeader (context : Nat) (tv_sec tv_usec : Int) (category file fct : StdString)
    (line : Int) (verb : Int) (tid : Int) : StdString :=
  let l0 : StdString := []
  let l1 := if context &&& LogContextAttr_Verbosity ≠ 0
    then l0 ++ logLevelToString verb true ++ [' '] else l0
  let l2 := if context &&& LogContextAttr_ShortVerbosity ≠ 0
    then l1 ++ logLevelToString verb false ++ [' '] else l1
  let l3 := if context &&& LogContextAttr_Date ≠ 0
    then l2 ++ dateToString tv_sec tv_usec ++ [' '] else l2
  let l4 := if context &&& LogContextAttr_Tid ≠ 0
    then l3 ++ tidToString tid ++ [' '] else l3
  let l5 := if context &&& LogContextAttr_Category ≠ 0
    then l4 ++ category ++ [':', ' '] else l4
  let l6 := if context &&& LogContextAttr_File ≠ 0
    then (if line ≠ 0 then l5 ++ file ++ ['('] ++ decimal line ++ [')'] else l5 ++ file) ++ [' ']
    else l5
  let l7 := if context &&& LogContextAttr_Function ≠ 0
    then l6 ++ fct ++ ['(', ')', ' '] else l6
  if context &&& LogContextAttr_Return ≠ 0 then l7 ++ ['\n'] else l7

/-- The function `detail::logline`. After the header the message is written with
`write(msg, rtrim(msg))`, that is its first `rtrim(msg)` characters, and a newline is
appended; the result is `none` where `rtrim` is undefined. -/
def logline (context : Nat) (tv_sec tv_usec : Int) (category msg file fct : StdString)
    (line : Int) (verb : Int) (tid : Int) : Option StdString :=
  match rtrim msg with
  | none => none
  | some n =>
    some (loglineHeader context tv_sec tv_usec category file fct line verb tid
      ++ msg.take n.toNat ++ ['\n'])

/-- Modelled from the spec: the message without its final line terminator, that is without
a trailing `\r\n`, `\n` or `\r`. -/
def withoutTerminator (msg : StdString) : StdString :=
  match msg.reverse with
  | '\n' :: '\r' :: rest => rest.reverse
  | '\n' :: rest => rest.reverse
  | '\r' :: rest => rest.reverse
  | _ => msg

/-- Modelled from the spec: the class `detail::Category` is declared in `log.hpp`; its members
`name`, `levels` (one level per subscriber) and `maxLevel` are those `setLevel` uses. -/
structure Category where
  name : StdString
  levels : List Int
  maxLevel : Int
deriving DecidableEq, Repr, Inhabited

/-- Modelled from the spec: the constructor `Category(name)` is declared in `log.hpp`; a new
category has no level and its maximum is `LogLevel_Silent`. -/
def Category.new (name : StdString) : Category :=
  { name := name, levels := [], maxLevel := LogLevel_Silent }

/-- The call `v.resize(n, x)` of a `std::vector`. -/
def vectorResize (v : List Int) (n : Nat) (x : Int) : List Int :=
  if n ≤ v.length then v.take n else v ++ List.replicate (n - v.length) x

/-- The value `*std::max_element(v.begin(), v.end())` of a vector that is not empty. -/
def maxElement : List Int → Int
  | [] => 0
  | x :: xs => xs.foldl max x

/-- The method `Category::setLevel`. `sub` is a `SubscriberId` (`unsigned int`), so `sub + 1`
is computed modulo 2^32; the write `levels[sub]` is undefined when `sub` is not below the size
of the vector: the result is `none`. -/
def Category.setLevel (sub : Nat) (level : Int) (c : Category) : Option Category :=
  let levels :=
    if c.levels.length ≤ sub then vectorResize c.levels (u32 (sub + 1)) LogLevel_Info
    else c.levels
  if sub < levels.length then
    some { c with levels := levels.set sub level, maxLevel := maxElement (levels.set sub level) }
  else none

/-- The struct `GlobRule`. -/
structure GlobRule where
  target : StdString
  id : Nat
  level : Int
deriving DecidableEq, Repr, Inhabited

/-- The file-level state of the log: `_glGlobRules` and the category map. The map
`std::map<std::string, Category*>` is the list of its categories in key order; the key of an
entry is the name of its category, which is what the only insertion, in `addCategory`,
establishes and what `applyGlob` asserts. -/
structure LogState where
  glGlobRules : List GlobRule
  categories : List Category
deriving DecidableEq, Repr, Inhabited

/-- The log before any category or rule exists. -/
def LogState.empty : LogState := { glGlobRules := [], categories := [] }

/-- The lookup `_categories().find(name)`. -/
def findCategory (name : StdString) : List Category → Option Category
  | [] => none
  | c :: rest => if c.name = name then some c else findCategory name rest

/-- The insertion `c[name] = res` of a name that is not in the map, at its place in key
order. -/
def insertCategory (res : Category) : List Category → List Category
  | [] => [res]
  | c :: rest => if res.name < c.name then res :: c :: rest else c :: insertCategory res rest

/-- The assignment through a `Category*`: the category of that name is replaced. -/
def storeCategory (res : Category) : List Category → List Category
  | [] => []
  | c :: rest => if c.name = res.name then res :: rest else c :: storeCategory res rest

/-- The function `checkGlobs`, on the rule list `rules`: every rule that matches the name of
the category sets the level of its subscriber, in the order of the list. `fnmatch` is
`os::fnmatch`, which is not among the sources. -/
def checkGlobs (fnmatch : StdString → StdString → Bool) : List GlobRule → Category →
    Option Category
  | [], cat => some cat
  | g :: rest, cat =>
    if fnmatch g.target cat.name then
      match cat.setLevel g.id g.level with
      | none => none
      | some cat2 => checkGlobs fnmatch rest cat2
    else checkGlobs fnmatch rest cat

/-- The loop of `applyGlob` over the category map. -/
def applyGlobLoop (fnmatch : StdString → StdString → Bool) (rules : List GlobRule)
    (g : GlobRule) : List Category → Option (List Category)
  | [] => some []
  | cat :: rest =>
    if fnmatch g.target cat.name then
      match checkGlobs fnmatch rules cat with
      | none => none
      | some cat2 =>
        match applyGlobLoop fnmatch rules g rest with
        | none => none
        | some rest2 => some (cat2 :: rest2)
    else
      match applyGlobLoop fnmatch rules g rest with
      | none => none
      | some rest2 => some (cat :: rest2)

/-- The function `applyGlob`. -/
def applyGlob (fnmatch : StdString → StdString → Bool) (g : GlobRule) (st : LogState) :
    Option LogState :=
  match applyGlobLoop fnmatch st.glGlobRules g st.categories with
  | none => none
  | some cats => some { st with categories := cats }

/-- The function `mergeGlob`: the first rule with the same target and id is replaced in
place, else the rule is appended. -/
def mergeGlob (p : GlobRule) : List GlobRule → List GlobRule
  | [] => [p]
  | c :: rest => if p.target = c.target ∧ p.id = c.id then p :: rest else c :: mergeGlob p rest

/-- The function `log::addCategory`: the state afterwards; the category returned is the one
named `name`. -/
def addCategory (fnmatch : StdString → StdString → Bool) (name : StdString) (st : LogState) :
    Option LogState :=
  match findCategory name st.categories with
  | some _ => some st
  | none =>
    match checkGlobs fnmatch st.glGlobRules (Category.new name) with
    | none => none
    | some res => some { st with categories := insertCategory res st.categories }

/-- The function `log::addFilter`. Its first statement writes a verbose log line through the
macro `qiLogVerbose` of `log.hpp`, which is not among the sources; it is not modelled. -/
def addFilter (fnmatch : StdString → StdString → Bool) (catName : StdString) (level : Int)
    (sub : Nat) (st : LogState) : Option LogState :=
  if '*' ∈ catName then
    let rule : GlobRule := { target := catName, id := u32 sub, level := level }
    let st1 := { st with glGlobRules := mergeGlob rule st.glGlobRules }
    applyGlob fnmatch rule st1
  else
    match addCategory fnmatch catName st with
    | none => none
    | some st1 =>
      match findCategory catName st1.categories with
      | none => none
      | some cat =>
        match cat.setLevel sub level with
        | none => none
        | some cat2 =>
          let rule : GlobRule := { target := catName, id := u32 sub, level := level }
          some { glGlobRules := mergeGlob rule st1.glGlobRules,
                 categories := storeCategory cat2 st1.categories }

/-- The characters of a C string up to its terminator: what `std::string(const char*)`
reads from the array `s.c_str()`. -/
def cStr (s : StdString) : StdString := s.takeWhile (fun c => c ≠ Char.ofNat 0)

/-- The function `log::stringToLogLevel`; `verb0` is the array the `const char*` points to,
and `std::string v(verb)` reads it up to the first NUL. -/
def stringToLogLevel (verb0 : StdString) : Int :=
  let verb := cStr verb0
  if verb = "silent".toList ∨ verb = "0".toList then LogLevel_Silent
  else if verb = "fatal".toList ∨ verb = "1".toList then LogLevel_Fatal
  else if verb = "error".toList ∨ verb = "2".toList then LogLevel_Error
  else if verb = "warning".toList ∨ verb = "3".toList then LogLevel_Warning
  else if verb = "info".toList ∨ verb = "4".toList then LogLevel_Info
  else if verb = "verbose".toList ∨ verb = "5".toList then LogLevel_Verbose
  else if verb = "debug".toList ∨ verb = "6".toList then LogLevel_Debug
  else LogLevel_Info

/-- Index of the first occurrence of `c` in `s`. -/
def indexOfChar (c : Char) : StdString → Option Nat
  | [] => none
  | x :: xs => if x = c then some 0 else (indexOfChar c xs).map (fun i => i + 1)

/-- The call `s.find(c, pos)`: `none` stands for `npos`. -/
def findChar (c : Char) (s : StdString) (pos : Nat) : Option Nat :=
  (indexOfChar c (s.drop pos)).map (fun i => i + pos)

/-- The body of the loop of `addFilters` for a token that is not empty: the call of
`addFilter` it makes, `addFilter` being given as `handler`. The level is computed from
`sLevel.c_str()`. -/
def addFiltersToken {σ : Type} (handler : StdString → Int → Nat → σ → Option σ)
    (token0 : StdString) (sub : Nat) (st : σ) : Option σ :=
  let token := if token0.head? = some '+' then token0.drop 1 else token0
  match findChar '=' token 0 with
  | some sep => handler (token.take sep) (stringToLogLevel (token.drop (sep + 1))) sub st
  | none =>
    if token.head? = some '-' then handler (token.drop 1) LogLevel_Silent sub st
    else handler token LogLevel_Debug sub st

/-- The loop of `log::addFilters`, `addFilter` being given as `handler`. The first number
bounds the iterations (the result is `none` when it is exhausted, or when `handler` is
undefined); `seen` collects the value of `pos` at the start of every iteration. After an empty
token `pos = next + 1` is computed in `size_t`. -/
def addFiltersLoop {σ : Type} (handler : StdString → Int → Nat → σ → Option σ)
    (rules : StdString) (sub : Nat) : Nat → Nat → σ → List Nat → Option (σ × List Nat)
  | 0, _, _, _ => none
  | fuel + 1, pos, st, seen =>
    if pos ≥ rules.length then some (st, seen ++ [pos])
    else
      let next := findChar ':' rules pos
      let token :=
        match next with
        | none => rules.drop pos
        | some n => (rules.drop pos).take (n - pos)
      if token = [] then
        match next with
        | none => addFiltersLoop handler rules sub fuel 0 st (seen ++ [pos])
        | some n => addFiltersLoop handler rules sub fuel ((n + 1) % sizeMod) st (seen ++ [pos])
      else
        match addFiltersToken handler token sub st with
        | none => none
        | some st2 =>
          match next with
          | none => some (st2, seen ++ [pos])
          | some n => addFiltersLoop handler rules sub fuel ((n + 1) % sizeMod) st2 (seen ++ [pos])

/-- The function `log::addFilters`: the loop from position 0; one more iteration than the
string has characters is always enough. -/
def addFilters (fnmatch : StdString → StdString → Bool) (rules : StdString) (sub : Nat)
    (st : LogState) : Option LogState :=
  (addFiltersLoop (addFilter fnmatch) rules sub (rules.length + 1) 0 st []).map (fun r => r.1)

/-- One call of `addFilter`: category, level, subscriber. -/
structure FilterCall where
  catName : StdString
  level : Int
  sub : Nat
deriving DecidableEq, Repr, Inhabited

/-- A handler that records the calls instead of making them. -/
def recordCall (catName : StdString) (level : Int) (sub : Nat) (calls : List FilterCall) :
    Option (List FilterCall) :=
  some (calls ++ [{ catName := catName, level := level, sub := sub }])

/-- The calls of `addFilter` made by `addFilters(rules, sub)`, in order, with the positions
visited by the scan. -/
def addFiltersCalls (rules : StdString) (sub : Nat) : Option (List FilterCall × List Nat) :=
  addFiltersLoop recordCall rules sub (rules.length + 1) 0 [] []

/-- The arguments of the call made by the body of the loop of `addFilters` for a token that
is not empty (the same tests as `addFiltersToken`). -/
def tokenCall (token0 : StdString) (sub : Nat) : FilterCall :=
  let token := if token0.head? = some '+' then token0.drop 1 else token0
  match findChar '=' token 0 with
  | some sep =>
    { catName := token.take sep, level := stringToLogLevel (token.drop (sep + 1)), sub := sub }
  | none =>
    if token.head? = some '-' then
      { catName := token.drop 1, level := LogLevel_Silent, sub := sub }
    else { catName := token, level := LogLevel_Debug, sub := sub }

/-- A sequence of calls of `addFilter` made one after the other, `addFilter` being given as
`handler`; `none` as soon as one of them is undefined. -/
def applyCalls {σ : Type} (handler : StdString → Int → Nat → σ → Option σ) :
    List FilterCall → σ → Option σ
  | [], st => some st
  | c :: cs, st =>
    match handler c.catName c.level c.sub st with
    | none => none
    | some st2 => applyCalls handler cs st2

/-- Modelled from the spec: the tokens of a colon-separated string, empty tokens included
(a string without a colon is one token). -/
def splitColon : StdString → List StdString
  | [] => [[]]
  | c :: cs =>
    if c = ':' then [] :: splitColon cs
    else
      match splitColon cs with
      | [] => [[c]]
      | t :: ts => (c :: t) :: ts

/-- Modelled from the spec: the colon-separated string made of a list of tokens. -/
def joinColon : List StdString → StdString
  | [] => []
  | [t] => t
  | t :: t2 :: ts => t ++ ':' :: joinColon (t2 :: ts)

/-- The offsets at which the tokens of a colon-separated string start, the first token
starting at `pos`. -/
def tokenStarts (pos : Nat) : List StdString → List Nat
  | [] => []
  | t :: ts => pos :: tokenStarts (pos + t.length + 1) ts

/-- One call per token that is not empty, in the order of the tokens. -/
def tokenCalls (sub : Nat) (tokens : List StdString) : List FilterCall :=
  tokens.filterMap (fun t => if t = [] then none else some (tokenCall t sub))

/-- Modelled from the spec: one rule of a filter string. `enable` is `+CAT` (`plus` true) or
a bare `CAT`; `disable` is `-CAT`; `level` is `CAT=level`, with or without a leading `+`;
`blank` is an empty token. -/
inductive FilterRule where
  | enable (plus : Bool) (cat : StdString)
  | disable (cat : StdString)
  | level (plus : Bool) (cat : StdString) (lvl : StdString)
  | blank
deriving DecidableEq, Repr, Inhabited

/-- Modelled from the spec: the text of a rule. -/
def FilterRule.token : FilterRule → StdString
  | .enable true cat => '+' :: cat
  | .enable false cat => cat
  | .disable cat => '-' :: cat
  | .level true cat lvl => '+' :: (cat ++ '=' :: lvl)
  | .level false cat lvl => cat ++ '=' :: lvl
  | .blank => []

/-- Modelled from the spec: the call of `addFilter` a rule stands for; an empty token stands
for none. -/
def FilterRule.call (sub : Nat) : FilterRule → Option FilterCall
  | .enable _ cat => some { catName := cat, level := LogLevel_Debug, sub := sub }
  | .disable cat => some { catName := cat, level := LogLevel_Silent, sub := sub }
  | .level _ cat lvl => some { catName := cat, level := stringToLogLevel lvl, sub := sub }
  | .blank => none

/-- The rules whose text can be read in one way only: a category name holds no `:` and no
`=`, a level holds no `:`, a bare category is not empty, and a category name does not begin
with a sign that would be read as the sign of the rule. -/
def FilterRule.WellFormed : FilterRule → Prop
  | .enable true cat => ':' ∉ cat ∧ '=' ∉ cat ∧ cat.head? ≠ some '-'
  | .enable false cat =>
    cat ≠ [] ∧ ':' ∉ cat ∧ '=' ∉ cat ∧ cat.head? ≠ some '+' ∧ cat.head? ≠ some '-'
  | .disable cat => ':' ∉ cat ∧ '=' ∉ cat
  | .level true cat lvl => ':' ∉ cat ∧ '=' ∉ cat ∧ ':' ∉ lvl
  | .level false cat lvl => ':' ∉ cat ∧ '=' ∉ cat ∧ ':' ∉ lvl ∧ cat.head? ≠ some '+'
  | .blank => True

/-- Well-formedness of a rule can be computed. -/
instance FilterRule.decidableWellFormed : (r : FilterRule) → Decidable r.WellFormed
  | .enable true cat =>
    inferInstanceAs (Decidable (':' ∉ cat ∧ '=' ∉ cat ∧ cat.head? ≠ some '-'))
  | .enable false cat =>
    inferInstanceAs (Decidable
      (cat ≠ [] ∧ ':' ∉ cat ∧ '=' ∉ cat ∧ cat.head? ≠ some '+' ∧ cat.head? ≠ some '-'))
  | .disable cat => inferInstanceAs (Decidable (':' ∉ cat ∧ '=' ∉ cat))
  | .level true cat lvl => inferInstanceAs (Decidable (':' ∉ cat ∧ '=' ∉ cat ∧ ':' ∉ lvl))
  | .level false cat lvl =>
    inferInstanceAs (Decidable (':' ∉ cat ∧ '=' ∉ cat ∧ ':' ∉ lvl ∧ cat.head? ≠ some '+'))
  | .blank => inferInstanceAs (Decidable True)

/-- Modelled from the spec: the filter string of a list of rules, colon-separated. -/
def joinRules (rs : List FilterRule) : StdString := joinColon (rs.map FilterRule.token)

/-- A matcher for globs in which `*` stands for any run of characters and every other
character for itself; the first argument bounds the recursion. `os::fnmatch` is not among the
sources: this matcher is used where a concrete one is needed. -/
def starMatchAux : Nat → StdString → StdString → Bool
  | 0, _, _ => false
  | _ + 1, [], [] => true
  | _ + 1, [], _ :: _ => false
  | fuel + 1, p :: ps, [] => if p = '*' then starMatchAux fuel ps [] else false
  | fuel + 1, p :: ps, c :: cs =>
    if p = '*' then starMatchAux fuel ps (c :: cs) || starMatchAux fuel (p :: ps) cs
    else if p = c then starMatchAux fuel ps cs else false

/-- The glob matcher with enough fuel. -/
def starMatch (pattern name : StdString) : Bool :=
  starMatchAux (pattern.length + name.length + 1) pattern name

/-- The level of the last rule of the list whose target matches `name` and whose subscriber
is `id`, if there is one. -/
def lastLevel (fnmatch : StdString → StdString → Bool) (rules : List GlobRule)
    (name : StdString) (id : Nat) (acc : Option Int) : Option Int :=
  rules.foldl (fun a g => if fnmatch g.target name = true ∧ g.id = id then some g.level else a)
    acc

/-! ## Concrete inputs -/

/-- A message with the right magic, type `Call` and object id 0. -/
def objectNoneBody : MessagePrivate :=
  { buffer := [], signature := "",
    header := { MessageHeader.zero with magic := MessagePrivate.magic, id := 1, type := Type_Call,
                                        object := GenericObject_None } }

/-- The process after `Message a; Message b(a); Message c;`: `a` and `b` are both the pointer
0 (body with id 1, use count 2), `c` is the pointer 1 (body with id 2). -/
def threeMessages : Runtime :=
  (Message.new ((⟨0⟩ : Message).copy (Message.new Runtime.init).2).2).2

/-- A fresh message whose buffer was then set to one byte. -/
def oneByteMessage : Message × Runtime :=
  (Message.new Runtime.init).1.setBuffer [7] (Message.new Runtime.init).2

/-- A `Call` received from a client for the directory (service 1, object 1, action 101
`services`), with message id 42. -/
def directoryCall : MessagePrivate :=
  { buffer := [], signature := "",
    header := { MessageHeader.zero with magic := MessagePrivate.magic, id := 42, type := Type_Call,
                                        service := ServiceDirectory, object := 1, action := 101 } }

/-- A `Call` received from a client for service 7, to which the gateway has no socket. -/
def unknownServiceCall : MessagePrivate :=
  { buffer := [], signature := "",
    header := { MessageHeader.zero with magic := MessagePrivate.magic, id := 43, type := Type_Call,
                                        service := 7, object := 1, action := 3 } }

/-- The `Reply` of the directory to the call forwarded under the rewritten id 500. -/
def directoryReply : MessagePrivate :=
  { buffer := [1, 2, 3], signature := "",
    header := { MessageHeader.zero with magic := MessagePrivate.magic, id := 500,
                                        type := Type_Reply, service := ServiceDirectory,
                                        object := 1, action := 101 } }

/-- A gateway that has just started listening (directory socket 10) and accepted the client
socket 20, in a process that has not constructed any message before. -/
def freshGateway : World :=
  GatewayPrivate.newConnection 20 (World.listen Runtime.init 10)

/-- The gateway with one accepted client (socket 20) in a process in which 497 messages were
constructed before the gateway started. -/
def busyGateway : World :=
  GatewayPrivate.newConnection 20 (World.listen { idCounter := 497, cells := [] } 10)

/-- The gateway after the client 20 has sent `directoryCall`: the call was forwarded to the
directory socket 10 under the rewritten id 500. -/
def afterForward : World :=
  (World.step (Event.readyRead 20 directoryCall) freshGateway).getD default

/-- The gateway after the directory has then answered with `directoryReply`. -/
def afterReply : World :=
  (World.step (Event.readyRead 10 directoryReply) afterForward).getD default

/-- In the busy process: the gateway after the client 20 has sent `directoryCall`. -/
def busyAfterForward : World :=
  (World.step (Event.readyRead 20 directoryCall) busyGateway).getD default

/-- In the busy process: the gateway after the client 20 has then sent `unknownServiceCall`. -/
def busyAfterLookup : World :=
  (World.step (Event.readyRead 20 unknownServiceCall) busyAfterForward).getD default

/-- A `Call` received from a client asking the directory for a service (service 1, object 1,
action 100 `service`), with message id 44. -/
def serviceRequest : MessagePrivate :=
  { buffer := [1, 0, 0, 0, 55], signature := "",
    header := { MessageHeader.zero with magic := MessagePrivate.magic, id := 44, type := Type_Call,
                                        service := ServiceDirectory, object := 1,
                                        action := ServiceDirectoryAction_Service } }

/-- A `Call` received from a client for service 0, to which the gateway has no socket. -/
def serviceZeroCall : MessagePrivate :=
  { buffer := [], signature := "",
    header := { MessageHeader.zero with magic := MessagePrivate.magic, id := 45, type := Type_Call,
                                        service := 0, object := 1, action := 3 } }

/-- The `Reply` of the directory to the lookup message with id 2: a list of two strings, the
second one being the endpoint `h:1`. -/
def lookupReply : MessagePrivate :=
  { buffer := [2, 0, 0, 0, 1, 0, 0, 0, 55, 3, 0, 0, 0, 104, 58, 49], signature := "",
    header := { MessageHeader.zero with magic := MessagePrivate.magic, id := 2, type := Type_Reply,
                                        service := ServiceDirectory, object := 0,
                                        action := ServiceDirectoryAction_Service } }

/-- The gateway after the client 20 has sent `unknownServiceCall` (service 7): the call is
staged and a lookup with message id 2 was sent to the directory. -/
def stagedSeven : World :=
  (World.step (Event.readyRead 20 unknownServiceCall) freshGateway).getD default

/-- The gateway after the directory has answered that lookup with `lookupReply`. -/
def answeredSeven : World :=
  (World.step (Event.readyRead 10 lookupReply) stagedSeven).getD default

/-- The gateway after the client 20 has then sent a second call for service 7. -/
def secondSeven : World :=
  (World.step (Event.readyRead 20 unknownServiceCall) answeredSeven).getD default

/-- The gateway after the client 20 has sent `serviceZeroCall` (service 0): the call is staged
and a lookup with message id 2 was sent to the directory. -/
def stagedZero : World :=
  (World.step (Event.readyRead 20 serviceZeroCall) freshGateway).getD default

/-- The gateway after the directory has answered that lookup: socket 11 is registered under
service id 0. -/
def registeredZero : World :=
  (World.step (Event.readyRead 10 lookupReply) stagedZero).getD default

/-- The gateway after socket 11 has become connected. -/
def connectedOnce : World :=
  (World.step (Event.connected 11) registeredZero).getD default

/-- The gateway after a second `Connected` event for socket 11. -/
def connectedTwice : World :=
  (World.step (Event.connected 11) connectedOnce).getD default

/-- A new object (built-in `__metaobject` with functor 100) on which a method `f` is
advertised twice, first with functor 101 and then, under another signature, with functor
102. -/
def overloadedObject : List Nat × Object :=
  Object.advertiseAll [("f".toList, "f::(i)".toList, 101), ("f".toList, "f::(s)".toList, 102)]
    (Object.new "__metaobject::()".toList 100)

/-- A new object with the single built-in method `__metaobject` (functor 100). -/
def freshObject : Object := Object.new "__metaobject::()".toList 100

/-- The `Reply` of the directory to the lookup message with id 2 whose payload holds a list
of one string. -/
def shortLookupReply : MessagePrivate :=
  { buffer := [1, 0, 0, 0, 1, 0, 0, 0, 55], signature := "",
    header := { MessageHeader.zero with magic := MessagePrivate.magic, id := 2, type := Type_Reply,
                                        service := ServiceDirectory, object := 0,
                                        action := ServiceDirectoryAction_Service } }

/-- The `Reply` of the directory to the lookup message with id 2 with an empty payload. -/
def emptyLookupReply : MessagePrivate :=
  { buffer := [], signature := "",
    header := { MessageHeader.zero with magic := MessagePrivate.magic, id := 2, type := Type_Reply,
                                        service := ServiceDirectory, object := 0,
                                        action := ServiceDirectoryAction_Service } }

/-- A message with id 9 arriving from socket 30, which is not a client and has no table. -/
def strayMessage : MessagePrivate :=
  { buffer := [4, 5], signature := "",
    header := { MessageHeader.zero with magic := MessagePrivate.magic, id := 9, type := Type_Reply,
                                        service := 7, object := 1, action := 3 } }


/-- A category `qi` with the level `LogLevel_Debug` for subscriber 0. -/
def debugCategory : Category :=
  { name := "qi".toList, levels := [LogLevel_Debug], maxLevel := LogLevel_Debug }

/-- A category `qi` with levels for the subscribers 0 and 1. -/
def twoLevelCategory : Category :=
  { name := "qi".toList, levels := [LogLevel_Debug, LogLevel_Error], maxLevel := LogLevel_Debug }

/-- The rules of the filter string `qi.*=debug:-qi.foo::+qi.foo.bar:qi.x:+qi.y=3`, which has
one empty token. -/
def exampleRules : List FilterRule :=
  [FilterRule.level false "qi.*".toList "debug".toList, FilterRule.disable "qi.foo".toList,
   FilterRule.blank, FilterRule.enable true "qi.foo.bar".toList,
   FilterRule.enable false "qi.x".toList, FilterRule.level true "qi.y".toList "3".toList]

/-- The log after `addFilter("qi.*", LogLevel_Debug, 0)` and then
`addFilter("qi.foo", LogLevel_Silent, 0)`, which registers the category `qi.foo`. -/
def filteredTwice : Option LogState :=
  (addFilter starMatch "qi.*".toList LogLevel_Debug 0 LogState.empty).bind
    (addFilter starMatch "qi.foo".toList LogLevel_Silent 0)

/-- The log of `filteredTwice` after one more call, `addFilter("qi.*", LogLevel_Info, 0)`. -/
def filteredThrice : Option LogState :=
  filteredTwice.bind (addFilter starMatch "qi.*".toList LogLevel_Info 0)

/-- The log after `addFilter("qi.foo", LogLevel_Silent, 0)` on the empty log: one rule and
the category `qi.foo`. -/
def registeredFoo : LogState :=
  { glGlobRules := [{ target := "qi.foo".toList, id := 0, level := LogLevel_Silent }],
    categories := [{ name := "qi.foo".toList, levels := [LogLevel_Silent],
                     maxLevel := LogLevel_Silent }] }

/-- A `Call` received from a second client for service 0, with message id 46. -/
def secondZeroCall : MessagePrivate :=
  { buffer := [9], signature := "",
    header := { MessageHeader.zero with magic := MessagePrivate.magic, id := 46, type := Type_Call,
                                        service := 0, object := 1, action := 4 } }

/-- The gateway of `stagedZero` after a second client, socket 21, was accepted and sent
`secondZeroCall`: two calls are staged for service 0, one from each client. -/
def stagedZeroTwice : World :=
  (World.step (Event.readyRead 21 secondZeroCall)
    (GatewayPrivate.newConnection 21 stagedZero)).getD default

/-- The gateway of `stagedZeroTwice` after the directory has answered the first lookup: socket
11 is registered under service id 0, with two calls staged for it. -/
def registeredZeroTwice : World :=
  (World.step (Event.readyRead 10 lookupReply) stagedZeroTwice).getD default

/-- A `Reply` arriving from the directory socket with id 500 whose payload is a list of two
strings: the answer to a call `services` forwarded under the rewritten id 500. -/
def directoryListReply : MessagePrivate :=
  { buffer := [2, 0, 0, 0, 1, 0, 0, 0, 55, 3, 0, 0, 0, 104, 58, 49], signature := "",
    header := { MessageHeader.zero with magic := MessagePrivate.magic, id := 500,
                                        type := Type_Reply, service := ServiceDirectory,
                                        object := 1, action := 101 } }
/-! ## Heap lemmas -/

theorem Runtime.deref_modify_self (rt : Runtime) (m : Message) (f : MessagePrivate → MessagePrivate)
    (h : rt.live m) : (rt.modify m f).deref m = f (rt.deref m) := by
  unfold Runtime.live Runtime.useCount at h
  unfold Runtime.modify Runtime.deref
  cases hc : rt.cells[m.p]? with
  | none => simp [hc] at h
  | some c =>
    have hlt : m.p < rt.cells.length := by
      rcases List.getElem?_eq_some_iff.mp hc with ⟨hl, _⟩
      exact hl
    simp [hlt]

theorem Runtime.deref_modify_other (rt : Runtime) (m q : Message) (f : MessagePrivate → MessagePrivate)
    (h : q.p ≠ m.p) : (rt.modify m f).deref q = rt.deref q := by
  unfold Runtime.modify Runtime.deref
  cases hc : rt.cells[m.p]? with
  | none => simp
  | some c => simp [List.getElem?_set_ne (Ne.symm h)]

theorem Runtime.useCount_modify (rt : Runtime) (m q : Message) (f : MessagePrivate → MessagePrivate) :
    (rt.modify m f).useCount q = rt.useCount q := by
  unfold Runtime.modify Runtime.useCount
  cases hc : rt.cells[m.p]? with
  | none => simp
  | some c =>
    by_cases hq : q.p = m.p
    · have hlt : m.p < rt.cells.length := by
        rcases List.getElem?_eq_some_iff.mp hc with ⟨hl, _⟩
        exact hl
      simp [hq, hc, hlt]
    · simp [List.getElem?_set_ne (Ne.symm hq)]

theorem Runtime.idCounter_modify (rt : Runtime) (m : Message) (f : MessagePrivate → MessagePrivate) :
    (rt.modify m f).idCounter = rt.idCounter := by
  unfold Runtime.modify
  cases rt.cells[m.p]? <;> rfl

theorem Runtime.deref_setCount (rt : Runtime) (m q : Message) (n : Nat) :
    (rt.setCount m n).deref q = rt.deref q := by
  unfold Runtime.setCount Runtime.deref
  cases hc : rt.cells[m.p]? with
  | none => simp
  | some c =>
    by_cases hq : q.p = m.p
    · have hlt : m.p < rt.cells.length := by
        rcases List.getElem?_eq_some_iff.mp hc with ⟨hl, _⟩
        exact hl
      simp [hq, hc, hlt]
    · simp [List.getElem?_set_ne (Ne.symm hq)]

theorem Runtime.useCount_setCount_self (rt : Runtime) (m : Message) (n : Nat) (h : rt.live m) :
    (rt.setCount m n).useCount m = n := by
  unfold Runtime.live Runtime.useCount at h
  unfold Runtime.setCount Runtime.useCount
  cases hc : rt.cells[m.p]? with
  | none => simp [hc] at h
  | some c =>
    have hlt : m.p < rt.cells.length := by
      rcases List.getElem?_eq_some_iff.mp hc with ⟨hl, _⟩
      exact hl
    simp [hlt]

theorem Runtime.length_setCount (rt : Runtime) (m : Message) (n : Nat) :
    (rt.setCount m n).cells.length = rt.cells.length := by
  unfold Runtime.setCount
  cases rt.cells[m.p]? <;> simp

theorem Runtime.lt_length_of_live (rt : Runtime) (m : Message) (h : rt.live m) :
    m.p < rt.cells.length := by
  unfold Runtime.live Runtime.useCount at h
  cases hc : rt.cells[m.p]? with
  | none => simp [hc] at h
  | some c =>
    rcases List.getElem?_eq_some_iff.mp hc with ⟨hl, _⟩
    exact hl

theorem Runtime.deref_alloc_new (rt : Runtime) (b : MessagePrivate) :
    (rt.alloc b).2.deref (rt.alloc b).1 = b := by
  simp [Runtime.alloc, Runtime.deref]

theorem Runtime.live_alloc_new (rt : Runtime) (b : MessagePrivate) :
    (rt.alloc b).2.live (rt.alloc b).1 := by
  simp [Runtime.alloc, Runtime.live, Runtime.useCount]

theorem Runtime.useCount_alloc_new (rt : Runtime) (b : MessagePrivate) :
    (rt.alloc b).2.useCount (rt.alloc b).1 = 1 := by
  simp [Runtime.alloc, Runtime.useCount]

theorem Runtime.deref_alloc_old (rt : Runtime) (b : MessagePrivate) (q : Message)
    (h : q.p < rt.cells.length) : (rt.alloc b).2.deref q = rt.deref q := by
  simp [Runtime.alloc, Runtime.deref, List.getElem?_append_left h]

/-! ## Copy-on-write lemmas -/

theorem Message.cowWrite_deref (f : MessagePrivate → MessagePrivate) (m : Message) (rt : Runtime)
    (h : rt.live m) :
    (m.cowWrite f rt).2.deref (m.cowWrite f rt).1 = f (rt.deref m) := by
  unfold Message.cowWrite Message.cow
  by_cases hc : rt.useCount m > 1
  · simp only [hc, if_true]
    rw [Runtime.deref_modify_self _ _ _ (Runtime.live_alloc_new _ _), Runtime.deref_alloc_new]
  · simp only [hc, if_false]
    exact Runtime.deref_modify_self rt m f h

theorem Message.cowWrite_live (f : MessagePrivate → MessagePrivate) (m : Message) (rt : Runtime)
    (h : rt.live m) : (m.cowWrite f rt).2.live (m.cowWrite f rt).1 := by
  unfold Message.cowWrite Message.cow
  by_cases hc : rt.useCount m > 1
  · simp only [hc, if_true]
    unfold Runtime.live
    rw [Runtime.useCount_modify]
    exact Runtime.live_alloc_new _ _
  · simp only [hc, if_false]
    unfold Runtime.live
    rw [Runtime.useCount_modify]
    exact h

theorem Message.cowWrite_shared_frame (f : MessagePrivate → MessagePrivate) (m q : Message)
    (rt : Runtime) (hc : rt.useCount m > 1) (hq : q.p < rt.cells.length) :
    (m.cowWrite f rt).2.deref q = rt.deref q := by
  unfold Message.cowWrite Message.cow
  simp only [hc, if_true]
  have hne : q.p ≠ ((rt.setCount m (rt.useCount m - 1)).alloc (rt.deref m)).1.p := by
    simp only [Runtime.alloc, Runtime.length_setCount]
    omega
  rw [Runtime.deref_modify_other _ _ _ _ hne,
    Runtime.deref_alloc_old _ _ _ (by rw [Runtime.length_setCount]; exact hq),
    Runtime.deref_setCount]

theorem Message.cowWrite_idCounter (f : MessagePrivate → MessagePrivate) (m : Message)
    (rt : Runtime) : (m.cowWrite f rt).2.idCounter = rt.idCounter := by
  unfold Message.cowWrite Message.cow
  by_cases hc : rt.useCount m > 1
  · simp only [hc, if_true, Runtime.idCounter_modify, Runtime.alloc]
    unfold Runtime.setCount
    cases rt.cells[m.p]? <;> rfl
  · simp only [hc, if_false, Runtime.idCounter_modify]

/-- Every setter either returns without touching anything (`setError` on a message that is
not an error) or is `cow()` followed by a write that keeps the header's `size`. -/
theorem Message.apply_cases (s : Setter) (m : Message) (rt : Runtime) :
    m.apply s rt = (m, rt) ∨
    ∃ f : MessagePrivate → MessagePrivate,
      m.apply s rt = m.cowWrite f rt ∧ ∀ b, (f b).header.size = b.header.size := by
  cases s with
  | setId id => exact Or.inr ⟨_, rfl, fun _ => rfl⟩
  | setVersion v => exact Or.inr ⟨_, rfl, fun _ => rfl⟩
  | setType t => exact Or.inr ⟨_, rfl, fun _ => rfl⟩
  | setService x => exact Or.inr ⟨_, rfl, fun _ => rfl⟩
  | setObject x => exact Or.inr ⟨_, rfl, fun _ => rfl⟩
  | setFunction x => exact Or.inr ⟨_, rfl, fun _ => rfl⟩
  | setEvent x => exact Or.inr ⟨_, rfl, fun _ => rfl⟩
  | setBuffer b => exact Or.inr ⟨_, rfl, fun _ => rfl⟩
  | setAddress a => exact Or.inr ⟨_, rfl, fun _ => rfl⟩
  | setValue v =>
    refine Or.inr ⟨_, rfl, fun b => ?_⟩
    by_cases hv : v.kindVoid <;> simp [hv]
  | setValues vs =>
    refine Or.inr ⟨_, rfl, fun b => ?_⟩
    simp [makeGenericTuplePtr]
  | setError e =>
    by_cases ht : m.type rt ≠ Type_Error
    · left; simp [Message.apply, Message.setError, ht]
    · right
      refine ⟨fun b => { b with buffer := encodeString stringSignature ++ encodeString e }, ?_,
        fun _ => rfl⟩
      simp only [Message.apply, Message.setError, ht, if_false, Message.setBuffer]

theorem Message.copy_deref (m q : Message) (rt : Runtime) : (m.copy rt).2.deref q = rt.deref q := by
  unfold Message.copy
  exact Runtime.deref_setCount _ _ _ _

theorem Message.copy_useCount (m : Message) (rt : Runtime) (h : rt.live m) :
    (m.copy rt).2.useCount (m.copy rt).1 = rt.useCount m + 1 := by
  unfold Message.copy
  exact Runtime.useCount_setCount_self rt m _ h

/-! ## Message identifiers -/

theorem intToU32_incrInt32 (i : Int) : intToU32 (incrInt32 i) = (intToU32 i + 1) % 2 ^ 32 := by
  unfold incrInt32 u32ToInt intToU32
  split <;> omega

theorem newMessageId_fst (rt : Runtime) :
    (newMessageId rt).1 = (intToU32 rt.idCounter + 1) % 2 ^ 32 := by
  simp [newMessageId, intToU32_incrInt32]

theorem newMessageIdCalls_counter (k : Nat) (rt : Runtime) :
    intToU32 (newMessageIdCalls k rt).idCounter = (intToU32 rt.idCounter + k) % 2 ^ 32 := by
  induction k with
  | zero =>
    simp only [newMessageIdCalls, Nat.add_zero]
    unfold intToU32
    omega
  | succ k ih =>
    simp only [newMessageIdCalls, newMessageId, intToU32_incrInt32, ih]
    omega

theorem Message.apply_live_size (s : Setter) (m : Message) (rt : Runtime) (h : rt.live m) :
    (m.apply s rt).2.live (m.apply s rt).1 ∧
    ((m.apply s rt).2.deref (m.apply s rt).1).header.size = (rt.deref m).header.size := by
  rcases Message.apply_cases s m rt with h0 | ⟨f, hf, hsize⟩
  · rw [h0]
    exact ⟨h, rfl⟩
  · rw [hf]
    exact ⟨Message.cowWrite_live f m rt h, by rw [Message.cowWrite_deref f m rt h, hsize]⟩

theorem Message.applyAll_live_size (ss : List Setter) (m : Message) (rt : Runtime) (h : rt.live m) :
    (Message.applyAll ss m rt).2.live (Message.applyAll ss m rt).1 ∧
    ((Message.applyAll ss m rt).2.deref (Message.applyAll ss m rt).1).header.size
      = (rt.deref m).header.size := by
  induction ss generalizing m rt with
  | nil => exact ⟨h, rfl⟩
  | cons s ss ih =>
    have hs := Message.apply_live_size s m rt h
    have hrest := ih (m.apply s rt).1 (m.apply s rt).2 hs.1
    simp only [Message.applyAll]
    exact ⟨hrest.1, by rw [hrest.2, hs.2]⟩

theorem Message.new_live_size (rt : Runtime) :
    (Message.new rt).2.live (Message.new rt).1 ∧
    ((Message.new rt).2.deref (Message.new rt).1).header.size = 0 := by
  unfold Message.new
  exact ⟨Runtime.live_alloc_new _ _, by rw [Runtime.deref_alloc_new]; rfl⟩

theorem Message.newAt_live_size (type : Nat) (a : MessageAddress) (rt : Runtime) :
    (Message.newAt type a rt).2.live (Message.newAt type a rt).1 ∧
    ((Message.newAt type a rt).2.deref (Message.newAt type a rt).1).header.size = 0 := by
  have hl1 := Runtime.live_alloc_new (MessagePrivate.new rt).2 (MessagePrivate.new rt).1
  have hl2 := fun f => Message.cowWrite_live f _ _ hl1
  simp only [Message.newAt, Message.setAddress, Message.setType]
  refine ⟨Message.cowWrite_live _ _ _ (hl2 _), ?_⟩
  rw [Message.cowWrite_deref _ _ _ (hl2 _), Message.cowWrite_deref _ _ _ hl1,
    Runtime.deref_alloc_new]
  rfl

theorem Message.new_id (rt : Runtime) :
    (Message.new rt).1.p = rt.cells.length ∧
    (Message.new rt).2.cells.length = rt.cells.length + 1 ∧
    ((Message.new rt).2.deref (Message.new rt).1).header.id
      = (intToU32 rt.idCounter + 1) % 2 ^ 32 ∧
    intToU32 (Message.new rt).2.idCounter = (intToU32 rt.idCounter + 1) % 2 ^ 32 := by
  refine ⟨rfl, ?_, ?_, ?_⟩
  · simp [Message.new, Runtime.alloc, MessagePrivate.new, newMessageId]
  · unfold Message.new
    rw [Runtime.deref_alloc_new]
    simp only [MessagePrivate.new, newMessageId, intToU32_incrInt32, u32]
    omega
  · simp [Message.new, Runtime.alloc, MessagePrivate.new, newMessageId, intToU32_incrInt32]

theorem Message.new_deref_old (rt : Runtime) (q : Message) (h : q.p < rt.cells.length) :
    (Message.new rt).2.deref q = rt.deref q := by
  unfold Message.new
  exact Runtime.deref_alloc_old _ _ _ (by simpa [MessagePrivate.new, newMessageId] using h)

theorem intToU32_init : intToU32 Runtime.init.idCounter = 0 := by
  simp [Runtime.init, intToU32]

/-- One setter called on a message `c` keeps the body of `m` as long as `c` either points
elsewhere or shares the body of `m` with another owner; the same holds afterwards. -/
theorem Message.apply_keeps_other (s : Setter) (m c : Message) (rt : Runtime)
    (hm : m.p < rt.cells.length) (hc : rt.live c) (hshare : c.p = m.p → rt.useCount c > 1) :
    m.p < (c.apply s rt).2.cells.length ∧
    (c.apply s rt).2.live (c.apply s rt).1 ∧
    ((c.apply s rt).1.p = m.p → (c.apply s rt).2.useCount (c.apply s rt).1 > 1) ∧
    (c.apply s rt).2.deref m = rt.deref m := by
  rcases Message.apply_cases s c rt with h0 | ⟨f, hf, _⟩
  · rw [h0]
    exact ⟨hm, hc, hshare, rfl⟩
  · rw [hf]
    refine ⟨?_, Message.cowWrite_live f c rt hc, ?_, ?_⟩
    · unfold Message.cowWrite Message.cow
      by_cases hcount : rt.useCount c > 1
      · simp only [hcount, if_true]
        unfold Runtime.modify
        cases (((rt.setCount c (rt.useCount c - 1)).alloc (rt.deref c)).2.cells)[
          ((rt.setCount c (rt.useCount c - 1)).alloc (rt.deref c)).1.p]? <;>
          simp [Runtime.alloc, Runtime.length_setCount] <;> omega
      · simp only [hcount, if_false]
        unfold Runtime.modify
        cases rt.cells[c.p]? <;> simp <;> omega
    · unfold Message.cowWrite Message.cow
      by_cases hcount : rt.useCount c > 1
      · simp only [hcount, if_true]
        intro hp
        simp only [Runtime.alloc, Runtime.length_setCount] at hp
        omega
      · simp only [hcount, if_false]
        intro hp
        exact absurd (hshare hp) hcount
    · by_cases hcount : rt.useCount c > 1
      · exact Message.cowWrite_shared_frame f c m rt hcount hm
      · have hne : m.p ≠ c.p := fun hp => hcount (hshare hp.symm)
        unfold Message.cowWrite Message.cow
        simp only [hcount, if_false]
        exact Runtime.deref_modify_other rt c m f hne

/-- Any sequence of setters called on a copy of `m` keeps the body of `m`. -/
theorem Message.applyAll_keeps_other (ss : List Setter) (m c : Message) (rt : Runtime)
    (hm : m.p < rt.cells.length) (hc : rt.live c) (hshare : c.p = m.p → rt.useCount c > 1) :
    (Message.applyAll ss c rt).2.deref m = rt.deref m := by
  induction ss generalizing c rt with
  | nil => rfl
  | cons s ss ih =>
    obtain ⟨h1, h2, h3, h4⟩ := Message.apply_keeps_other s m c rt hm hc hshare
    simp only [Message.applyAll]
    rw [ih (c.apply s rt).1 (c.apply s rt).2 h1 h2 h3, h4]

/-! ## Map lemmas -/

theorem mapFind_mapSet_self {K V : Type} [DecidableEq K] [LT K]
    [DecidableRel (fun a b : K => a < b)] (k : K) (v : V) (m : List (K × V)) :
    mapFind k (mapSet k v m) = some v := by
  induction m with
  | nil => simp [mapSet, mapFind]
  | cons kv rest ih =>
    obtain ⟨k', v'⟩ := kv
    unfold mapSet
    by_cases h1 : k = k'
    · simp [h1, mapFind]
    · by_cases h2 : k < k'
      · simp [h1, h2, mapFind]
      · simp [h1, h2, mapFind, ih]

theorem mapFind_mapSet_ne {K V : Type} [DecidableEq K] [LT K]
    [DecidableRel (fun a b : K => a < b)] (k k2 : K) (v : V) (m : List (K × V)) (h : k2 ≠ k) :
    mapFind k2 (mapSet k v m) = mapFind k2 m := by
  induction m with
  | nil => simp [mapSet, mapFind, h]
  | cons kv rest ih =>
    obtain ⟨k', v'⟩ := kv
    unfold mapSet
    by_cases h1 : k = k'
    · subst h1
      simp [mapFind, h]
    · by_cases h2 : k < k'
      · simp [h1, h2, mapFind, h]
      · by_cases h3 : k2 = k'
        · simp [h1, h2, mapFind, h3]
        · simp [h1, h2, mapFind, h3, ih]

theorem mapAt_mapSet_self {K V : Type} [DecidableEq K] [LT K]
    [DecidableRel (fun a b : K => a < b)] (k : K) (v dflt : V) (m : List (K × V)) :
    mapAt k (mapSet k v m) dflt = v := by
  simp [mapAt, mapFind_mapSet_self]

/-! ## Integer conversions -/

theorem intToU32_lt (i : Int) : intToU32 i < 2 ^ 32 := by
  unfold intToU32
  omega

theorem u32_intToU32 (i : Int) : u32 (intToU32 i) = intToU32 i :=
  Nat.mod_eq_of_lt (intToU32_lt i)

theorem intToU32_u32ToInt (n : Nat) : intToU32 (u32ToInt n) = u32 n := by
  unfold intToU32 u32ToInt u32
  split <;> omega

theorem u32ToInt_intToU32 (i : Int) (h1 : -(2 ^ 31) ≤ i) (h2 : i < 2 ^ 31) :
    u32ToInt (intToU32 i) = i := by
  unfold intToU32 u32ToInt
  split <;> omega

/-! ## Copy followed by a write -/

theorem Message.copy_live (m : Message) (rt : Runtime) (h : rt.live m) :
    (m.copy rt).2.live (m.copy rt).1 := by
  unfold Runtime.live
  rw [Message.copy_useCount m rt h]
  omega

theorem Message.copy_length (m : Message) (rt : Runtime) :
    (m.copy rt).2.cells.length = rt.cells.length := by
  unfold Message.copy
  exact Runtime.length_setCount _ _ _

/-- Any sequence of setters called on `Message c(m)` keeps the body of `m`. -/
theorem Message.copy_applyAll_keeps_original (ss : List Setter) (m : Message) (rt : Runtime)
    (hlive : rt.live m) :
    (Message.applyAll ss (m.copy rt).1 (m.copy rt).2).2.deref m = rt.deref m := by
  have hcount : (m.copy rt).2.useCount (m.copy rt).1 > 1 := by
    rw [Message.copy_useCount m rt hlive]
    unfold Runtime.live at hlive
    omega
  have hlen : m.p < (m.copy rt).2.cells.length := by
    rw [Message.copy_length]
    exact Runtime.lt_length_of_live rt m hlive
  have hc : (m.copy rt).2.live (m.copy rt).1 := by
    unfold Runtime.live
    omega
  rw [Message.applyAll_keeps_other ss m (m.copy rt).1 (m.copy rt).2 hlen hc (fun _ => hcount)]
  exact Message.copy_deref m m rt

/-- A write through a copy of `m` reaches a fresh clone: the body of `m`, and every other
body of the heap, stays as it was, and the clone holds the written content. -/
theorem Message.copy_cowWrite (f : MessagePrivate → MessagePrivate) (m : Message) (rt : Runtime)
    (h : rt.live m) :
    (∀ q : Message, q.p < rt.cells.length →
      ((m.copy rt).1.cowWrite f (m.copy rt).2).2.deref q = rt.deref q) ∧
    ((m.copy rt).1.cowWrite f (m.copy rt).2).2.deref ((m.copy rt).1.cowWrite f (m.copy rt).2).1
      = f (rt.deref m) ∧
    ((m.copy rt).1.cowWrite f (m.copy rt).2).2.live ((m.copy rt).1.cowWrite f (m.copy rt).2).1 := by
  have hcount : (m.copy rt).2.useCount (m.copy rt).1 > 1 := by
    rw [Message.copy_useCount m rt h]
    unfold Runtime.live at h
    omega
  refine ⟨fun q hq => ?_, ?_, Message.cowWrite_live f _ _ (Message.copy_live m rt h)⟩
  · rw [Message.cowWrite_shared_frame f _ q _ hcount (by rw [Message.copy_length]; exact hq)]
    exact Message.copy_deref m q rt
  · rw [Message.cowWrite_deref f _ _ (Message.copy_live m rt h)]
    exact congrArg f (Message.copy_deref m m rt)

theorem Message.destroy_deref (m q : Message) (rt : Runtime) :
    (m.destroy rt).deref q = rt.deref q := by
  unfold Message.destroy
  exact Runtime.deref_setCount _ _ _ _

theorem Message.copy_setId (id : Nat) (m : Message) (rt : Runtime) (h : rt.live m) :
    (∀ q : Message, q.p < rt.cells.length →
      ((m.copy rt).1.setId id (m.copy rt).2).2.deref q = rt.deref q) ∧
    ((m.copy rt).1.setId id (m.copy rt).2).2.deref ((m.copy rt).1.setId id (m.copy rt).2).1
      = withId (rt.deref m) (u32 id) ∧
    ((m.copy rt).1.setId id (m.copy rt).2).2.live ((m.copy rt).1.setId id (m.copy rt).2).1 :=
  Message.copy_cowWrite _ m rt h

/-! ## `forwardClientMessage` -/

/-- What `forwardClientMessage` does to the process, for a live message. -/
theorem GatewayPrivate.forwardClientMessage_spec (client service : Socket) (msg : Message)
    (w : World) (h : w.rt.live msg) :
    (GatewayPrivate.forwardClientMessage client service msg w).wire
        = w.wire ++ [(service, withId (w.rt.deref msg) (intToU32 w.reqid))] ∧
    (GatewayPrivate.forwardClientMessage client service msg w).reqid = incrInt32 w.reqid ∧
    (GatewayPrivate.forwardClientMessage client service msg w).gw
        = { w.gw with serviceToClient :=
              (mapSet service
                (mapSet (u32ToInt (intToU32 w.reqid)) (u32ToInt (msg.id w.rt), client)
                  (mapAt service w.gw.serviceToClient []))
                w.gw.serviceToClient) } ∧
    (∀ q : Message, q.p < w.rt.cells.length →
      (GatewayPrivate.forwardClientMessage client service msg w).rt.deref q = w.rt.deref q) := by
  obtain ⟨hframe, hnew, _⟩ := Message.copy_setId (intToU32 w.reqid) msg w.rt h
  have hmsg := hframe msg (Runtime.lt_length_of_live _ _ h)
  unfold GatewayPrivate.forwardClientMessage World.send
  refine ⟨?_, rfl, ?_, fun q hq => ?_⟩
  · simp only [hnew, u32_intToU32]
  · simp only [Message.id, hnew, hmsg, withId, u32_intToU32]
  · simp only [Message.destroy_deref]
    exact hframe q hq

/-! ## `handleServiceRead` -/

theorem mapFind_mapAt_some {V : Type} (s : Socket) (k : Int) (v : V)
    (m : List (Socket × List (Int × V)))
    (h : mapFind k (mapAt s m []) = some v) :
    ∃ request, mapFind s m = some request ∧ mapFind k request = some v := by
  unfold mapAt at h
  cases hm : mapFind s m with
  | none =>
    rw [hm] at h
    simp [mapFind] at h
  | some request =>
    rw [hm] at h
    exact ⟨request, rfl, h⟩

/-- The S.3 branch: with an entry `(o, c)`, `c` not null, under the id of the received
message, the message is sent to `c` with its id replaced and the gateway is left as it was. -/
theorem GatewayPrivate.handleServiceRead_entry (s c : Socket) (o : Int) (reply : Message)
    (w : World) (hlive : w.rt.live reply) (hc : c ≠ 0)
    (hentry : mapFind (u32ToInt (reply.id w.rt)) (mapAt s w.gw.serviceToClient []) = some (o, c)) :
    ∃ w1, GatewayPrivate.handleServiceRead s reply w = some w1 ∧
      w1.wire = w.wire ++ [(c, withId (w.rt.deref reply) (intToU32 o))] ∧
      w1.gw = w.gw ∧ w1.reqid = w.reqid := by
  obtain ⟨request, hreq, hfind⟩ := mapFind_mapAt_some s _ _ _ hentry
  obtain ⟨_, hnew, _⟩ := Message.copy_setId (intToU32 o) reply w.rt hlive
  unfold GatewayPrivate.handleServiceRead
  rw [hreq]
  simp only [hfind, hc, if_false]
  refine ⟨_, rfl, ?_, rfl, rfl⟩
  simp only [World.send, hnew, u32_intToU32]

/-! ## Writes to a body with a single owner -/

theorem Runtime.length_modify (rt : Runtime) (m : Message) (f : MessagePrivate → MessagePrivate) :
    (rt.modify m f).cells.length = rt.cells.length := by
  unfold Runtime.modify
  cases rt.cells[m.p]? <;> simp

theorem Runtime.modify_modify (rt : Runtime) (m : Message) (f g : MessagePrivate → MessagePrivate) :
    (rt.modify m f).modify m g = rt.modify m (fun b => g (f b)) := by
  unfold Runtime.modify
  cases hc : rt.cells[m.p]? with
  | none => simp [hc]
  | some c =>
    have hlt : m.p < rt.cells.length := by
      rcases List.getElem?_eq_some_iff.mp hc with ⟨hl, _⟩
      exact hl
    simp [hlt]

theorem Runtime.live_of_useCount_one (rt : Runtime) (m : Message) (h : rt.useCount m = 1) :
    rt.live m := by
  unfold Runtime.live
  omega

/-- With a single owner, `cow()` does nothing and the setter writes in place. -/
theorem Message.cowWrite_unique (f : MessagePrivate → MessagePrivate) (c : Message) (rt : Runtime)
    (h : rt.useCount c = 1) : c.cowWrite f rt = (c, rt.modify c f) := by
  unfold Message.cowWrite Message.cow
  simp [h]

theorem Message.new_useCount (rt : Runtime) : (Message.new rt).2.useCount (Message.new rt).1 = 1 := by
  unfold Message.new
  exact Runtime.useCount_alloc_new _ _

theorem Message.new_deref (rt : Runtime) :
    (Message.new rt).2.deref (Message.new rt).1 = (MessagePrivate.new rt).1 := by
  unfold Message.new
  exact Runtime.deref_alloc_new _ _

/-- On a message with a single owner, `buildReplyFrom(call)` is one write in place. -/
theorem Message.buildReplyFrom_unique (call m : Message) (rt : Runtime)
    (hm : rt.useCount m = 1) (hne : call.p ≠ m.p) :
    m.buildReplyFrom call rt
      = (m, rt.modify m (fun b => { b with header := { b.header with
            id := u32 (call.id rt), type := u8 Type_Reply, service := u32 (call.service rt),
            object := u32 (call.object rt), action := u32 (call.function rt) } })) := by
  unfold Message.buildReplyFrom Message.setId Message.setType Message.setService
    Message.setObject Message.setFunction
  rw [Message.cowWrite_unique _ m rt hm]
  simp only
  rw [Message.cowWrite_unique _ m _ (by rw [Runtime.useCount_modify]; exact hm)]
  simp only
  rw [Message.cowWrite_unique _ m _ (by simp only [Runtime.useCount_modify]; exact hm)]
  simp only
  rw [Message.cowWrite_unique _ m _ (by simp only [Runtime.useCount_modify]; exact hm)]
  simp only
  rw [Message.cowWrite_unique _ m _ (by simp only [Runtime.useCount_modify]; exact hm)]
  simp only [Runtime.modify_modify, Message.service, Message.object, Message.function,
    Runtime.deref_modify_other _ _ _ _ hne]

theorem Message.new_p (rt : Runtime) : (Message.new rt).1.p = rt.cells.length := rfl

theorem Message.streamWrite_eq (bytes : Buffer) (m : Message) (rt : Runtime) :
    m.streamWrite bytes rt = rt.modify m (fun b => { b with buffer := b.buffer ++ bytes }) := rfl

/-- The C.1 branch of `handleClientRead`, for a live message: the message sent to the client
and the state left behind. -/
theorem GatewayPrivate.handleClientRead_directory_service (client : Socket) (msg : Message)
    (w : World) (hlive : w.rt.live msg)
    (hc1 : msg.service w.rt = ServiceDirectory ∧
      msg.function w.rt = ServiceDirectoryAction_Service) :
    (GatewayPrivate.handleClientRead client msg w).wire
        = w.wire ++ [(client,
            { buffer := encodeUIntVector (ServiceDirectory :: w.gw.endpoints), signature := "",
              header := { MessageHeader.zero with
                magic := MessagePrivate.magic, id := u32 (msg.id w.rt), type := Type_Reply,
                service := ServiceDirectory, object := u32 (msg.object w.rt),
                action := ServiceDirectoryAction_Service } })] ∧
    (GatewayPrivate.handleClientRead client msg w).gw = w.gw ∧
    (GatewayPrivate.handleClientRead client msg w).reqid = w.reqid ∧
    (GatewayPrivate.handleClientRead client msg w).rt.deref msg = w.rt.deref msg := by
  have hlt : msg.p < w.rt.cells.length := Runtime.lt_length_of_live _ _ hlive
  have hne : msg.p ≠ (Message.new w.rt).1.p := by
    rw [Message.new_p]
    omega
  have hold : (Message.new w.rt).2.deref msg = w.rt.deref msg := Message.new_deref_old _ _ hlt
  have hbuild := Message.buildReplyFrom_unique msg (Message.new w.rt).1 (Message.new w.rt).2
    (Message.new_useCount w.rt) hne
  have hlive2 : (Message.new w.rt).2.live (Message.new w.rt).1 := (Message.new_live_size w.rt).1
  unfold GatewayPrivate.handleClientRead
  rw [if_pos hc1]
  simp only [hbuild, Message.streamWrite_eq, Runtime.modify_modify, World.send,
    Message.destroy_deref, Message.service, Message.id, Message.object, Message.function,
    Runtime.deref_modify_other _ _ _ _ hne, hold,
    Runtime.deref_modify_self _ _ _ hlive2, Message.new_deref]
  have hs : (w.rt.deref msg).header.service = ServiceDirectory := hc1.1
  have hf : (w.rt.deref msg).header.action = ServiceDirectoryAction_Service := hc1.2
  rw [hs, hf]
  refine ⟨?_, trivial, trivial, trivial⟩
  simp [MessagePrivate.new, MessageHeader.zero, u32, u8, Type_Reply, ServiceDirectory,
    ServiceDirectoryAction_Service, MessagePrivate.magic]

theorem Message.copy_eq (m : Message) (rt : Runtime) :
    m.copy rt = (m, rt.setCount m (rt.useCount m + 1)) := rfl

theorem Message.new_idCounter_id (rt : Runtime) :
    (MessagePrivate.new rt).1
      = { buffer := [], signature := "",
          header := { MessageHeader.zero with
            id := (intToU32 rt.idCounter + 1) % 2 ^ 32, magic := MessagePrivate.magic } } := by
  simp only [MessagePrivate.new, newMessageId, intToU32_incrInt32, u32]
  congr 2
  · omega

/-- The C.2 branch of `handleClientRead`, for a live message: the lookup sent to the directory
socket and the state left behind. -/
theorem GatewayPrivate.handleClientRead_unknown_service (client : Socket) (msg : Message)
    (w : World) (hlive : w.rt.live msg)
    (hc1 : ¬ (msg.service w.rt = ServiceDirectory ∧
      msg.function w.rt = ServiceDirectoryAction_Service))
    (hnone : mapFind (msg.service w.rt) w.gw.services = none) :
    (GatewayPrivate.handleClientRead client msg w).wire
        = w.wire ++ [(w.gw.tso,
            { buffer := encodeU32 (msg.service w.rt), signature := "",
              header := { MessageHeader.zero with
                magic := MessagePrivate.magic, id := (intToU32 w.rt.idCounter + 1) % 2 ^ 32,
                type := Type_Call, service := ServiceDirectory, object := 0,
                action := ServiceDirectoryAction_Service } })] ∧
    (GatewayPrivate.handleClientRead client msg w).gw
        = { w.gw with
              serviceToClient :=
                (mapSet w.gw.tso
                  (mapSet (u32ToInt ((intToU32 w.rt.idCounter + 1) % 2 ^ 32)) ((0 : Int), (0 : Socket))
                    (mapAt w.gw.tso w.gw.serviceToClient []))
                  w.gw.serviceToClient),
              pendingMessage :=
                (mapSet (msg.service w.rt)
                  (mapAt (msg.service w.rt) w.gw.pendingMessage [] ++ [(msg, client)])
                  w.gw.pendingMessage) } ∧
    (GatewayPrivate.handleClientRead client msg w).reqid = w.reqid ∧
    (GatewayPrivate.handleClientRead client msg w).rt.deref msg = w.rt.deref msg := by
  have hlt : msg.p < w.rt.cells.length := Runtime.lt_length_of_live _ _ hlive
  have hne : msg.p ≠ (Message.new w.rt).1.p := by
    rw [Message.new_p]
    omega
  have hold : (Message.new w.rt).2.deref msg = w.rt.deref msg := Message.new_deref_old _ _ hlt
  have hone := Message.new_useCount w.rt
  have hlive2 : (Message.new w.rt).2.live (Message.new w.rt).1 := (Message.new_live_size w.rt).1
  unfold GatewayPrivate.handleClientRead
  rw [if_neg hc1, hnone]
  simp only [Message.streamWrite_eq, Message.setType, Message.setService, Message.setPath,
    Message.setObject, Message.setFunction, Message.cowWrite_unique, Runtime.useCount_modify,
    hone, Runtime.modify_modify, Message.copy_eq, World.send, Message.destroy_deref,
    Runtime.deref_setCount, Message.service, Message.id,
    Runtime.deref_modify_other _ _ _ _ hne, hold,
    Runtime.deref_modify_self _ _ _ hlive2, Message.new_deref, Message.new_idCounter_id]
  refine ⟨?_, ?_, trivial, trivial⟩
  · simp [MessageHeader.zero, u32, u8, Type_Call, ServiceDirectory,
      ServiceDirectoryAction_Service, MessagePrivate.magic]
  · cases hp : mapFind (w.rt.deref msg).header.service w.gw.pendingMessage with
    | none => simp [mapAt, hp, MessageHeader.zero]
    | some pendingMsg => simp [mapAt, hp, MessageHeader.zero]

/-! ## Use counts across `forwardClientMessage` -/

theorem Runtime.useCount_setCount_other (rt : Runtime) (m q : Message) (n : Nat)
    (h : q.p ≠ m.p) : (rt.setCount m n).useCount q = rt.useCount q := by
  unfold Runtime.setCount Runtime.useCount
  cases hc : rt.cells[m.p]? with
  | none => simp
  | some c => simp [List.getElem?_set_ne (Ne.symm h)]

theorem Runtime.useCount_alloc_old (rt : Runtime) (b : MessagePrivate) (q : Message)
    (h : q.p < rt.cells.length) : (rt.alloc b).2.useCount q = rt.useCount q := by
  simp [Runtime.alloc, Runtime.useCount, List.getElem?_append_left h]

theorem Runtime.length_alloc (rt : Runtime) (b : MessagePrivate) :
    (rt.alloc b).2.cells.length = rt.cells.length + 1 := by
  simp [Runtime.alloc]

theorem Runtime.live_setCount_succ (rt : Runtime) (m : Message) (n : Nat) (h : rt.live m) :
    (rt.setCount m (n + 1)).live m := by
  unfold Runtime.live
  rw [Runtime.useCount_setCount_self rt m _ h]
  omega

/-- A copy whose first write is released again: every body that existed before keeps its
use count, and the heap only grows. -/
theorem Message.copy_cowWrite_destroy_useCount (f : MessagePrivate → MessagePrivate)
    (m q : Message) (rt : Runtime) (h : rt.live m) (hq : q.p < rt.cells.length) :
    (((m.copy rt).1.cowWrite f (m.copy rt).2).1.destroy
        ((m.copy rt).1.cowWrite f (m.copy rt).2).2).useCount q = rt.useCount q ∧
    rt.cells.length ≤ (((m.copy rt).1.cowWrite f (m.copy rt).2).1.destroy
        ((m.copy rt).1.cowWrite f (m.copy rt).2).2).cells.length := by
  have hpos : 0 < rt.useCount m := h
  have hlive1 : (rt.setCount m (rt.useCount m + 1)).live m := Runtime.live_setCount_succ rt m _ h
  have hcount : (rt.setCount m (rt.useCount m + 1)).useCount m = rt.useCount m + 1 :=
    Runtime.useCount_setCount_self rt m _ h
  have hgt : (rt.setCount m (rt.useCount m + 1)).useCount m > 1 := by omega
  have hlen2 : ((rt.setCount m (rt.useCount m + 1)).setCount m
      ((rt.setCount m (rt.useCount m + 1)).useCount m - 1)).cells.length = rt.cells.length := by
    rw [Runtime.length_setCount, Runtime.length_setCount]
  have hnew : q.p ≠ (((rt.setCount m (rt.useCount m + 1)).setCount m
      ((rt.setCount m (rt.useCount m + 1)).useCount m - 1)).alloc
        ((rt.setCount m (rt.useCount m + 1)).deref m)).1.p := by
    simp only [Runtime.alloc, hlen2]
    omega
  simp only [Message.copy_eq, Message.cowWrite, Message.cow, hgt, if_true, Message.destroy]
  constructor
  · rw [Runtime.useCount_setCount_other _ _ _ _ hnew, Runtime.useCount_modify,
      Runtime.useCount_alloc_old _ _ _ (by rw [hlen2]; exact hq)]
    by_cases hqm : q.p = m.p
    · have hqe : q = m := by
        cases q
        cases m
        simp_all
      rw [hqe, Runtime.useCount_setCount_self _ _ _ hlive1, hcount]
      omega
    · rw [Runtime.useCount_setCount_other _ _ _ _ hqm, Runtime.useCount_setCount_other _ _ _ _ hqm]
  · rw [Runtime.length_setCount, Runtime.length_modify, Runtime.length_alloc, hlen2]
    omega

/-- After `forwardClientMessage`, every message that was live is still live, with the same
body, and the heap has not shrunk. -/
theorem GatewayPrivate.forwardClientMessage_live (client service : Socket) (msg q : Message)
    (w : World) (h : w.rt.live msg) (hq : w.rt.live q) :
    (GatewayPrivate.forwardClientMessage client service msg w).rt.live q ∧
    (GatewayPrivate.forwardClientMessage client service msg w).rt.deref q = w.rt.deref q := by
  have hlt := Runtime.lt_length_of_live _ _ hq
  obtain ⟨_, _, _, hframe⟩ := GatewayPrivate.forwardClientMessage_spec client service msg w h
  refine ⟨?_, hframe q hlt⟩
  have hu := (Message.copy_cowWrite_destroy_useCount
    (fun b => { b with header := { b.header with id := u32 (intToU32 w.reqid) } })
    msg q w.rt h hlt).1
  unfold Runtime.live
  unfold GatewayPrivate.forwardClientMessage World.send Message.setId
  simp only
  rw [hu]
  exact hq

/-! ## The drain loop of `onConnected` -/

theorem sentList_congr (service : Socket) (rt rt2 : Runtime) (n : Nat)
    (pmv : PendingMessageVector) (h : ∀ x ∈ pmv, rt2.deref x.1 = rt.deref x.1) :
    sentList service rt2 n pmv = sentList service rt n pmv := by
  induction pmv generalizing n with
  | nil => rfl
  | cons x rest ih =>
    obtain ⟨m, c⟩ := x
    simp only [sentList]
    rw [h (m, c) (List.mem_cons_self _ _), ih _ (fun y hy => h y (List.mem_cons_of_mem _ hy))]

theorem recordAll_congr (rt rt2 : Runtime) (n : Nat) (pmv : PendingMessageVector)
    (t : RequestIdMap) (h : ∀ x ∈ pmv, rt2.deref x.1 = rt.deref x.1) :
    recordAll rt2 n pmv t = recordAll rt n pmv t := by
  induction pmv generalizing n t with
  | nil => rfl
  | cons x rest ih =>
    obtain ⟨m, c⟩ := x
    simp only [recordAll, Message.id]
    rw [h (m, c) (List.mem_cons_self _ _), ih _ _ (fun y hy => h y (List.mem_cons_of_mem _ hy))]

/-- The drain loop: what is sent, what is recorded, and what is left alone. -/
theorem forwardPending_spec (service : Socket) (pmv : PendingMessageVector) (w : World)
    (hlive : ∀ x ∈ pmv, w.rt.live x.1) :
    (forwardPending service pmv w).wire
        = w.wire ++ sentList service w.rt (intToU32 w.reqid) pmv ∧
    mapAt service (forwardPending service pmv w).gw.serviceToClient []
        = recordAll w.rt (intToU32 w.reqid) pmv (mapAt service w.gw.serviceToClient []) ∧
    (∀ s2 : Socket, s2 ≠ service →
      mapFind s2 (forwardPending service pmv w).gw.serviceToClient
        = mapFind s2 w.gw.serviceToClient) ∧
    (forwardPending service pmv w).gw.services = w.gw.services ∧
    (forwardPending service pmv w).gw.pendingMessage = w.gw.pendingMessage ∧
    (forwardPending service pmv w).gw.clients = w.gw.clients ∧
    (forwardPending service pmv w).gw.tso = w.gw.tso ∧
    (forwardPending service pmv w).gw.endpoints = w.gw.endpoints ∧
    intToU32 (forwardPending service pmv w).reqid = (intToU32 w.reqid + pmv.length) % 2 ^ 32 ∧
    (∀ q : Message, w.rt.live q →
      (forwardPending service pmv w).rt.live q ∧
      (forwardPending service pmv w).rt.deref q = w.rt.deref q) := by
  induction pmv generalizing w with
  | nil =>
    have hmod : intToU32 w.reqid % 2 ^ 32 = intToU32 w.reqid :=
      Nat.mod_eq_of_lt (intToU32_lt _)
    simp only [forwardPending, sentList, recordAll, List.append_nil, List.length_nil,
      Nat.add_zero, hmod]
    simp
  | cons x rest ih =>
    obtain ⟨m, c⟩ := x
    have hm : w.rt.live m := hlive (m, c) (List.mem_cons_self _ _)
    obtain ⟨hwire, hreq, hgw, _⟩ := GatewayPrivate.forwardClientMessage_spec c service m w hm
    have hfl := fun q hq => GatewayPrivate.forwardClientMessage_live c service m q w hm hq
    have hrest : ∀ y ∈ rest, (GatewayPrivate.forwardClientMessage c service m w).rt.live y.1 :=
      fun y hy => (hfl y.1 (hlive y (List.mem_cons_of_mem _ hy))).1
    have hderef : ∀ y ∈ rest,
        (GatewayPrivate.forwardClientMessage c service m w).rt.deref y.1 = w.rt.deref y.1 :=
      fun y hy => (hfl y.1 (hlive y (List.mem_cons_of_mem _ hy))).2
    obtain ⟨i1, i2, i4, i5, i6, i7, i8, i9, i10, i11⟩ :=
      ih (GatewayPrivate.forwardClientMessage c service m w) hrest
    have hnext : intToU32 (GatewayPrivate.forwardClientMessage c service m w).reqid
        = (intToU32 w.reqid + 1) % 2 ^ 32 := by
      rw [hreq, intToU32_incrInt32]
    simp only [forwardPending]
    refine ⟨?_, ?_, ?_, ?_, ?_, ?_, ?_, ?_, ?_, ?_⟩
    · rw [i1, hwire, hnext, sentList_congr _ _ _ _ _ hderef]
      simp [sentList]
    · rw [i2, hnext, recordAll_congr _ _ _ _ _ hderef, hgw]
      simp only [mapAt_mapSet_self, recordAll]
    · intro s2 hs2
      rw [i4 s2 hs2, hgw]
      exact mapFind_mapSet_ne _ _ _ _ hs2
    · rw [i5, hgw]
    · rw [i6, hgw]
    · rw [i7, hgw]
    · rw [i8, hgw]
    · rw [i9, hgw]
    · rw [i10, hnext]
      simp only [List.length_cons]
      omega
    · intro q hq
      obtain ⟨l1, l2⟩ := hfl q hq
      obtain ⟨l3, l4⟩ := i11 q l1
      exact ⟨l3, by rw [l4, l2]⟩

theorem u32ToInt_ne (a b : Nat) (ha : a < 2 ^ 32) (hb : b < 2 ^ 32) (h : a ≠ b) :
    u32ToInt a ≠ u32ToInt b := by
  unfold u32ToInt
  split <;> split <;> omega

theorem sentList_length (service : Socket) (rt : Runtime) (n : Nat) (pmv : PendingMessageVector) :
    (sentList service rt n pmv).length = pmv.length := by
  induction pmv generalizing n with
  | nil => rfl
  | cons x rest ih =>
    obtain ⟨m, c⟩ := x
    simp [sentList, ih]

/-- Without wrap-around, the `i`-th message of a drain is the `i`-th staged message under the
id `n + i`. -/
theorem sentList_getElem (service : Socket) (rt : Runtime) (n : Nat) (pmv : PendingMessageVector)
    (hwrap : n + pmv.length ≤ 2 ^ 32) (i : Nat) (hi : i < pmv.length) :
    (sentList service rt n pmv)[i]? = some (service, withId (rt.deref (pmv.get ⟨i, hi⟩).1) (n + i)) := by
  induction pmv generalizing n i with
  | nil => simp at hi
  | cons x rest ih =>
    obtain ⟨m, c⟩ := x
    cases i with
    | zero => simp [sentList]
    | succ j =>
      have hj : j < rest.length := by simpa using hi
      have hlen : n + 1 + rest.length ≤ 2 ^ 32 := by
        simp only [List.length_cons] at hwrap
        omega
      have hmod : (n + 1) % 2 ^ 32 = n + 1 := Nat.mod_eq_of_lt (by omega)
      simp only [sentList, List.getElem?_cons_succ, hmod]
      rw [ih (n + 1) hlen j hj]
      simp only [List.get_eq_getElem, List.getElem_cons_succ]
      have harith : n + 1 + j = n + (j + 1) := by omega
      rw [harith]

theorem recordAll_find_below (rt : Runtime) (n a : Nat) (pmv : PendingMessageVector)
    (t : RequestIdMap) (hwrap : n + pmv.length ≤ 2 ^ 32) (ha : a < n) :
    mapFind (u32ToInt a) (recordAll rt n pmv t) = mapFind (u32ToInt a) t := by
  induction pmv generalizing n t with
  | nil => rfl
  | cons x rest ih =>
    obtain ⟨m, c⟩ := x
    simp only [List.length_cons] at hwrap
    simp only [recordAll]
    have hne : u32ToInt a ≠ u32ToInt n := u32ToInt_ne a n (by omega) (by omega) (by omega)
    cases rest with
    | nil =>
      simp only [recordAll]
      exact mapFind_mapSet_ne _ _ _ _ hne
    | cons y rest2 =>
      simp only [List.length_cons] at hwrap
      have hmod : (n + 1) % 2 ^ 32 = n + 1 := Nat.mod_eq_of_lt (by omega)
      rw [hmod, ih (n + 1) _ (by simp only [List.length_cons]; omega) (by omega)]
      exact mapFind_mapSet_ne _ _ _ _ hne

/-- Without wrap-around, after a drain the table holds under the id `n + i` the original id
and the client of the `i`-th staged message. -/
theorem recordAll_find (rt : Runtime) (n : Nat) (pmv : PendingMessageVector) (t : RequestIdMap)
    (hwrap : n + pmv.length ≤ 2 ^ 32) (i : Nat) (hi : i < pmv.length) :
    mapFind (u32ToInt (n + i)) (recordAll rt n pmv t)
      = some (u32ToInt ((pmv.get ⟨i, hi⟩).1.id rt), (pmv.get ⟨i, hi⟩).2) := by
  induction pmv generalizing n i t with
  | nil => simp at hi
  | cons x rest ih =>
    obtain ⟨m, c⟩ := x
    simp only [List.length_cons] at hwrap
    cases i with
    | zero =>
      simp only [recordAll, Nat.add_zero, List.get_eq_getElem, List.getElem_cons_zero]
      cases rest with
      | nil =>
        simp only [recordAll]
        exact mapFind_mapSet_self _ _ _
      | cons y rest2 =>
        simp only [List.length_cons] at hwrap
        have hmod : (n + 1) % 2 ^ 32 = n + 1 := Nat.mod_eq_of_lt (by omega)
        rw [hmod, recordAll_find_below rt (n + 1) n _ _
          (by simp only [List.length_cons]; omega) (by omega)]
        exact mapFind_mapSet_self _ _ _
    | succ j =>
      have hj : j < rest.length := by simpa using hi
      have hmod : (n + 1) % 2 ^ 32 = n + 1 := Nat.mod_eq_of_lt (by omega)
      simp only [recordAll, hmod]
      have harith : n + (j + 1) = n + 1 + j := by omega
      rw [harith, ih (n + 1) _ (by omega) j hj]
      simp only [List.get_eq_getElem, List.getElem_cons_succ]

/-! ## `onConnected` -/

theorem mapAt_mapSet_mapAt {V : Type} (k k2 : Nat) (m : List (Nat × V)) (dflt : V) :
    mapAt k2 (mapSet k (mapAt k m dflt) m) dflt = mapAt k2 m dflt := by
  by_cases h : k2 = k
  · subst h
    exact mapAt_mapSet_self _ _ _ _
  · unfold mapAt
    rw [mapFind_mapSet_ne _ _ _ _ h]

/-- What `onConnected` does for a socket other than the directory socket that is registered
under the service id `k`. -/
theorem GatewayPrivate.onConnected_spec (service : Socket) (k : Nat) (w : World)
    (hk : findServiceId service w.gw.services = some k) (hne : service ≠ w.gw.tso)
    (hlive : ∀ x ∈ mapAt k w.gw.pendingMessage [], w.rt.live x.1) :
    (GatewayPrivate.onConnected service w).wire
        = w.wire ++ sentList service w.rt (intToU32 w.reqid) (mapAt k w.gw.pendingMessage []) ∧
    mapAt service (GatewayPrivate.onConnected service w).gw.serviceToClient []
        = recordAll w.rt (intToU32 w.reqid) (mapAt k w.gw.pendingMessage [])
            (mapAt service w.gw.serviceToClient []) ∧
    (∀ k2 : Nat, mapAt k2 (GatewayPrivate.onConnected service w).gw.pendingMessage []
        = mapAt k2 w.gw.pendingMessage []) ∧
    (GatewayPrivate.onConnected service w).gw.services = w.gw.services ∧
    (GatewayPrivate.onConnected service w).gw.tso = w.gw.tso ∧
    intToU32 (GatewayPrivate.onConnected service w).reqid
        = (intToU32 w.reqid + (mapAt k w.gw.pendingMessage []).length) % 2 ^ 32 ∧
    (∀ q : Message, w.rt.live q →
      (GatewayPrivate.onConnected service w).rt.live q ∧
      (GatewayPrivate.onConnected service w).rt.deref q = w.rt.deref q) := by
  unfold GatewayPrivate.onConnected
  rw [if_neg hne, hk]
  simp only
  obtain ⟨h1, h2, _, h4, h5, _, h7, _, h9, h10⟩ := forwardPending_spec service
    (mapAt k w.gw.pendingMessage [])
    { w with gw := { w.gw with
        pendingMessage := mapSet k (mapAt k w.gw.pendingMessage []) w.gw.pendingMessage } }
    hlive
  refine ⟨h1, h2, fun k2 => ?_, h4, h7, h9, h10⟩
  rw [h5]
  exact mapAt_mapSet_mapAt k k2 _ _

/-! ## Claims about `Message` -/

/-- In every build, `Message::isValid` returns true exactly when the magic is
the sentinel, the type is not `Type_None` and the object id is not `GenericObject_None`. -/
theorem Message.isValid_true_iff (ndebug : Bool) (m : Message) (rt : Runtime) :
    m.isValid ndebug rt = some true ↔
      ((rt.deref m).header.magic = MessagePrivate.magic ∧ m.type rt ≠ Type_None ∧
        m.object rt ≠ GenericObject_None) := by
  unfold Message.isValid
  have hm : u32 MessagePrivate.magic = MessagePrivate.magic := by decide
  rw [hm]
  by_cases h1 : (rt.deref m).header.magic = MessagePrivate.magic <;>
    by_cases h2 : m.type rt = Type_None <;>
    by_cases h3 : m.object rt = GenericObject_None <;> simp [h1, h2, h3]

/-- With assertions compiled out, `Message::isValid` returns false in
every case in which it does not return true. -/
theorem Message.isValid_ndebug_false (m : Message) (rt : Runtime)
    (h : ¬ ((rt.deref m).header.magic = MessagePrivate.magic ∧ m.type rt ≠ Type_None ∧
        m.object rt ≠ GenericObject_None)) :
    m.isValid true rt = some false := by
  unfold Message.isValid
  have hm : u32 MessagePrivate.magic = MessagePrivate.magic := by decide
  rw [hm]
  by_cases h1 : (rt.deref m).header.magic = MessagePrivate.magic <;>
    by_cases h2 : m.type rt = Type_None <;>
    by_cases h3 : m.object rt = GenericObject_None <;> simp_all

/-- C1, evaluated at the failing input: with assertions compiled in, `Message::isValid` on a message with the
sentinel magic, type `Call` and object id 0 does not return false: the assertion inside the
object branch fails and the call aborts. -/
theorem Message.isValid_object_none_aborts :
    (⟨0⟩ : Message).isValid false { idCounter := 1, cells := [⟨objectNoneBody, 1⟩] } = none ∧
    (⟨0⟩ : Message).isValid true { idCounter := 1, cells := [⟨objectNoneBody, 1⟩] } = some false := by
  decide

/-- C2: after `Message c(m)`, calling any setter on `c` leaves the body observed through `m`
(every header field, the payload and the signature) unchanged. -/
theorem Message.copy_setter_keeps_original (rt : Runtime) (m : Message) (s : Setter)
    (hlive : rt.live m) :
    ((m.copy rt).1.apply s (m.copy rt).2).2.deref m = rt.deref m := by
  have hcount : (m.copy rt).2.useCount (m.copy rt).1 > 1 := by
    rw [Message.copy_useCount m rt hlive]
    unfold Runtime.live at hlive
    omega
  have hlen : m.p < (m.copy rt).2.cells.length := by
    unfold Message.copy
    rw [Runtime.length_setCount]
    exact Runtime.lt_length_of_live rt m hlive
  rcases Message.apply_cases s (m.copy rt).1 (m.copy rt).2 with h | ⟨f, h, _⟩
  · rw [h]
    exact Message.copy_deref m m rt
  · rw [h, Message.cowWrite_shared_frame f _ m _ hcount hlen]
    exact Message.copy_deref m m rt

/-- A concrete instance of the preceding theorem, with its hypotheses discharged. -/
theorem Message.copy_setter_keeps_original_witness :
    (Message.new Runtime.init).2.live (Message.new Runtime.init).1 ∧
    (((Message.new Runtime.init).1.copy (Message.new Runtime.init).2).1.apply (Setter.setId 77)
        ((Message.new Runtime.init).1.copy (Message.new Runtime.init).2).2).2.deref
          (Message.new Runtime.init).1
      = (Message.new Runtime.init).2.deref (Message.new Runtime.init).1 :=
  ⟨by decide, Message.copy_setter_keeps_original _ _ _ (by decide)⟩

/-- C3, evaluated at the failing input: with `b` a copy of `a`, the assignment `a = c` changes
the id and the header observed through `b` (from id 1 to id 2), because `operator=` writes
through the shared pointer without calling `cow()`. -/
theorem Message.assign_changes_shared_copy :
    threeMessages.useCount ⟨0⟩ = 2 ∧
    (⟨0⟩ : Message).id threeMessages = 1 ∧
    (⟨1⟩ : Message).id threeMessages = 2 ∧
    (⟨0⟩ : Message).id ((⟨0⟩ : Message).assign ⟨1⟩ threeMessages) = 2 ∧
    ((⟨0⟩ : Message).assign ⟨1⟩ threeMessages).deref ⟨0⟩ ≠ threeMessages.deref ⟨0⟩ := by
  decide

/-- C4: `setAddress(a)` makes `address()` return `a` and `id()`, `service()`, `object()`,
`action()` return its components, keeping type, version and payload; `Message(type, a)` has
`type() == type` and `address() == a`. The components are 32-bit values, the type an 8-bit
one. -/
theorem Message.setAddress_address (rt : Runtime) (m : Message) (a : MessageAddress) (type : Nat)
    (hlive : rt.live m) (h1 : a.messageId < 2 ^ 32) (h2 : a.serviceId < 2 ^ 32)
    (h3 : a.objectId < 2 ^ 32) (h4 : a.functionId < 2 ^ 32) (ht : type < 2 ^ 8) :
    ((m.setAddress a rt).1.address (m.setAddress a rt).2 = a ∧
      (m.setAddress a rt).1.id (m.setAddress a rt).2 = a.messageId ∧
      (m.setAddress a rt).1.service (m.setAddress a rt).2 = a.serviceId ∧
      (m.setAddress a rt).1.object (m.setAddress a rt).2 = a.objectId ∧
      (m.setAddress a rt).1.action (m.setAddress a rt).2 = a.functionId ∧
      (m.setAddress a rt).1.type (m.setAddress a rt).2 = m.type rt ∧
      (m.setAddress a rt).1.version (m.setAddress a rt).2 = m.version rt ∧
      (m.setAddress a rt).1.buffer (m.setAddress a rt).2 = m.buffer rt) ∧
    ((Message.newAt type a rt).1.type (Message.newAt type a rt).2 = type ∧
      (Message.newAt type a rt).1.address (Message.newAt type a rt).2 = a) := by
  have e1 : u32 a.messageId = a.messageId := Nat.mod_eq_of_lt h1
  have e2 : u32 a.serviceId = a.serviceId := Nat.mod_eq_of_lt h2
  have e3 : u32 a.objectId = a.objectId := Nat.mod_eq_of_lt h3
  have e4 : u32 a.functionId = a.functionId := Nat.mod_eq_of_lt h4
  have e5 : u8 type = type := Nat.mod_eq_of_lt ht
  constructor
  · simp only [Message.address, Message.id, Message.service, Message.object, Message.action,
      Message.type, Message.version, Message.buffer, Message.setAddress]
    rw [Message.cowWrite_deref _ m rt hlive]
    simp [e1, e2, e3, e4]
  · have hl1 := Runtime.live_alloc_new (MessagePrivate.new rt).2 (MessagePrivate.new rt).1
    have hl2 := fun f => Message.cowWrite_live f _ _ hl1
    simp only [Message.newAt, Message.setAddress, Message.setType, Message.address, Message.type]
    rw [Message.cowWrite_deref _ _ _ (hl2 _), Message.cowWrite_deref _ _ _ hl1]
    simp [e1, e2, e3, e4, e5]

/-- A concrete instance of the preceding theorem, with its hypotheses discharged. -/
theorem Message.setAddress_address_witness :
    ((Message.new Runtime.init).2.live (Message.new Runtime.init).1 ∧
      (⟨9, 8, 7, 6⟩ : MessageAddress).messageId < 2 ^ 32) ∧
    ((Message.new Runtime.init).1.setAddress ⟨9, 8, 7, 6⟩ (Message.new Runtime.init).2).1.address
        ((Message.new Runtime.init).1.setAddress ⟨9, 8, 7, 6⟩ (Message.new Runtime.init).2).2
      = ⟨9, 8, 7, 6⟩ :=
  ⟨⟨by decide, by decide⟩,
   (Message.setAddress_address (Message.new Runtime.init).2 (Message.new Runtime.init).1
      ⟨9, 8, 7, 6⟩ Type_Call (by decide) (by decide) (by decide) (by decide) (by decide)
      (by decide)).1.1⟩

/-- C5: counted from process start, the `k`-th call of `newMessageId` returns `k` (for
`1 ≤ k < 2^32`), and as long as the counter does not wrap, two messages default-constructed
one after the other carry the ids `j + 1` and `j + 2`, `j` being the number of earlier calls:
the ids are distinct and strictly increasing. -/
theorem newMessageId_kth_call (k : Nat) (hk : 1 ≤ k) (hwrap : k < 2 ^ 32) :
    (newMessageId (newMessageIdCalls (k - 1) Runtime.init)).1 = k ∧
    ∀ (rt : Runtime) (j : Nat), intToU32 rt.idCounter = j → j + 2 < 2 ^ 32 →
      (Message.new rt).1.id (Message.new (Message.new rt).2).2 = j + 1 ∧
      (Message.new (Message.new rt).2).1.id (Message.new (Message.new rt).2).2 = j + 2 ∧
      (Message.new rt).1.id (Message.new (Message.new rt).2).2
        < (Message.new (Message.new rt).2).1.id (Message.new (Message.new rt).2).2 := by
  constructor
  · rw [newMessageId_fst, newMessageIdCalls_counter]
    rw [intToU32_init]
    omega
  · intro rt j hj hj2
    have n1 := Message.new_id rt
    have n2 := Message.new_id (Message.new rt).2
    have hfirst : (Message.new (Message.new rt).2).2.deref (Message.new rt).1
        = (Message.new rt).2.deref (Message.new rt).1 := by
      exact Message.new_deref_old _ _ (by rw [n1.1, n1.2.1]; omega)
    have a1 : (Message.new rt).1.id (Message.new (Message.new rt).2).2 = j + 1 := by
      unfold Message.id
      rw [hfirst, n1.2.2.1, hj]
      omega
    have a2 : (Message.new (Message.new rt).2).1.id (Message.new (Message.new rt).2).2 = j + 2 := by
      unfold Message.id
      rw [n2.2.2.1, n1.2.2.2, hj]
      omega
    exact ⟨a1, a2, by omega⟩

/-- A concrete instance of the preceding theorem, with its hypotheses discharged. -/
theorem newMessageId_kth_call_witness :
    ((1 : Nat) ≤ 3 ∧ (3 : Nat) < 2 ^ 32) ∧
    (newMessageId (newMessageIdCalls (3 - 1) Runtime.init)).1 = 3 :=
  ⟨by decide, (newMessageId_kth_call 3 (by decide) (by decide)).1⟩

/-- C6, counterexample: after `Message m; m.setBuffer(b)` with a one-byte buffer, the size
field of the header is 0 while the payload is one byte long. -/
theorem Message.size_field_not_payload_length :
    (oneByteMessage.2.deref oneByteMessage.1).header.size = 0 ∧
    (oneByteMessage.1.buffer oneByteMessage.2).length = 1 ∧
    (oneByteMessage.2.deref oneByteMessage.1).header.size
      ≠ (oneByteMessage.1.buffer oneByteMessage.2).length := by
  decide

/-- C6, amended: for every message reachable from either constructor by any sequence of
setters, the size field of the header is 0 (no constructor or setter writes it after the
initial `memset`), so it equals the payload length exactly when the payload is empty. -/
theorem Message.size_field_stays_zero (rt : Runtime) (ss : List Setter) (type : Nat)
    (a : MessageAddress) :
    (((Message.applyAll ss (Message.new rt).1 (Message.new rt).2).2.deref
        (Message.applyAll ss (Message.new rt).1 (Message.new rt).2).1).header.size = 0 ∧
      (((Message.applyAll ss (Message.new rt).1 (Message.new rt).2).2.deref
          (Message.applyAll ss (Message.new rt).1 (Message.new rt).2).1).header.size
        = ((Message.applyAll ss (Message.new rt).1 (Message.new rt).2).1.buffer
            (Message.applyAll ss (Message.new rt).1 (Message.new rt).2).2).length ↔
       (Message.applyAll ss (Message.new rt).1 (Message.new rt).2).1.buffer
            (Message.applyAll ss (Message.new rt).1 (Message.new rt).2).2 = [])) ∧
    (((Message.applyAll ss (Message.newAt type a rt).1 (Message.newAt type a rt).2).2.deref
        (Message.applyAll ss (Message.newAt type a rt).1 (Message.newAt type a rt).2).1).header.size
        = 0 ∧
      (((Message.applyAll ss (Message.newAt type a rt).1 (Message.newAt type a rt).2).2.deref
          (Message.applyAll ss (Message.newAt type a rt).1 (Message.newAt type a rt).2).1).header.size
        = ((Message.applyAll ss (Message.newAt type a rt).1 (Message.newAt type a rt).2).1.buffer
            (Message.applyAll ss (Message.newAt type a rt).1 (Message.newAt type a rt).2).2).length ↔
       (Message.applyAll ss (Message.newAt type a rt).1 (Message.newAt type a rt).2).1.buffer
            (Message.applyAll ss (Message.newAt type a rt).1 (Message.newAt type a rt).2).2 = [])) := by
  have h1 := Message.applyAll_live_size ss _ _ (Message.new_live_size rt).1
  have h2 := Message.applyAll_live_size ss _ _ (Message.newAt_live_size type a rt).1
  rw [(Message.new_live_size rt).2] at h1
  rw [(Message.newAt_live_size type a rt).2] at h2
  refine ⟨⟨h1.2, ?_⟩, ⟨h2.2, ?_⟩⟩
  · rw [h1.2]
    constructor
    · intro h
      exact List.length_eq_zero.mp h.symm
    · intro h
      rw [h]
      rfl
  · rw [h2.2]
    constructor
    · intro h
      exact List.length_eq_zero.mp h.symm
    · intro h
      rw [h]
      rfl

/-! ## Claims about the gateway -/

/-- C7: for a client message (not a directory `Service` request) whose service id has an
entry `s` in `_services`, `handleClientRead` sends to `s` exactly one message, equal to the
original except for its id, which is the value of the gateway counter; it records under that
id, in the table of `s`, the original id and the client; the counter advances; and the
message held by the caller keeps its body, hence its original id. -/
theorem GatewayPrivate.handleClientRead_known_service (client s : Socket) (msg : Message)
    (w : World) (hlive : w.rt.live msg)
    (hserv : mapFind (msg.service w.rt) w.gw.services = some s)
    (hnot : ¬ (msg.service w.rt = ServiceDirectory ∧
              msg.function w.rt = ServiceDirectoryAction_Service)) :
    (GatewayPrivate.handleClientRead client msg w).wire
        = w.wire ++ [(s, withId (w.rt.deref msg) (intToU32 w.reqid))] ∧
    mapFind (u32ToInt (intToU32 w.reqid))
        (mapAt s (GatewayPrivate.handleClientRead client msg w).gw.serviceToClient [])
      = some (u32ToInt (msg.id w.rt), client) ∧
    intToU32 (u32ToInt (msg.id w.rt)) = u32 (msg.id w.rt) ∧
    (GatewayPrivate.handleClientRead client msg w).reqid = incrInt32 w.reqid ∧
    (GatewayPrivate.handleClientRead client msg w).rt.deref msg = w.rt.deref msg ∧
    msg.id (GatewayPrivate.handleClientRead client msg w).rt = msg.id w.rt := by
  have hrw : GatewayPrivate.handleClientRead client msg w
      = GatewayPrivate.forwardClientMessage client s msg w := by
    unfold GatewayPrivate.handleClientRead
    rw [if_neg hnot, hserv]
  obtain ⟨hwire, hreq, hgw, hframe⟩ := GatewayPrivate.forwardClientMessage_spec client s msg w hlive
  have hkeep := hframe msg (Runtime.lt_length_of_live _ _ hlive)
  rw [hrw]
  refine ⟨hwire, ?_, intToU32_u32ToInt _, hreq, hkeep, ?_⟩
  · rw [hgw]
    simp only [mapAt_mapSet_self, mapFind_mapSet_self]
  · unfold Message.id
    rw [hkeep]

/-- A concrete instance of the preceding theorem, with its hypotheses discharged. -/
theorem GatewayPrivate.handleClientRead_known_service_witness :
    ((World.receive directoryCall freshGateway).2.rt.live
        (World.receive directoryCall freshGateway).1 ∧
      mapFind ((World.receive directoryCall freshGateway).1.service
          (World.receive directoryCall freshGateway).2.rt)
        (World.receive directoryCall freshGateway).2.gw.services = some 10) ∧
    (GatewayPrivate.handleClientRead 20 (World.receive directoryCall freshGateway).1
        (World.receive directoryCall freshGateway).2).wire
      = (World.receive directoryCall freshGateway).2.wire ++
          [(10, withId ((World.receive directoryCall freshGateway).2.rt.deref
                  (World.receive directoryCall freshGateway).1)
                (intToU32 (World.receive directoryCall freshGateway).2.reqid))] :=
  ⟨⟨by decide, by decide⟩,
   (GatewayPrivate.handleClientRead_known_service 20 10
      (World.receive directoryCall freshGateway).1 (World.receive directoryCall freshGateway).2
      (by decide) (by decide) (by decide)).1⟩

/-- Let a call with id `o` be forwarded for client `c` to the service socket `s` under the
rewritten id `r` (the value of the gateway counter). In any later state `w` in which the
table of `s` still holds under `r` what the forwarding recorded, a message with id `r`
arriving from `s` makes `handleServiceRead` send exactly one message, to `c`: the received
message with its id restored to `o`. The entry can be overwritten before the reply arrives,
by the insertion of a directory lookup. -/
theorem GatewayPrivate.handleServiceRead_restores_id (c s : Socket) (msg reply : Message)
    (w0 w : World) (hmsg : w0.rt.live msg) (hc : c ≠ 0) (hid : msg.id w0.rt < 2 ^ 32)
    (hkept : mapFind (u32ToInt (intToU32 w0.reqid)) (mapAt s w.gw.serviceToClient [])
      = mapFind (u32ToInt (intToU32 w0.reqid))
          (mapAt s (GatewayPrivate.forwardClientMessage c s msg w0).gw.serviceToClient []))
    (hreply : w.rt.live reply) (hrid : reply.id w.rt = intToU32 w0.reqid) :
    ∃ w1, GatewayPrivate.handleServiceRead s reply w = some w1 ∧
      w1.wire = w.wire ++ [(c, withId (w.rt.deref reply) (msg.id w0.rt))] := by
  obtain ⟨_, _, hgw, _⟩ := GatewayPrivate.forwardClientMessage_spec c s msg w0 hmsg
  have hentry : mapFind (u32ToInt (reply.id w.rt)) (mapAt s w.gw.serviceToClient [])
      = some (u32ToInt (msg.id w0.rt), c) := by
    rw [hrid, hkept, hgw]
    simp only [mapAt_mapSet_self, mapFind_mapSet_self]
  obtain ⟨w1, h1, h2, _⟩ := GatewayPrivate.handleServiceRead_entry s c _ reply w hreply hc hentry
  refine ⟨w1, h1, ?_⟩
  rw [h2, intToU32_u32ToInt]
  unfold u32
  rw [Nat.mod_eq_of_lt hid]

/-- A concrete instance of the preceding theorem, with its hypotheses discharged. -/
theorem GatewayPrivate.handleServiceRead_restores_id_witness :
    ((World.receive directoryCall freshGateway).2.rt.live
        (World.receive directoryCall freshGateway).1 ∧
      (20 : Socket) ≠ 0 ∧
      (World.receive directoryReply afterForward).2.rt.live
        (World.receive directoryReply afterForward).1 ∧
      (World.receive directoryReply afterForward).1.id
          (World.receive directoryReply afterForward).2.rt = 500) ∧
    ∃ w1, GatewayPrivate.handleServiceRead 10 (World.receive directoryReply afterForward).1
        (World.receive directoryReply afterForward).2 = some w1 ∧
      w1.wire = (World.receive directoryReply afterForward).2.wire ++
        [(20, withId ((World.receive directoryReply afterForward).2.rt.deref
            (World.receive directoryReply afterForward).1)
          ((World.receive directoryCall freshGateway).1.id
            (World.receive directoryCall freshGateway).2.rt))] :=
  ⟨⟨by decide, by decide, by decide, by decide⟩,
   GatewayPrivate.handleServiceRead_restores_id 20 10
     (World.receive directoryCall freshGateway).1 (World.receive directoryReply afterForward).1
     (World.receive directoryCall freshGateway).2 (World.receive directoryReply afterForward).2
     (by decide) (by decide) (by decide) (by decide) (by decide) (by decide)⟩

/-- C8, evaluated at the failing input: in a process in which 497 messages were constructed
before the gateway started, the call with id 42 of client 20 is forwarded to the directory
socket 10 under the rewritten id 500. A reply with id 500 arriving then is sent to client 20
with its id restored to 42. When client 20 first sends a call for the unknown service 7, the
lookup message the gateway builds has id 500 too and its insertion replaces the entry by
`(0, NULL)`: the reply with id 500 from socket 10 is then taken for the answer to the lookup,
nothing is sent to client 20 (nor to any socket), and a connection to a service socket is
opened from its payload; with a payload that is not a list of two strings the handling is
undefined. -/
theorem GatewayPrivate.reply_lost_after_lookup :
    mapFind 500 (mapAt 10 busyAfterForward.gw.serviceToClient []) = some (42, 20) ∧
    (World.step (Event.readyRead 10 directoryListReply) busyAfterForward).map
        (fun w => w.wire)
      = some (busyAfterForward.wire ++ [(20, withId directoryListReply 42)]) ∧
    World.step (Event.readyRead 20 unknownServiceCall) busyAfterForward = some busyAfterLookup ∧
    mapFind 500 (mapAt 10 busyAfterLookup.gw.serviceToClient []) = some (0, 0) ∧
    (World.step (Event.readyRead 10 directoryListReply) busyAfterLookup).map
        (fun w => w.wire) = some busyAfterLookup.wire ∧
    (World.step (Event.readyRead 10 directoryListReply) busyAfterLookup).map
        (fun w => w.connects) = some (busyAfterLookup.connects ++ [(11, [104, 58, 49])]) ∧
    World.step (Event.readyRead 10 directoryReply) busyAfterLookup = none := by
  decide

/-- C9, evaluated at the failing input: in a process in which 497 messages were constructed
before the gateway started, a client call to the directory is forwarded on the directory
socket 10 under the key 500 (first value of the gateway counter) and recorded with the
original id 42 and the client 20; the next client call, for the unknown service 7, builds a
lookup message whose id is 500 and the C.2 insertion overwrites that entry by `(0, NULL)`. -/
theorem GatewayPrivate.lookup_overwrites_forward_entry :
    World.step (Event.readyRead 20 directoryCall) busyGateway = some busyAfterForward ∧
    World.step (Event.readyRead 20 unknownServiceCall) busyAfterForward = some busyAfterLookup ∧
    mapFind 500 (mapAt 10 busyAfterForward.gw.serviceToClient []) = some (42, 20) ∧
    mapFind 500 (mapAt 10 busyAfterLookup.gw.serviceToClient []) = some (0, 0) := by
  decide

/-- C10, counterexample: after the reply to the call forwarded under the rewritten id 500 on
the directory socket 10 has been delivered to the client 20 (with its id restored to 42), the
table of socket 10 still contains the key 500 and the rewrite map is not empty. -/
theorem GatewayPrivate.entry_remains_after_reply :
    World.step (Event.readyRead 20 directoryCall) freshGateway = some afterForward ∧
    World.step (Event.readyRead 10 directoryReply) afterForward = some afterReply ∧
    afterReply.wire = afterForward.wire ++ [(20, withId directoryReply 42)] ∧
    mapFind 500 (mapAt 10 afterReply.gw.serviceToClient []) = some (42, 20) ∧
    afterReply.gw.serviceToClient ≠ [] := by
  decide

/-- C10, amended: when `handleServiceRead` delivers to the client `c` the reply matching the
rewritten id `r` on the service socket `s`, the correlation table is left exactly as it was:
the table of `s` still maps `r` to the same pair, and the rewrite map is not empty. -/
theorem GatewayPrivate.handleServiceRead_keeps_table (s c : Socket) (o : Int) (reply : Message)
    (w : World) (hlive : w.rt.live reply) (hc : c ≠ 0)
    (hentry : mapFind (u32ToInt (reply.id w.rt)) (mapAt s w.gw.serviceToClient []) = some (o, c)) :
    ∃ w1, GatewayPrivate.handleServiceRead s reply w = some w1 ∧
      w1.wire = w.wire ++ [(c, withId (w.rt.deref reply) (intToU32 o))] ∧
      w1.gw.serviceToClient = w.gw.serviceToClient ∧
      mapFind (u32ToInt (reply.id w.rt)) (mapAt s w1.gw.serviceToClient []) = some (o, c) ∧
      w1.gw.serviceToClient ≠ [] := by
  obtain ⟨w1, h1, h2, h3, _⟩ := GatewayPrivate.handleServiceRead_entry s c o reply w hlive hc hentry
  refine ⟨w1, h1, h2, by rw [h3], by rw [h3]; exact hentry, ?_⟩
  rw [h3]
  intro hnil
  rw [hnil] at hentry
  simp [mapAt, mapFind] at hentry

/-- A concrete instance of the preceding theorem, with its hypotheses discharged. -/
theorem GatewayPrivate.handleServiceRead_keeps_table_witness :
    ((World.receive directoryReply afterForward).2.rt.live
        (World.receive directoryReply afterForward).1 ∧
      (20 : Socket) ≠ 0 ∧
      mapFind (u32ToInt ((World.receive directoryReply afterForward).1.id
            (World.receive directoryReply afterForward).2.rt))
          (mapAt 10 (World.receive directoryReply afterForward).2.gw.serviceToClient [])
        = some (42, 20)) ∧
    ∃ w1, GatewayPrivate.handleServiceRead 10 (World.receive directoryReply afterForward).1
        (World.receive directoryReply afterForward).2 = some w1 ∧
      w1.wire = (World.receive directoryReply afterForward).2.wire ++
        [(20, withId ((World.receive directoryReply afterForward).2.rt.deref
            (World.receive directoryReply afterForward).1) (intToU32 42))] ∧
      w1.gw.serviceToClient = (World.receive directoryReply afterForward).2.gw.serviceToClient ∧
      mapFind (u32ToInt ((World.receive directoryReply afterForward).1.id
            (World.receive directoryReply afterForward).2.rt))
          (mapAt 10 w1.gw.serviceToClient []) = some (42, 20) ∧
      w1.gw.serviceToClient ≠ [] :=
  ⟨⟨by decide, by decide, by decide⟩,
   GatewayPrivate.handleServiceRead_keeps_table 10 20 42
     (World.receive directoryReply afterForward).1 (World.receive directoryReply afterForward).2
     (by decide) (by decide) (by decide)⟩

/-- C11: for a client message with service `ServiceDirectory` and function `Service`,
`handleClientRead` sends exactly one message, to that client: a `Reply` with the id, service,
object and action of the request whose payload is the encoded list made of the directory
service id followed by the gateway's own endpoint list; the gateway object (services map,
pending map, correlation table, client list) and the counter are unchanged. -/
theorem GatewayPrivate.handleClientRead_answers_service_request (client : Socket) (msg : Message)
    (w : World) (hlive : w.rt.live msg)
    (hc1 : msg.service w.rt = ServiceDirectory ∧
      msg.function w.rt = ServiceDirectoryAction_Service) :
    (GatewayPrivate.handleClientRead client msg w).wire
        = w.wire ++ [(client,
            { buffer := encodeUIntVector (ServiceDirectory :: w.gw.endpoints), signature := "",
              header := { MessageHeader.zero with
                magic := MessagePrivate.magic, id := u32 (msg.id w.rt), type := Type_Reply,
                service := ServiceDirectory, object := u32 (msg.object w.rt),
                action := ServiceDirectoryAction_Service } })] ∧
    (GatewayPrivate.handleClientRead client msg w).gw.services = w.gw.services ∧
    (GatewayPrivate.handleClientRead client msg w).gw.pendingMessage = w.gw.pendingMessage ∧
    (GatewayPrivate.handleClientRead client msg w).gw.serviceToClient = w.gw.serviceToClient ∧
    (GatewayPrivate.handleClientRead client msg w).gw = w.gw ∧
    (GatewayPrivate.handleClientRead client msg w).reqid = w.reqid := by
  obtain ⟨h1, h2, h3, _⟩ :=
    GatewayPrivate.handleClientRead_directory_service client msg w hlive hc1
  exact ⟨h1, by rw [h2], by rw [h2], by rw [h2], h2, h3⟩

/-- A concrete instance of the preceding theorem, with its hypotheses discharged. -/
theorem GatewayPrivate.handleClientRead_answers_service_request_witness :
    ((World.receive serviceRequest freshGateway).2.rt.live
        (World.receive serviceRequest freshGateway).1 ∧
      (World.receive serviceRequest freshGateway).1.service
          (World.receive serviceRequest freshGateway).2.rt = ServiceDirectory ∧
      (World.receive serviceRequest freshGateway).1.function
          (World.receive serviceRequest freshGateway).2.rt = ServiceDirectoryAction_Service) ∧
    (GatewayPrivate.handleClientRead 20 (World.receive serviceRequest freshGateway).1
        (World.receive serviceRequest freshGateway).2).gw
      = (World.receive serviceRequest freshGateway).2.gw :=
  ⟨⟨by decide, by decide, by decide⟩,
   (GatewayPrivate.handleClientRead_answers_service_request 20
      (World.receive serviceRequest freshGateway).1 (World.receive serviceRequest freshGateway).2
      (by decide) (by decide)).2.2.2.2.1⟩

/-- C12: for a client message (not a directory `Service` request) whose service id `k` has no
entry in `_services`, `handleClientRead` appends `(message, client)` at the end of
`pending[k]`, records in the table of the directory socket, under the id of the lookup
message, an entry whose owner is `NULL`, sends exactly one message, a `Call` to the directory
socket addressed to service `ServiceDirectory`, function `Service`, carrying `k`, and leaves
`_services` and the gateway counter as they were. -/
theorem GatewayPrivate.handleClientRead_stages_and_looks_up (client : Socket) (msg : Message)
    (w : World) (hlive : w.rt.live msg)
    (hc1 : ¬ (msg.service w.rt = ServiceDirectory ∧
      msg.function w.rt = ServiceDirectoryAction_Service))
    (hnone : mapFind (msg.service w.rt) w.gw.services = none) :
    mapFind (msg.service w.rt) (GatewayPrivate.handleClientRead client msg w).gw.pendingMessage
        = some (mapAt (msg.service w.rt) w.gw.pendingMessage [] ++ [(msg, client)]) ∧
    (∀ k2 : Nat, k2 ≠ msg.service w.rt →
      mapFind k2 (GatewayPrivate.handleClientRead client msg w).gw.pendingMessage
        = mapFind k2 w.gw.pendingMessage) ∧
    (GatewayPrivate.handleClientRead client msg w).rt.deref msg = w.rt.deref msg ∧
    mapFind (u32ToInt ((intToU32 w.rt.idCounter + 1) % 2 ^ 32))
        (mapAt w.gw.tso (GatewayPrivate.handleClientRead client msg w).gw.serviceToClient [])
      = some (0, 0) ∧
    (GatewayPrivate.handleClientRead client msg w).wire
        = w.wire ++ [(w.gw.tso,
            { buffer := encodeU32 (msg.service w.rt), signature := "",
              header := { MessageHeader.zero with
                magic := MessagePrivate.magic, id := (intToU32 w.rt.idCounter + 1) % 2 ^ 32,
                type := Type_Call, service := ServiceDirectory, object := 0,
                action := ServiceDirectoryAction_Service } })] ∧
    (GatewayPrivate.handleClientRead client msg w).gw.services = w.gw.services ∧
    (GatewayPrivate.handleClientRead client msg w).reqid = w.reqid := by
  obtain ⟨h1, h2, h3, h4⟩ :=
    GatewayPrivate.handleClientRead_unknown_service client msg w hlive hc1 hnone
  refine ⟨?_, fun k2 hk2 => ?_, h4, ?_, h1, by rw [h2], h3⟩
  · rw [h2]
    exact mapFind_mapSet_self _ _ _
  · rw [h2]
    exact mapFind_mapSet_ne _ _ _ _ hk2
  · rw [h2]
    simp only [mapAt_mapSet_self, mapFind_mapSet_self]

/-- A concrete instance of the preceding theorem, with its hypotheses discharged. -/
theorem GatewayPrivate.handleClientRead_stages_and_looks_up_witness :
    ((World.receive unknownServiceCall freshGateway).2.rt.live
        (World.receive unknownServiceCall freshGateway).1 ∧
      mapFind ((World.receive unknownServiceCall freshGateway).1.service
          (World.receive unknownServiceCall freshGateway).2.rt)
        (World.receive unknownServiceCall freshGateway).2.gw.services = none) ∧
    mapFind ((World.receive unknownServiceCall freshGateway).1.service
          (World.receive unknownServiceCall freshGateway).2.rt)
        (GatewayPrivate.handleClientRead 20 (World.receive unknownServiceCall freshGateway).1
          (World.receive unknownServiceCall freshGateway).2).gw.pendingMessage
      = some (mapAt ((World.receive unknownServiceCall freshGateway).1.service
            (World.receive unknownServiceCall freshGateway).2.rt)
          (World.receive unknownServiceCall freshGateway).2.gw.pendingMessage [] ++
            [((World.receive unknownServiceCall freshGateway).1, 20)]) :=
  ⟨⟨by decide, by decide⟩,
   (GatewayPrivate.handleClientRead_stages_and_looks_up 20
      (World.receive unknownServiceCall freshGateway).1
      (World.receive unknownServiceCall freshGateway).2
      (by decide) (by decide) (by decide)).1⟩

/-- C13, evaluated at the failing input: the gateway looks up service 7 for a client; when the
reply of the directory arrives, `handleGatewayServiceRead` opens socket 11 and records it
under the key 0, not under 7; `_services` has no entry for 7, so the next client message for
service 7 is staged again and a second lookup is sent instead of being forwarded. -/
theorem GatewayPrivate.lookup_reply_registers_under_zero :
    World.step (Event.readyRead 20 unknownServiceCall) freshGateway = some stagedSeven ∧
    World.step (Event.readyRead 10 lookupReply) stagedSeven = some answeredSeven ∧
    World.step (Event.readyRead 20 unknownServiceCall) answeredSeven = some secondSeven ∧
    mapFind 2 (mapAt 10 stagedSeven.gw.serviceToClient []) = some (0, 0) ∧
    answeredSeven.gw.services = [(0, 11), (1, 10)] ∧
    mapFind 7 answeredSeven.gw.services = none ∧
    (mapAt 7 secondSeven.gw.pendingMessage []).length = 2 ∧
    secondSeven.wire.map (fun x => (x.1, x.2.header.service, x.2.header.action))
      = [(10, ServiceDirectory, ServiceDirectoryAction_Service),
         (10, ServiceDirectory, ServiceDirectoryAction_Service)] := by
  decide

/-- C14: when a socket registered in `_services` under the id `k` becomes connected (the
directory socket having nothing staged), `onConnected` forwards the messages staged in
`pending[k]` in staging order and sends nothing else: as long as the gateway counter does not
wrap, the `i`-th message sent is the `i`-th staged message with its id replaced by the counter
value plus `i` (so the rewritten ids increase strictly with `i`), and the table of the socket
holds under that id the original id and the client of the `i`-th staged message. -/
theorem GatewayPrivate.onConnected_forwards_in_order (service : Socket) (k : Nat) (w : World)
    (hk : findServiceId service w.gw.services = some k)
    (hdir : service = w.gw.tso → mapAt k w.gw.pendingMessage [] = [])
    (hlive : ∀ x ∈ mapAt k w.gw.pendingMessage [], w.rt.live x.1)
    (hwrap : intToU32 w.reqid + (mapAt k w.gw.pendingMessage []).length ≤ 2 ^ 32) :
    ∃ sent : List (Socket × MessagePrivate),
      (GatewayPrivate.onConnected service w).wire = w.wire ++ sent ∧
      sent.length = (mapAt k w.gw.pendingMessage []).length ∧
      ∀ (i : Nat) (hi : i < (mapAt k w.gw.pendingMessage []).length),
        sent[i]? = some (service,
          withId (w.rt.deref ((mapAt k w.gw.pendingMessage []).get ⟨i, hi⟩).1)
            (intToU32 w.reqid + i)) ∧
        mapFind (u32ToInt (intToU32 w.reqid + i))
            (mapAt service (GatewayPrivate.onConnected service w).gw.serviceToClient [])
          = some (u32ToInt (((mapAt k w.gw.pendingMessage []).get ⟨i, hi⟩).1.id w.rt),
                  ((mapAt k w.gw.pendingMessage []).get ⟨i, hi⟩).2) := by
  by_cases hne : service = w.gw.tso
  · have hempty := hdir hne
    refine ⟨[], ?_, by rw [hempty]; rfl, fun i hi => ?_⟩
    · unfold GatewayPrivate.onConnected
      rw [if_pos hne]
      simp
    · rw [hempty] at hi
      simp at hi
  · obtain ⟨h1, h2, _⟩ := GatewayPrivate.onConnected_spec service k w hk hne hlive
    refine ⟨sentList service w.rt (intToU32 w.reqid) (mapAt k w.gw.pendingMessage []), h1,
      sentList_length _ _ _ _, fun i hi => ⟨sentList_getElem _ _ _ _ hwrap i hi, ?_⟩⟩
    rw [h2]
    exact recordAll_find _ _ _ _ hwrap i hi

/-- A concrete instance of the preceding theorem, with its hypotheses discharged. -/
theorem GatewayPrivate.onConnected_forwards_in_order_witness :
    (findServiceId 11 registeredZeroTwice.gw.services = some 0 ∧
      (11 : Socket) ≠ registeredZeroTwice.gw.tso ∧
      (mapAt 0 registeredZeroTwice.gw.pendingMessage []).map
          (fun x => (x.1.id registeredZeroTwice.rt, x.2)) = [(45, 20), (46, 21)] ∧
      (∀ x ∈ mapAt 0 registeredZeroTwice.gw.pendingMessage [], registeredZeroTwice.rt.live x.1) ∧
      intToU32 registeredZeroTwice.reqid = 500 ∧
      intToU32 registeredZeroTwice.reqid
          + (mapAt 0 registeredZeroTwice.gw.pendingMessage []).length ≤ 2 ^ 32) ∧
    ∃ sent : List (Socket × MessagePrivate),
      (GatewayPrivate.onConnected 11 registeredZeroTwice).wire
        = registeredZeroTwice.wire ++ sent ∧
      sent.length = (mapAt 0 registeredZeroTwice.gw.pendingMessage []).length ∧
      ∀ (i : Nat) (hi : i < (mapAt 0 registeredZeroTwice.gw.pendingMessage []).length),
        sent[i]? = some (11,
          withId (registeredZeroTwice.rt.deref
              ((mapAt 0 registeredZeroTwice.gw.pendingMessage []).get ⟨i, hi⟩).1)
            (intToU32 registeredZeroTwice.reqid + i)) ∧
        mapFind (u32ToInt (intToU32 registeredZeroTwice.reqid + i))
            (mapAt 11 (GatewayPrivate.onConnected 11 registeredZeroTwice).gw.serviceToClient [])
          = some (u32ToInt (((mapAt 0 registeredZeroTwice.gw.pendingMessage []).get ⟨i, hi⟩).1.id
                      registeredZeroTwice.rt),
                  ((mapAt 0 registeredZeroTwice.gw.pendingMessage []).get ⟨i, hi⟩).2) :=
  ⟨⟨by decide, by decide, by decide, by decide, by decide, by decide⟩,
   GatewayPrivate.onConnected_forwards_in_order 11 0 registeredZeroTwice (by decide)
     (fun h => absurd h (by decide)) (by decide) (by decide)⟩

/-- C15, counterexample: socket 11 is registered under service id 0 with one staged message;
after `onConnected` has forwarded it (rewritten id 500), `pending[0]` still holds the message,
and a second `Connected` event for socket 11 forwards it again (rewritten id 501). -/
theorem GatewayPrivate.pending_not_drained :
    World.step (Event.connected 11) registeredZero = some connectedOnce ∧
    World.step (Event.connected 11) connectedOnce = some connectedTwice ∧
    mapAt 0 registeredZero.gw.pendingMessage [] = [(⟨0⟩, 20)] ∧
    connectedOnce.wire = registeredZero.wire ++ [(11, withId serviceZeroCall 500)] ∧
    mapAt 0 connectedOnce.gw.pendingMessage [] = [(⟨0⟩, 20)] ∧
    connectedTwice.wire = connectedOnce.wire ++ [(11, withId serviceZeroCall 501)] := by
  decide

/-- C15, amended: after `onConnected` has handled the connection of the socket registered
under the id `k`, `pending[k]` (and every other pending vector) holds exactly what it held
before; each staged message has been forwarded once by this event, and a second `Connected`
event for the same socket forwards every staged message once more, from the advanced
counter. -/
theorem GatewayPrivate.onConnected_keeps_pending (service : Socket) (k : Nat) (w : World)
    (hk : findServiceId service w.gw.services = some k) (hne : service ≠ w.gw.tso)
    (hlive : ∀ x ∈ mapAt k w.gw.pendingMessage [], w.rt.live x.1) :
    (∀ k2 : Nat, mapAt k2 (GatewayPrivate.onConnected service w).gw.pendingMessage []
        = mapAt k2 w.gw.pendingMessage []) ∧
    (GatewayPrivate.onConnected service w).wire
        = w.wire ++ sentList service w.rt (intToU32 w.reqid) (mapAt k w.gw.pendingMessage []) ∧
    (GatewayPrivate.onConnected service (GatewayPrivate.onConnected service w)).wire
        = (GatewayPrivate.onConnected service w).wire ++
            sentList service w.rt
              ((intToU32 w.reqid + (mapAt k w.gw.pendingMessage []).length) % 2 ^ 32)
              (mapAt k w.gw.pendingMessage []) := by
  obtain ⟨h1, _, h3, h4, h5, h6, h7⟩ := GatewayPrivate.onConnected_spec service k w hk hne hlive
  have hk2 : findServiceId service (GatewayPrivate.onConnected service w).gw.services = some k := by
    rw [h4]
    exact hk
  have hne2 : service ≠ (GatewayPrivate.onConnected service w).gw.tso := by
    rw [h5]
    exact hne
  have hlive2 : ∀ x ∈ mapAt k (GatewayPrivate.onConnected service w).gw.pendingMessage [],
      (GatewayPrivate.onConnected service w).rt.live x.1 := by
    intro x hx
    rw [h3 k] at hx
    exact (h7 x.1 (hlive x hx)).1
  obtain ⟨g1, _⟩ := GatewayPrivate.onConnected_spec service k
    (GatewayPrivate.onConnected service w) hk2 hne2 hlive2
  refine ⟨h3, h1, ?_⟩
  rw [g1, h3 k, h6]
  congr 1
  exact sentList_congr _ _ _ _ _ (fun x hx => (h7 x.1 (hlive x hx)).2)

/-- A concrete instance of the preceding theorem, with its hypotheses discharged. -/
theorem GatewayPrivate.onConnected_keeps_pending_witness :
    (findServiceId 11 registeredZero.gw.services = some 0 ∧
      (11 : Socket) ≠ registeredZero.gw.tso ∧
      mapAt 0 registeredZero.gw.pendingMessage [] ≠ [] ∧
      ∀ x ∈ mapAt 0 registeredZero.gw.pendingMessage [], registeredZero.rt.live x.1) ∧
    ∀ k2 : Nat, mapAt k2 (GatewayPrivate.onConnected 11 registeredZero).gw.pendingMessage []
        = mapAt k2 registeredZero.gw.pendingMessage [] :=
  ⟨⟨by decide, by decide, by decide, by decide⟩,
   (GatewayPrivate.onConnected_keeps_pending 11 0 registeredZero (by decide) (by decide)
      (by decide)).1⟩

/-- C16, counterexample: with socket 11 registered under service id 0, a message staged in
`pending[0]` and the entry 500 outstanding in the table of socket 11, `onDisconnected(11)`
removes nothing, and neither does `onDisconnected` for the client socket 20. -/
theorem GatewayPrivate.disconnect_removes_nothing :
    mapFind 0 connectedOnce.gw.services = some 11 ∧
    World.step (Event.disconnected 11) connectedOnce = some connectedOnce ∧
    World.step (Event.disconnected 20) connectedOnce = some connectedOnce ∧
    mapFind 0 (GatewayPrivate.onDisconnected 11 connectedOnce).gw.services = some 11 ∧
    mapAt 0 (GatewayPrivate.onDisconnected 11 connectedOnce).gw.pendingMessage [] = [(⟨0⟩, 20)] ∧
    mapFind 500 (mapAt 11 (GatewayPrivate.onDisconnected 11 connectedOnce).gw.serviceToClient [])
      = some (45, 20) ∧
    mapFind 500 (mapAt 11 (GatewayPrivate.onDisconnected 20 connectedOnce).gw.serviceToClient [])
      = some (45, 20) ∧
    (GatewayPrivate.onDisconnected 11 connectedOnce).wire = connectedOnce.wire := by
  decide

/-- C16, amended: `onDisconnected` leaves the process exactly as it was, for a service socket
as for a client socket: the services map, the pending vectors, the correlation table and the
client list are unchanged and nothing is sent. -/
theorem GatewayPrivate.onDisconnected_no_effect (socket : Socket) (w : World) :
    GatewayPrivate.onDisconnected socket w = w ∧
    (GatewayPrivate.onDisconnected socket w).gw.services = w.gw.services ∧
    (GatewayPrivate.onDisconnected socket w).gw.pendingMessage = w.gw.pendingMessage ∧
    (GatewayPrivate.onDisconnected socket w).gw.serviceToClient = w.gw.serviceToClient ∧
    (GatewayPrivate.onDisconnected socket w).gw.clients = w.gw.clients ∧
    (GatewayPrivate.onDisconnected socket w).wire = w.wire ∧
    World.step (Event.disconnected socket) w = some w :=
  ⟨rfl, rfl, rfl, rfl, rfl, rfl, rfl⟩

/-! ## Lemmas about `Object` -/

/-- The uids returned by a sequence of registrations are consecutive, from the counter. -/
theorem Object.advertiseAll_uids (regs : List (StdString × StdString × FunctorPtr)) (o : Object)
    (h : o.meta.methodsNumber + regs.length < 2 ^ 32) :
    (Object.advertiseAll regs o).1 = List.range' o.meta.methodsNumber regs.length := by
  induction regs generalizing o with
  | nil => rfl
  | cons r rest ih =>
    obtain ⟨name, signature, functor⟩ := r
    simp only [List.length_cons] at h
    have hnum : (o.xAdvertiseService name signature functor).2.meta.methodsNumber
        = o.meta.methodsNumber + 1 := by
      simp only [Object.xAdvertiseService, u32]
      omega
    simp only [Object.advertiseAll, List.length_cons, List.range'_succ]
    rw [ih _ (by rw [hnum]; omega), hnum]
    rfl

/-- A registration under another name leaves the outcome of `metaCall(uid, ...)` unchanged. -/
theorem Object.metaCallUid_xAdvertiseService_other (name signature : StdString)
    (functor : FunctorPtr) (o : Object) (uid : Nat) (key : StdString) (mm : MetaMethod)
    (htable : o.meta.methodsTable[uid]? = some key) (hfind : mapFind key o.meta.methods = some mm)
    (hne : key ≠ name) :
    (o.xAdvertiseService name signature functor).2.meta.methodsTable[uid]? = some key ∧
    mapFind key (o.xAdvertiseService name signature functor).2.meta.methods = some mm := by
  have hlt : uid < o.meta.methodsTable.length := by
    rcases List.getElem?_eq_some_iff.mp htable with ⟨hl, _⟩
    exact hl
  constructor
  · simp only [Object.xAdvertiseService]
    rw [List.getElem?_append_left hlt]
    exact htable
  · simp only [Object.xAdvertiseService]
    rw [mapFind_mapSet_ne _ _ _ _ hne]
    exact hfind

/-- As long as no later registration reuses its name, a uid keeps designating the method it
was returned for. -/
theorem Object.metaCallUid_stable_other_names
    (regs : List (StdString × StdString × FunctorPtr)) (o : Object) (uid : Nat)
    (key : StdString) (mm : MetaMethod)
    (htable : o.meta.methodsTable[uid]? = some key) (hfind : mapFind key o.meta.methods = some mm)
    (hne : ∀ r ∈ regs, key ≠ r.1) :
    ((Object.advertiseAll regs o).2.metaCallUid uid).map (fun r => r.1)
      = (o.metaCallUid uid).map (fun r => r.1) := by
  induction regs generalizing o with
  | nil => rfl
  | cons r rest ih =>
    obtain ⟨name, signature, functor⟩ := r
    obtain ⟨h1, h2⟩ := Object.metaCallUid_xAdvertiseService_other name signature functor o uid
      key mm htable hfind (hne _ (List.mem_cons_self _ _))
    simp only [Object.advertiseAll]
    rw [ih _ h1 h2 (fun r hr => hne r (List.mem_cons_of_mem _ hr))]
    simp only [Object.metaCallUid, h1, h2, htable, hfind]
    split <;> rfl

/-! ## The string encoding -/

theorem ByteArray.toList_loop_length (bs : ByteArray) (k i : Nat) (r : List UInt8)
    (hk : bs.size - i = k) (hi : i ≤ bs.size) :
    (ByteArray.toList.loop bs i r).length = r.length + (bs.size - i) := by
  induction k generalizing i r with
  | zero =>
    rw [ByteArray.toList.loop]
    have : ¬ i < bs.size := by omega
    simp [this]
    omega
  | succ k ih =>
    rw [ByteArray.toList.loop]
    have hlt : i < bs.size := by omega
    simp only [hlt, if_true]
    rw [ih (i + 1) _ (by omega) (by omega)]
    simp only [List.length_cons]
    omega

theorem utf8Bytes_length (s : String) : (utf8Bytes s).length = s.utf8ByteSize := by
  unfold utf8Bytes ByteArray.toList
  rw [List.length_map, ByteArray.toList_loop_length s.toUTF8 _ 0 [] rfl (Nat.zero_le _)]
  simp

theorem encodeString_eq (s : String) :
    encodeString s = encodeU32 s.utf8ByteSize ++ utf8Bytes s := rfl

theorem decodeU32_encodeU32 (n : Nat) (rest : Buffer) (h : n < 2 ^ 32) :
    decodeU32 (encodeU32 n ++ rest) = some (n, rest) := by
  simp only [encodeU32, List.cons_append, List.nil_append, decodeU32]
  congr 2
  omega

/-- Reading back one encoded string. -/
theorem decodeStrings_encodeString (k : Nat) (s : String) (rest : Buffer)
    (h : s.utf8ByteSize < 2 ^ 32) :
    decodeStrings (k + 1) (encodeString s ++ rest) = utf8Bytes s :: decodeStrings k rest := by
  have hlen := utf8Bytes_length s
  rw [encodeString_eq, List.append_assoc]
  simp only [decodeStrings, decodeU32_encodeU32 _ _ h]
  have hnot : ¬ (utf8Bytes s ++ rest).length < s.utf8ByteSize := by
    rw [List.length_append, hlen]
    omega
  rw [if_neg hnot, ← hlen, List.take_left, List.drop_left]

/-! ## The assertion of `isValid` -/

/-- With assertions compiled in, `isValid` aborts exactly on the messages with the sentinel
magic, a type other than `Type_None` and the object id `GenericObject_None`. -/
theorem Message.isValid_debug_aborts_iff (m : Message) (rt : Runtime) :
    m.isValid false rt = none ↔
      ((rt.deref m).header.magic = MessagePrivate.magic ∧ m.type rt ≠ Type_None ∧
        m.object rt = GenericObject_None) := by
  unfold Message.isValid
  have hm : u32 MessagePrivate.magic = MessagePrivate.magic := by decide
  rw [hm]
  by_cases h1 : (rt.deref m).header.magic = MessagePrivate.magic <;>
    by_cases h2 : m.type rt = Type_None <;>
    by_cases h3 : m.object rt = GenericObject_None <;> simp [h1, h2, h3]

/-! ## Claims about `Object` -/

/-- C17, evaluated at the failing input: on a new object, a method `f` advertised with functor
101 gets uid 1 and a second method `f` advertised with functor 102 gets uid 2 (the uids are
dense), but `metaCall(1, ...)` then invokes functor 102: the second registration overwrote
the element of `_methods` that entry 1 of `_methodsTable` points to. -/
theorem Object.same_name_changes_earlier_uid :
    overloadedObject.1 = [1, 2] ∧
    (freshObject.xAdvertiseService "f".toList "f::(i)".toList 101).1 = 1 ∧
    ((freshObject.xAdvertiseService "f".toList "f::(i)".toList 101).2.metaCallUid 1).map
        (fun r => r.1) = some (CallResult.invoked 101) ∧
    (overloadedObject.2.metaCallUid 1).map (fun r => r.1) = some (CallResult.invoked 102) ∧
    (overloadedObject.2.metaCallUid 2).map (fun r => r.1) = some (CallResult.invoked 102) := by
  decide

/-- C18, evaluated at the failing input: on a new object, `metaCall("nope", ...)` invokes no
functor and returns normally without reporting anything (and leaves an entry `nope` in the
method map), and `metaCall(7, ...)` reads `_methodsTable[7]` in a table of one element. -/
theorem Object.unknown_method_not_reported :
    (freshObject.metaCall "nope".toList).1 = CallResult.nothing ∧
    (freshObject.metaCall "nope".toList).1 ≠ CallResult.error "unknown function" ∧
    mapFind "nope".toList freshObject.meta.methods = none ∧
    mapFind "nope".toList (freshObject.metaCall "nope".toList).2.meta.methods = some MetaMethod.empty ∧
    freshObject.meta.methodsTable.length = 1 ∧
    freshObject.metaCallUid 7 = none := by
  decide

/-! ## Further claims about `Message` -/

/-- C19: on a message of type `Type_Error`, `setError(e)` replaces the payload by the encoded
string signature followed by the encoded `e`, from which a reader of two length-prefixed
strings gets back the signature and `e` (whose length fits the 32-bit prefix), and every
header field stays as it was; on a message of any other type, `setError(e)` changes nothing at
all. -/
theorem Message.setError_effect (rt : Runtime) (m : Message) (e : String) (hlive : rt.live m) :
    (m.type rt = Type_Error →
      (m.setError e rt).1.buffer (m.setError e rt).2
          = encodeString stringSignature ++ encodeString e ∧
      (e.utf8ByteSize < 2 ^ 32 →
        decodeStrings 2 ((m.setError e rt).1.buffer (m.setError e rt).2)
          = [utf8Bytes stringSignature, utf8Bytes e]) ∧
      ((m.setError e rt).2.deref (m.setError e rt).1).header = (rt.deref m).header ∧
      ((m.setError e rt).2.deref (m.setError e rt).1).signature = (rt.deref m).signature) ∧
    (m.type rt ≠ Type_Error →
      m.setError e rt = (m, rt) ∧
      (m.setError e rt).2.deref (m.setError e rt).1 = rt.deref m) := by
  constructor
  · intro ht
    have hset : m.setError e rt
        = m.cowWrite (fun b => { b with buffer := encodeString stringSignature ++ encodeString e })
            rt := by
      unfold Message.setError Message.setBuffer
      simp [ht]
    have hbody := Message.cowWrite_deref
      (fun b => { b with buffer := encodeString stringSignature ++ encodeString e }) m rt hlive
    rw [hset]
    unfold Message.buffer
    rw [hbody]
    refine ⟨rfl, fun hsize => ?_, rfl, rfl⟩
    have hsig : stringSignature.utf8ByteSize < 2 ^ 32 := by decide
    have h2 := decodeStrings_encodeString 0 e [] hsize
    rw [List.append_nil] at h2
    simp only
    rw [decodeStrings_encodeString 1 stringSignature _ hsig, h2]
    rfl
  · intro ht
    have hset : m.setError e rt = (m, rt) := by
      unfold Message.setError
      simp [ht]
    rw [hset]
    exact ⟨rfl, rfl⟩

/-- A concrete instance of the preceding theorem, with its hypotheses discharged. -/
theorem Message.setError_effect_witness :
    ((Message.newAt Type_Error ⟨5, 1, 1, 3⟩ Runtime.init).2.live
        (Message.newAt Type_Error ⟨5, 1, 1, 3⟩ Runtime.init).1 ∧
      (Message.newAt Type_Error ⟨5, 1, 1, 3⟩ Runtime.init).1.type
        (Message.newAt Type_Error ⟨5, 1, 1, 3⟩ Runtime.init).2 = Type_Error) ∧
    ((Message.newAt Type_Error ⟨5, 1, 1, 3⟩ Runtime.init).1.setError "boom"
        (Message.newAt Type_Error ⟨5, 1, 1, 3⟩ Runtime.init).2).1.buffer
      ((Message.newAt Type_Error ⟨5, 1, 1, 3⟩ Runtime.init).1.setError "boom"
        (Message.newAt Type_Error ⟨5, 1, 1, 3⟩ Runtime.init).2).2
      = encodeString stringSignature ++ encodeString "boom" :=
  ⟨⟨by decide, by decide⟩,
   ((Message.setError_effect (Message.newAt Type_Error ⟨5, 1, 1, 3⟩ Runtime.init).2
      (Message.newAt Type_Error ⟨5, 1, 1, 3⟩ Runtime.init).1 "boom" (by decide)).1
        (by decide)).1⟩

/-- C20, evaluated at the failing input: the message built by
`Message(Type_Reply, MessageAddress(5, 1, 0, 3))` has the sentinel magic, a type other than
`Type_None` and object id 0; with assertions compiled in, `isValid` does not return on it: the
assertion `object() != GenericObject_None` is evaluated in the branch where it is false. With
assertions compiled out the same call returns false. -/
theorem Message.isValid_asserts_on_object_zero :
    ((Message.newAt Type_Reply ⟨5, 1, 0, 3⟩ Runtime.init).2.deref
        (Message.newAt Type_Reply ⟨5, 1, 0, 3⟩ Runtime.init).1).header.magic
      = MessagePrivate.magic ∧
    (Message.newAt Type_Reply ⟨5, 1, 0, 3⟩ Runtime.init).1.type
        (Message.newAt Type_Reply ⟨5, 1, 0, 3⟩ Runtime.init).2 = Type_Reply ∧
    (Message.newAt Type_Reply ⟨5, 1, 0, 3⟩ Runtime.init).1.object
        (Message.newAt Type_Reply ⟨5, 1, 0, 3⟩ Runtime.init).2 = 0 ∧
    (Message.newAt Type_Reply ⟨5, 1, 0, 3⟩ Runtime.init).1.isValid false
        (Message.newAt Type_Reply ⟨5, 1, 0, 3⟩ Runtime.init).2 = none ∧
    (Message.newAt Type_Reply ⟨5, 1, 0, 3⟩ Runtime.init).1.isValid true
        (Message.newAt Type_Reply ⟨5, 1, 0, 3⟩ Runtime.init).2 = some false := by
  decide

/-! ## The directory socket in reachable states -/

theorem mem_mapSet {K V : Type} [DecidableEq K] [LT K] [DecidableRel (fun a b : K => a < b)]
    (k : K) (v : V) (m : List (K × V)) (x : K × V) (h : x ∈ mapSet k v m) :
    x = (k, v) ∨ x ∈ m := by
  induction m with
  | nil =>
    simp only [mapSet, List.mem_singleton] at h
    exact Or.inl h
  | cons kv rest ih =>
    obtain ⟨k2, v2⟩ := kv
    unfold mapSet at h
    by_cases h1 : k = k2
    · simp only [h1, if_true, List.mem_cons] at h
      rcases h with h | h
      · exact Or.inl (by rw [h, h1])
      · exact Or.inr (List.mem_cons_of_mem _ h)
    · by_cases h2 : k < k2
      · simp only [h1, h2, if_true, if_false, List.mem_cons] at h
        rcases h with h | h | h
        · exact Or.inl h
        · exact Or.inr (by rw [h]; exact List.mem_cons_self _ _)
        · exact Or.inr (List.mem_cons_of_mem _ h)
      · simp only [h1, h2, if_false, List.mem_cons] at h
        rcases h with h | h
        · exact Or.inr (by rw [h]; exact List.mem_cons_self _ _)
        · rcases ih h with h3 | h3
          · exact Or.inl h3
          · exact Or.inr (List.mem_cons_of_mem _ h3)

theorem findServiceId_mem (service : Socket) (m : ServiceSocketMap) (k : Nat)
    (h : findServiceId service m = some k) : (k, service) ∈ m := by
  induction m with
  | nil => simp [findServiceId] at h
  | cons kv rest ih =>
    obtain ⟨k2, s2⟩ := kv
    unfold findServiceId at h
    by_cases hs : s2 = service
    · simp only [hs, if_true, Option.some.injEq] at h
      rw [← h, hs]
      exact List.mem_cons_self _ _
    · simp only [hs, if_false] at h
      exact List.mem_cons_of_mem _ (ih h)

theorem GatewayPrivate.forwardClientMessage_frame (client service : Socket) (msg : Message)
    (w : World) :
    (GatewayPrivate.forwardClientMessage client service msg w).gw.services = w.gw.services ∧
    (GatewayPrivate.forwardClientMessage client service msg w).gw.pendingMessage
      = w.gw.pendingMessage ∧
    (GatewayPrivate.forwardClientMessage client service msg w).gw.tso = w.gw.tso ∧
    (GatewayPrivate.forwardClientMessage client service msg w).nextSocket = w.nextSocket :=
  ⟨rfl, rfl, rfl, rfl⟩

theorem forwardPending_frame (service : Socket) (pmv : PendingMessageVector) (w : World) :
    (forwardPending service pmv w).gw.services = w.gw.services ∧
    (forwardPending service pmv w).gw.pendingMessage = w.gw.pendingMessage ∧
    (forwardPending service pmv w).gw.tso = w.gw.tso ∧
    (forwardPending service pmv w).nextSocket = w.nextSocket := by
  induction pmv generalizing w with
  | nil => exact ⟨rfl, rfl, rfl, rfl⟩
  | cons x rest ih =>
    obtain ⟨m, c⟩ := x
    simp only [forwardPending]
    obtain ⟨h1, h2, h3, h4⟩ := ih (GatewayPrivate.forwardClientMessage c service m w)
    obtain ⟨g1, g2, g3, g4⟩ := GatewayPrivate.forwardClientMessage_frame c service m w
    exact ⟨by rw [h1, g1], by rw [h2, g2], by rw [h3, g3], by rw [h4, g4]⟩

theorem World.DirectoryInv_of_frame (w w2 : World) (h : w.DirectoryInv)
    (h1 : w2.gw.services = w.gw.services) (h2 : w2.gw.tso = w.gw.tso)
    (h3 : w2.nextSocket = w.nextSocket)
    (h4 : mapAt ServiceDirectory w2.gw.pendingMessage []
      = mapAt ServiceDirectory w.gw.pendingMessage []) : w2.DirectoryInv := by
  unfold World.DirectoryInv at *
  rw [h1, h2, h3, h4]
  exact h

theorem World.listen_directoryInv (rt : Runtime) (firstSocket : Nat) :
    (World.listen rt firstSocket).DirectoryInv := by
  unfold World.DirectoryInv World.listen
  simp [mapSet, mapFind, mapAt]

theorem GatewayPrivate.handleClientRead_frame (client : Socket) (msg : Message) (w : World) :
    (GatewayPrivate.handleClientRead client msg w).gw.services = w.gw.services ∧
    (GatewayPrivate.handleClientRead client msg w).gw.tso = w.gw.tso ∧
    (GatewayPrivate.handleClientRead client msg w).nextSocket = w.nextSocket := by
  unfold GatewayPrivate.handleClientRead
  split
  · simp only [World.send, and_self]
  · split
    · rename_i service _
      obtain ⟨g1, _, g3, g4⟩ := GatewayPrivate.forwardClientMessage_frame client service msg w
      exact ⟨g1, g3, g4⟩
    · simp only [World.send, and_self]

theorem mapFind_mem {K V : Type} [DecidableEq K] (k : K) (v : V) (m : List (K × V))
    (h : mapFind k m = some v) : (k, v) ∈ m := by
  induction m with
  | nil => simp [mapFind] at h
  | cons kv rest ih =>
    obtain ⟨k2, v2⟩ := kv
    unfold mapFind at h
    by_cases hk : k = k2
    · simp only [hk, if_true, Option.some.injEq] at h
      rw [hk, h]
      exact List.mem_cons_self _ _
    · simp only [hk, if_false] at h
      exact List.mem_cons_of_mem _ (ih h)

theorem GatewayPrivate.handleClientRead_directoryInv (client : Socket) (msg : Message)
    (w : World) (h : w.DirectoryInv) (hlive : w.rt.live msg) :
    (GatewayPrivate.handleClientRead client msg w).DirectoryInv := by
  obtain ⟨f1, f2, f3⟩ := GatewayPrivate.handleClientRead_frame client msg w
  refine World.DirectoryInv_of_frame w _ h f1 f2 f3 ?_
  by_cases hc1 : msg.service w.rt = ServiceDirectory ∧
      msg.function w.rt = ServiceDirectoryAction_Service
  · rw [(GatewayPrivate.handleClientRead_directory_service client msg w hlive hc1).2.1]
  · cases hfind : mapFind (msg.service w.rt) w.gw.services with
    | some service =>
      have hrw : GatewayPrivate.handleClientRead client msg w
          = GatewayPrivate.forwardClientMessage client service msg w := by
        unfold GatewayPrivate.handleClientRead
        rw [if_neg hc1, hfind]
      rw [hrw, (GatewayPrivate.forwardClientMessage_frame client service msg w).2.1]
    | none =>
      have hk : ServiceDirectory ≠ msg.service w.rt := by
        intro hk
        rw [← hk, h.1] at hfind
        exact absurd hfind (by simp)
      rw [(GatewayPrivate.handleClientRead_unknown_service client msg w hlive hc1 hfind).2.1]
      unfold mapAt
      simp only
      rw [mapFind_mapSet_ne _ _ _ _ hk]

theorem GatewayPrivate.handleGatewayServiceRead_directoryInv (master : Socket) (msg : Message)
    (w w2 : World) (h : w.DirectoryInv)
    (hstep : GatewayPrivate.handleGatewayServiceRead master msg w = some w2) :
    w2.DirectoryInv := by
  unfold GatewayPrivate.handleGatewayServiceRead at hstep
  split at hstep
  · simp only [Option.some.injEq] at hstep
    rw [← hstep]
    exact h
  · simp only at hstep
    split at hstep
    · simp at hstep
    · simp only [Option.some.injEq] at hstep
      rw [← hstep]
      obtain ⟨h1, h2, h3, h4⟩ := h
      have hne : ServiceDirectory ≠ (0 : Nat) := by decide
      have hlt : @LT.lt Nat _ w.gw.tso w.nextSocket := h3 _ (mapFind_mem _ _ _ h1)
      refine ⟨?_, ?_, ?_, h4⟩
      · simp only
        rw [mapFind_mapSet_ne _ _ _ _ hne]
        exact h1
      · intro x hx hxt
        rcases mem_mapSet _ _ _ _ hx with hx2 | hx2
        · have hxt2 : x.2 = w.gw.tso := hxt
          rw [hx2] at hxt2
          have hxt3 : @Eq Nat w.nextSocket w.gw.tso := hxt2
          omega
        · exact h2 x hx2 hxt
      · intro x hx
        rcases mem_mapSet _ _ _ _ hx with hx2 | hx2
        · have hgoal : x.2 < w.nextSocket + 1 := by
            rw [hx2]
            exact Nat.lt_succ_self _
          exact hgoal
        · have hlt2 : @LT.lt Nat _ x.2 w.nextSocket := h3 x hx2
          have hgoal : @LT.lt Nat _ x.2 (w.nextSocket + 1) := by omega
          exact hgoal

theorem GatewayPrivate.handleServiceRead_directoryInv (service : Socket) (msg : Message)
    (w w2 : World) (h : w.DirectoryInv)
    (hstep : GatewayPrivate.handleServiceRead service msg w = some w2) : w2.DirectoryInv := by
  unfold GatewayPrivate.handleServiceRead at hstep
  split at hstep
  · simp only [Option.some.injEq] at hstep
    rw [← hstep]
    exact h
  · split at hstep
    · simp only [Option.some.injEq] at hstep
      rw [← hstep]
      exact h
    · split at hstep
      · exact GatewayPrivate.handleGatewayServiceRead_directoryInv service msg w w2 h hstep
      · simp only [World.send, Option.some.injEq] at hstep
        rw [← hstep]
        exact World.DirectoryInv_of_frame w _ h rfl rfl rfl rfl

theorem GatewayPrivate.onConnected_directoryInv (service : Socket) (w : World)
    (h : w.DirectoryInv) : (GatewayPrivate.onConnected service w).DirectoryInv := by
  unfold GatewayPrivate.onConnected
  split
  · exact h
  · split
    · exact h
    · rename_i serviceId _
      simp only
      obtain ⟨f1, f2, f3, f4⟩ := forwardPending_frame service
        (mapAt serviceId w.gw.pendingMessage [])
        { w with gw := { w.gw with pendingMessage :=
            (mapSet serviceId (mapAt serviceId w.gw.pendingMessage []) w.gw.pendingMessage) } }
      refine World.DirectoryInv_of_frame w _ h f1 f3 f4 ?_
      rw [f2]
      exact mapAt_mapSet_mapAt serviceId ServiceDirectory _ _

theorem World.receive_live (content : MessagePrivate) (w : World) :
    (w.receive content).2.rt.live (w.receive content).1 := by
  unfold World.receive Runtime.live
  simp only
  rw [Runtime.useCount_modify, Message.new_useCount]
  exact Nat.one_pos

theorem World.receive_directoryInv (content : MessagePrivate) (w : World)
    (h : w.DirectoryInv) : (w.receive content).2.DirectoryInv :=
  World.DirectoryInv_of_frame w _ h rfl rfl rfl rfl

theorem World.step_directoryInv (e : Event) (w w2 : World) (h : w.DirectoryInv)
    (hstep : w.step e = some w2) : w2.DirectoryInv := by
  cases e with
  | newConnection s =>
    simp only [World.step, Option.some.injEq] at hstep
    rw [← hstep]
    unfold GatewayPrivate.newConnection
    split
    · exact h
    · exact World.DirectoryInv_of_frame w _ h rfl rfl rfl rfl
  | readyRead s content =>
    simp only [World.step] at hstep
    cases hr : GatewayPrivate.onReadyRead s (w.receive content).1 (w.receive content).2 with
    | none => simp [hr] at hstep
    | some w1 =>
      rw [hr] at hstep
      simp only [Option.some.injEq] at hstep
      rw [← hstep]
      have hinv1 : w1.DirectoryInv := by
        unfold GatewayPrivate.onReadyRead at hr
        split at hr
        · simp only [Option.some.injEq] at hr
          rw [← hr]
          exact GatewayPrivate.handleClientRead_directoryInv s _ _
            (World.receive_directoryInv content w h) (World.receive_live content w)
        · exact GatewayPrivate.handleServiceRead_directoryInv s _ _ w1
            (World.receive_directoryInv content w h) hr
      exact World.DirectoryInv_of_frame w1 _ hinv1 rfl rfl rfl rfl
  | writeDone s =>
    simp only [World.step, GatewayPrivate.onWriteDone, Option.some.injEq] at hstep
    rw [← hstep]
    exact h
  | connected s =>
    simp only [World.step, Option.some.injEq] at hstep
    rw [← hstep]
    exact GatewayPrivate.onConnected_directoryInv s w h
  | disconnected s =>
    simp only [World.step, GatewayPrivate.onDisconnected, Option.some.injEq] at hstep
    rw [← hstep]
    exact h

theorem World.run_directoryInv (es : List Event) (w w2 : World) (h : w.DirectoryInv)
    (hrun : World.run es w = some w2) : w2.DirectoryInv := by
  induction es generalizing w with
  | nil =>
    simp only [World.run, Option.some.injEq] at hrun
    rw [← hrun]
    exact h
  | cons e rest ih =>
    simp only [World.run] at hrun
    cases hs : w.step e with
    | none => simp [hs] at hrun
    | some w1 =>
      rw [hs] at hrun
      exact ih w1 (World.step_directoryInv e w w1 h hs) hrun

/-- In every state of a gateway process, the directory socket is registered under
`ServiceDirectory` only and nothing is staged for it. -/
theorem World.Reachable.directory_pending_empty (w : World) (h : w.Reachable) (k : Nat)
    (hk : findServiceId w.gw.tso w.gw.services = some k) :
    k = ServiceDirectory ∧ mapAt k w.gw.pendingMessage [] = [] := by
  obtain ⟨rt, firstSocket, es, hrun⟩ := h
  obtain ⟨_, h2, _, h4⟩ := World.run_directoryInv es _ w (World.listen_directoryInv rt firstSocket) hrun
  have hkd : k = ServiceDirectory := h2 (k, w.gw.tso) (findServiceId_mem _ _ _ hk) rfl
  rw [hkd]
  exact ⟨rfl, h4⟩

/-! ## Claims about `setValue`, dropped messages, short replies and unknown methods -/

/-- C25: a message arriving from a socket that is not in the client list, when that socket
has no correlation table or the message id is not a key of its table, is dropped:
`onReadyRead` hands it to `handleServiceRead`, which returns with the whole process state
(messages sent, services, pending and correlation tables) unchanged. -/
theorem GatewayPrivate.handleServiceRead_drops (socket : Socket) (msg : Message) (w : World)
    (hnc : socket ∉ w.gw.clients)
    (hno : mapFind socket w.gw.serviceToClient = none ∨
      ∃ request, mapFind socket w.gw.serviceToClient = some request ∧
        mapFind (u32ToInt (msg.id w.rt)) request = none) :
    GatewayPrivate.onReadyRead socket msg w = GatewayPrivate.handleServiceRead socket msg w ∧
    GatewayPrivate.handleServiceRead socket msg w = some w := by
  constructor
  · unfold GatewayPrivate.onReadyRead
    rw [if_neg hnc]
  · unfold GatewayPrivate.handleServiceRead
    rcases hno with h | ⟨request, h1, h2⟩
    · rw [h]
    · rw [h1]
      simp only [h2]

/-- A concrete instance of the preceding theorem, with its hypotheses discharged. -/
theorem GatewayPrivate.handleServiceRead_drops_witness :
    ((30 : Socket) ∉ (World.receive strayMessage afterForward).2.gw.clients ∧
      mapFind 30 (World.receive strayMessage afterForward).2.gw.serviceToClient = none) ∧
    GatewayPrivate.handleServiceRead 30 (World.receive strayMessage afterForward).1
        (World.receive strayMessage afterForward).2
      = some (World.receive strayMessage afterForward).2 :=
  ⟨⟨by decide, by decide⟩,
   (GatewayPrivate.handleServiceRead_drops 30 (World.receive strayMessage afterForward).1
      (World.receive strayMessage afterForward).2 (by decide) (Or.inl (by decide))).2⟩

/-- C26, evaluated at the failing input: the gateway has sent the lookup with id 2; a reply
with id 2 whose payload decodes to a list of one string, or to the empty list, makes
`handleGatewayServiceRead` evaluate `result[1]` on a vector of fewer than two elements, which
is undefined; a reply holding two strings is handled. -/
theorem GatewayPrivate.short_reply_indexes_out_of_range :
    decodeStringVector shortLookupReply.buffer = [[55]] ∧
    decodeStringVector emptyLookupReply.buffer = [] ∧
    mapFind 2 (mapAt 10 stagedSeven.gw.serviceToClient []) = some (0, 0) ∧
    World.step (Event.readyRead 10 shortLookupReply) stagedSeven = none ∧
    World.step (Event.readyRead 10 emptyLookupReply) stagedSeven = none ∧
    (World.step (Event.readyRead 10 lookupReply) stagedSeven).isSome = true := by
  decide

/-- C27, evaluated at the failing input: on a new object, `metaCall("nope", ...)` for the
name `nope`, which was never advertised, adds an entry `nope` to the method map: the map has
one entry before the call and two after it, and the serialized metaobject changes. -/
theorem Object.metaCall_unknown_name_adds_entry :
    mapFind "nope".toList freshObject.meta.methods = none ∧
    freshObject.meta.methods.length = 1 ∧
    (freshObject.metaCall "nope".toList).2.meta.methods.length = 2 ∧
    (freshObject.metaCall "nope".toList).2.meta.methods.map (fun kv => kv.1)
      = ["__metaobject".toList, "nope".toList] ∧
    (freshObject.metaCall "nope".toList).2.meta ≠ freshObject.meta ∧
    encodeMetaObject (freshObject.metaCall "nope".toList).2.meta
      ≠ encodeMetaObject freshObject.meta := by
  decide

/-! ## Lemmas about `log.cpp` -/

/-- The character at the last index of a string that ends in `c`. -/
theorem cstrAt_concat (body : StdString) (c : Char) :
    cstrAt (body ++ [c]) body.length = some c := by
  unfold cstrAt
  simp

/-- The character before the last of a string that ends in `d`, `c`. -/
theorem cstrAt_concat_concat (body : StdString) (d c : Char) :
    cstrAt (body ++ [d] ++ [c]) body.length = some d := by
  unfold cstrAt
  have h : body.length < (body ++ [d] ++ [c]).length := by simp
  rw [if_pos h, List.append_assoc, List.getElem?_append_right (le_refl _)]
  simp

/-- The conversion of a small `size_t` to `int` keeps its value. -/
theorem u32ToInt_small (n : Nat) (h : n < 2 ^ 31) : u32ToInt n = (n : Int) := by
  unfold u32ToInt
  have h1 : n % 2 ^ 32 = n := Nat.mod_eq_of_lt (by omega)
  rw [h1, if_pos h]

/-- The message without its terminator, for a message that ends in a carriage return. -/
theorem withoutTerminator_cr (body : StdString) :
    withoutTerminator (body ++ ['\r']) = body := by
  simp [withoutTerminator]

/-- The message without its terminator, for a message that ends in a carriage return and a
newline. -/
theorem withoutTerminator_crlf (body : StdString) :
    withoutTerminator (body ++ ['\r'] ++ ['\n']) = body := by
  simp [withoutTerminator]

/-- The message without its terminator, for a message reduced to a newline. -/
theorem withoutTerminator_lf_only : withoutTerminator ['\n'] = [] := by
  simp [withoutTerminator]

/-- The message without its terminator, for a message that ends in a newline that does not
follow a carriage return. -/
theorem withoutTerminator_lf (body : StdString) (d : Char) (hd : d ≠ '\r') :
    withoutTerminator (body ++ [d] ++ ['\n']) = body ++ [d] := by
  unfold withoutTerminator
  simp only [List.reverse_append, List.reverse_cons, List.reverse_nil, List.nil_append,
    List.singleton_append]
  split
  · rename_i rest h
    simp only [List.cons.injEq, true_and] at h
    exact absurd h.1 hd
  · rename_i rest _ h
    simp only [List.cons.injEq, true_and] at h
    subst h
    simp
  · rename_i rest h
    simp at h
  · rename_i h1 h2 h3
    exact absurd rfl (h2 _)

/-- The message without its terminator, for a message that ends in another character. -/
theorem withoutTerminator_other (body : StdString) (c : Char) (hr : c ≠ '\r')
    (hn : c ≠ '\n') : withoutTerminator (body ++ [c]) = body ++ [c] := by
  unfold withoutTerminator
  simp only [List.reverse_append, List.reverse_cons, List.reverse_nil, List.nil_append,
    List.singleton_append]
  split
  · rename_i rest h
    simp only [List.cons.injEq] at h
    exact absurd h.1 hn
  · rename_i rest _ h
    simp only [List.cons.injEq] at h
    exact absurd h.1 hn
  · rename_i rest h
    simp only [List.cons.injEq] at h
    exact absurd h.1 hr
  · rfl
/-- On a string that is not empty and shorter than 2^31, `rtrim` is defined and returns the
length of the string without its final line terminator. -/
theorem rtrim_eq (msg : StdString) (hne : msg ≠ []) (hlen : msg.length < 2 ^ 31) :
    rtrim msg = some ((withoutTerminator msg).length : Int) := by
  rcases List.eq_nil_or_concat msg with h | ⟨body, c, rfl⟩
  · exact absurd h hne
  · simp only [List.concat_eq_append] at *
    have hb : body.length < 2 ^ 31 := by simp at hlen; omega
    have hp : ((body ++ [c]).length + sizeMod - 1) % sizeMod = body.length := by
      simp only [List.length_append, List.length_singleton, sizeMod]
      omega
    have hq : ((body.length + sizeMod - 1) % sizeMod + 1) % sizeMod = body.length := by
      simp only [sizeMod]; omega
    unfold rtrim
    simp only [hp, cstrAt_concat]
    by_cases hr : c = '\r'
    · subst hr
      simp only [if_true, hq, u32ToInt_small _ hb, withoutTerminator_cr]
    · by_cases hn : c = '\n'
      · subst hn
        rw [if_neg hr, if_pos rfl]
        rcases List.eq_nil_or_concat body with h | ⟨body2, d, rfl⟩
        · subst h
          simp [withoutTerminator, sizeMod, u32ToInt]
        · simp only [List.concat_eq_append] at *
          have hb2 : body2.length < 2 ^ 31 := by simp at hb; omega
          have hpos : (body2 ++ [d]).length ≠ 0 := by simp
          have hpred : (body2 ++ [d]).length - 1 = body2.length := by simp
          have hq2 : (((body2 ++ [d]).length + sizeMod - 2) % sizeMod + 1) % sizeMod
              = body2.length := by
            simp only [List.length_append, List.length_singleton, sizeMod]; omega
          rw [if_pos hpos, hpred, cstrAt_concat_concat]
          by_cases hd : d = '\r'
          · subst hd
            simp only [if_true, hq2, u32ToInt_small _ hb2, withoutTerminator_crlf]
          · simp only [if_neg hd, hq, u32ToInt_small _ hb, withoutTerminator_lf _ _ hd]
      · have hq3 : (body.length + 1) % sizeMod = (body ++ [c]).length := by
          simp only [List.length_append, List.length_singleton, sizeMod]; omega
        simp only [if_neg hr, if_neg hn, hq3, u32ToInt_small _ hlen,
          withoutTerminator_other _ _ hr hn]

/-- The message without its final terminator is the start of the message. -/
theorem withoutTerminator_take (msg : StdString) :
    msg.take (withoutTerminator msg).length = withoutTerminator msg := by
  rcases List.eq_nil_or_concat msg with h | ⟨body, c, rfl⟩
  · subst h
    simp [withoutTerminator]
  · simp only [List.concat_eq_append]
    by_cases hr : c = '\r'
    · subst hr
      simp [withoutTerminator_cr]
    · by_cases hn : c = '\n'
      · subst hn
        rcases List.eq_nil_or_concat body with h | ⟨body2, d, rfl⟩
        · subst h
          simp [withoutTerminator]
        · simp only [List.concat_eq_append]
          by_cases hd : d = '\r'
          · subst hd
            rw [withoutTerminator_crlf, List.append_assoc]
            simp
          · rw [withoutTerminator_lf _ _ hd]
            exact List.take_left' rfl
      · rw [withoutTerminator_other _ _ hr hn]
        simp

/-- On a message that is not empty and shorter than 2^31, `logline` gives the header, the
message without its final terminator, and one newline. -/
theorem logline_eq (context : Nat) (tv_sec tv_usec : Int) (category msg file fct : StdString)
    (line verb tid : Int) (hne : msg ≠ []) (hlen : msg.length < 2 ^ 31) :
    logline context tv_sec tv_usec category msg file fct line verb tid
      = some (loglineHeader context tv_sec tv_usec category file fct line verb tid
          ++ withoutTerminator msg ++ ['\n']) := by
  unfold logline
  rw [rtrim_eq msg hne hlen]
  simp only [Int.toNat_ofNat, withoutTerminator_take]
/-- The fold of `max` from `a` over `xs` is an upper bound of `a` and of `xs`, and is one of
them. -/
theorem foldl_max_spec (xs : List Int) : ∀ a : Int,
    (xs.foldl max a = a ∨ xs.foldl max a ∈ xs) ∧ a ≤ xs.foldl max a ∧
      ∀ x ∈ xs, x ≤ xs.foldl max a := by
  induction xs with
  | nil => intro a; simp
  | cons y ys ih =>
    intro a
    obtain ⟨h1, h2, h3⟩ := ih (max a y)
    simp only [List.foldl_cons, List.mem_cons]
    refine ⟨?_, ?_, ?_⟩
    · rcases h1 with h | h
      · rw [h]
        rcases max_choice a y with hm | hm
        · left; exact hm
        · right; left; exact hm
      · right; right; exact h
    · exact le_trans (le_max_left a y) h2
    · intro x hx
      rcases hx with rfl | hx
      · exact le_trans (le_max_right a x) h2
      · exact h3 x hx

/-- The maximum of a vector that is not empty is one of its elements and bounds them all. -/
theorem maxElement_spec (l : List Int) (hne : l ≠ []) :
    maxElement l ∈ l ∧ ∀ x ∈ l, x ≤ maxElement l := by
  cases l with
  | nil => exact absurd rfl hne
  | cons a xs =>
    obtain ⟨h1, h2, h3⟩ := foldl_max_spec xs a
    simp only [maxElement, List.mem_cons]
    refine ⟨?_, ?_⟩
    · rcases h1 with h | h
      · left; exact h
      · right; exact h
    · intro x hx
      rcases hx with rfl | hx
      · exact h2
      · exact h3 x hx

/-- The vector of levels after `setLevel(sub, level)`. -/
theorem Category.setLevel_eq (c : Category) (sub : Nat) (level : Int)
    (hsub : sub + 1 < 2 ^ 32) :
    c.setLevel sub level = some { c with
      levels := (c.levels ++ List.replicate (sub + 1 - c.levels.length) LogLevel_Info).set
        sub level,
      maxLevel := maxElement
        ((c.levels ++ List.replicate (sub + 1 - c.levels.length) LogLevel_Info).set
          sub level) } := by
  unfold Category.setLevel
  have hu : u32 (sub + 1) = sub + 1 := Nat.mod_eq_of_lt hsub
  by_cases h : c.levels.length ≤ sub
  · have hr : vectorResize c.levels (sub + 1) LogLevel_Info
        = c.levels ++ List.replicate (sub + 1 - c.levels.length) LogLevel_Info := by
      unfold vectorResize
      rw [if_neg (by omega)]
    simp only [if_pos h, hu, hr]
    rw [if_pos (by simp; omega)]
  · have h0 : sub + 1 - c.levels.length = 0 := by omega
    simp only [if_neg h, h0, List.replicate_zero, List.append_nil]
    rw [if_pos (by omega)]

/-- The effect of `setLevel(sub, level)` on a category, for a subscriber below 2^32 - 1. -/
theorem Category.setLevel_spec (c : Category) (sub : Nat) (level : Int)
    (hsub : sub + 1 < 2 ^ 32) :
    ∃ c2, c.setLevel sub level = some c2 ∧ c2.name = c.name ∧
      c2.levels.length = max c.levels.length (sub + 1) ∧
      c2.levels[sub]? = some level ∧
      (∀ i, i ≠ sub → i < c.levels.length → c2.levels[i]? = c.levels[i]?) ∧
      (∀ i, i ≠ sub → c.levels.length ≤ i → i < c2.levels.length →
        c2.levels[i]? = some LogLevel_Info) ∧
      c2.maxLevel ∈ c2.levels ∧ ∀ x ∈ c2.levels, x ≤ c2.maxLevel := by
  refine ⟨_, Category.setLevel_eq c sub level hsub, rfl, ?_, ?_, ?_, ?_, ?_⟩
  · simp only [List.length_set, List.length_append, List.length_replicate]
    omega
  · simp only
    rw [List.getElem?_set_self]
    simp only [List.length_append, List.length_replicate]
    omega
  · intro i hi hlt
    simp only
    rw [List.getElem?_set_ne (Ne.symm hi), List.getElem?_append_left hlt]
  · intro i hi hle hlt
    simp only [List.length_set, List.length_append, List.length_replicate] at hlt
    simp only
    rw [List.getElem?_set_ne (Ne.symm hi), List.getElem?_append_right hle]
    rw [List.getElem?_replicate]
    rw [if_pos (by omega)]
  · have hne : (c.levels ++ List.replicate (sub + 1 - c.levels.length) LogLevel_Info).set
        sub level ≠ [] := by
      intro h
      have := congrArg List.length h
      simp only [List.length_set, List.length_append, List.length_replicate,
        List.length_nil] at this
      omega
    exact maxElement_spec _ hne
/-- The first occurrence of `c` in a string in which `c` follows a part `t` that does not
hold it. -/
theorem indexOfChar_append (c : Char) (t rest : StdString) (h : c ∉ t) :
    indexOfChar c (t ++ c :: rest) = some t.length := by
  induction t with
  | nil => simp [indexOfChar]
  | cons x xs ih =>
    have hx : x ≠ c := fun e => h (by simp [e])
    have hxs : c ∉ xs := fun e => h (by simp [e])
    simp [indexOfChar, hx, ih hxs]

/-- A string that does not hold `c` has no occurrence of it. -/
theorem indexOfChar_none (c : Char) (t : StdString) (h : c ∉ t) : indexOfChar c t = none := by
  induction t with
  | nil => simp [indexOfChar]
  | cons x xs ih =>
    have hx : x ≠ c := fun e => h (by simp [e])
    have hxs : c ∉ xs := fun e => h (by simp [e])
    simp [indexOfChar, hx, ih hxs]

/-- The body of the loop makes the call `tokenCall` describes. -/
theorem addFiltersToken_eq {σ : Type} (handler : StdString → Int → Nat → σ → Option σ)
    (token0 : StdString) (sub : Nat) (st : σ) :
    addFiltersToken handler token0 sub st
      = handler (tokenCall token0 sub).catName (tokenCall token0 sub).level
          (tokenCall token0 sub).sub st := by
  unfold addFiltersToken tokenCall
  simp only
  generalize (if token0.head? = some '+' then token0.drop 1 else token0) = token
  cases findChar '=' token 0 with
  | some sep => rfl
  | none => by_cases h : token.head? = some '-' <;> simp [h]

/-- The calls for a list of tokens that starts with an empty token. -/
theorem tokenCalls_nil_cons (sub : Nat) (ts : List StdString) :
    tokenCalls sub ([] :: ts) = tokenCalls sub ts := by
  simp [tokenCalls]

/-- The calls for a list of tokens that starts with a token that is not empty. -/
theorem tokenCalls_cons (sub : Nat) (t : StdString) (ts : List StdString) (ht : t ≠ []) :
    tokenCalls sub (t :: ts) = tokenCall t sub :: tokenCalls sub ts := by
  simp [tokenCalls, ht]

/-- The loop of `addFilters`, started at the beginning of a token of a colon-separated
string with enough iterations left, makes the calls of the remaining tokens in order and
visits the offsets at which they start. -/
theorem addFiltersLoop_tokens {σ : Type} (handler : StdString → Int → Nat → σ → Option σ)
    (sub : Nat) (rules : StdString) (hlen : rules.length < sizeMod) :
    ∀ (ts : List StdString) (t pre : StdString) (fuel : Nat) (st : σ) (seen : List Nat),
      rules = pre ++ joinColon (t :: ts) → ':' ∉ t → (∀ u ∈ ts, ':' ∉ u) →
      ts.length + 1 ≤ fuel →
      addFiltersLoop handler rules sub fuel pre.length st seen
        = (applyCalls handler (tokenCalls sub (t :: ts)) st).map
            (fun s => (s, seen ++ tokenStarts pre.length (t :: ts))) := by
  intro ts
  induction ts with
  | nil =>
    intro t pre fuel st seen hr ht _ hfuel
    obtain ⟨f, rfl⟩ : ∃ f, fuel = f + 1 := ⟨fuel - 1, by omega⟩
    simp only [joinColon] at hr
    unfold addFiltersLoop
    by_cases hte : t = []
    · subst hte
      simp only [List.append_nil] at hr
      subst hr
      simp [tokenCalls, applyCalls, tokenStarts]
    · have hpos : ¬ pre.length ≥ rules.length := by
        rw [hr, List.length_append]
        have : 0 < t.length := List.length_pos.mpr hte
        omega
      have hdrop : rules.drop pre.length = t := by rw [hr]; simp
      have hnext : findChar ':' rules pre.length = none := by
        unfold findChar
        rw [hdrop, indexOfChar_none _ _ ht]
        rfl
      simp only [if_neg hpos, hnext, hdrop, if_neg hte, addFiltersToken_eq,
        tokenCalls_cons sub t [] hte, applyCalls, tokenStarts]
      cases handler (tokenCall t sub).catName (tokenCall t sub).level (tokenCall t sub).sub st
        <;> simp [tokenCalls, applyCalls]
  | cons t2 ts ih =>
    intro t pre fuel st seen hr ht hts hfuel
    obtain ⟨f, rfl⟩ : ∃ f, fuel = f + 1 := ⟨fuel - 1, by simp at hfuel; omega⟩
    simp only [joinColon] at hr
    have hlen2 : pre.length + t.length + 1 ≤ rules.length := by
      rw [hr]; simp only [List.length_append, List.length_cons]; omega
    have hpos : ¬ pre.length ≥ rules.length := by omega
    have hdrop : rules.drop pre.length = t ++ ':' :: joinColon (t2 :: ts) := by rw [hr]; simp
    have hnext : findChar ':' rules pre.length = some (t.length + pre.length) := by
      unfold findChar
      rw [hdrop, indexOfChar_append _ _ _ ht]
      rfl
    have htok : (rules.drop pre.length).take (t.length + pre.length - pre.length) = t := by
      rw [hdrop, Nat.add_sub_cancel]
      exact List.take_left' rfl
    have hmod : (t.length + pre.length + 1) % sizeMod = (pre ++ t ++ [':']).length := by
      rw [Nat.mod_eq_of_lt (by omega)]
      simp only [List.length_append, List.length_singleton]
      omega
    have hr2 : rules = (pre ++ t ++ [':']) ++ joinColon (t2 :: ts) := by
      rw [hr]; simp
    have hts2 : ∀ u ∈ ts, ':' ∉ u := fun u hu => hts u (List.mem_cons_of_mem _ hu)
    have ht2 : ':' ∉ t2 := hts t2 (List.mem_cons_self _ _)
    have hf : ts.length + 1 ≤ f := by simp at hfuel; omega
    have hstarts : tokenStarts pre.length (t :: t2 :: ts)
        = pre.length :: tokenStarts (pre ++ t ++ [':']).length (t2 :: ts) := by
      rw [tokenStarts]
      simp only [List.length_append, List.length_singleton]
    unfold addFiltersLoop
    simp only [if_neg hpos, hnext, htok, hmod]
    by_cases hte : t = []
    · rw [if_pos hte, ih t2 (pre ++ t ++ [':']) f st (seen ++ [pre.length]) hr2 ht2 hts2 hf,
        hstarts]
      subst hte
      rw [tokenCalls_nil_cons]
      simp
    · rw [if_neg hte, addFiltersToken_eq, tokenCalls_cons sub t (t2 :: ts) hte, hstarts]
      simp only [applyCalls]
      cases handler (tokenCall t sub).catName (tokenCall t sub).level (tokenCall t sub).sub st
        with
      | none => simp
      | some st2 =>
        simp only
        rw [ih t2 (pre ++ t ++ [':']) f st2 (seen ++ [pre.length]) hr2 ht2 hts2 hf]
        simp
/-- The list of tokens of a string is never empty. -/
theorem splitColon_ne_nil (s : StdString) : splitColon s ≠ [] := by
  induction s with
  | nil => simp [splitColon]
  | cons c cs ih =>
    unfold splitColon
    by_cases h : c = ':'
    · simp [h]
    · rw [if_neg h]
      cases hs : splitColon cs with
      | nil => simp
      | cons t ts => simp

/-- Joining the tokens of a string with colons gives the string back. -/
theorem joinColon_splitColon (s : StdString) : joinColon (splitColon s) = s := by
  induction s with
  | nil => simp [splitColon, joinColon]
  | cons c cs ih =>
    unfold splitColon
    by_cases h : c = ':'
    · rw [if_pos h]
      cases hs : splitColon cs with
      | nil => exact absurd hs (splitColon_ne_nil cs)
      | cons t ts =>
        rw [hs] at ih
        simp [joinColon, ih, h]
    · rw [if_neg h]
      cases hs : splitColon cs with
      | nil => exact absurd hs (splitColon_ne_nil cs)
      | cons t ts =>
        rw [hs] at ih
        cases ts with
        | nil =>
          simp only [joinColon] at ih ⊢
          rw [ih]
        | cons t2 ts2 =>
          simp only [joinColon] at ih ⊢
          rw [← ih]
          simp

/-- No token of a string holds a colon. -/
theorem splitColon_no_colon (s : StdString) : ∀ t ∈ splitColon s, ':' ∉ t := by
  induction s with
  | nil => simp [splitColon]
  | cons c cs ih =>
    unfold splitColon
    by_cases h : c = ':'
    · rw [if_pos h]
      intro t ht
      rcases List.mem_cons.mp ht with rfl | ht
      · simp
      · exact ih t ht
    · rw [if_neg h]
      cases hs : splitColon cs with
      | nil => exact absurd hs (splitColon_ne_nil cs)
      | cons t ts =>
        rw [hs] at ih
        intro u hu
        rcases List.mem_cons.mp hu with rfl | hu
        · intro hmem
          rcases List.mem_cons.mp hmem with e | hmem
          · exact h e.symm
          · exact ih t (List.mem_cons_self _ _) hmem
        · exact ih u (List.mem_cons_of_mem _ hu)

/-- A string has one token more than it has colons. -/
theorem splitColon_length (s : StdString) : (splitColon s).length = s.count ':' + 1 := by
  induction s with
  | nil => simp [splitColon]
  | cons c cs ih =>
    unfold splitColon
    by_cases h : c = ':'
    · rw [if_pos h]
      simp [ih, h]
    · rw [if_neg h]
      cases hs : splitColon cs with
      | nil => exact absurd hs (splitColon_ne_nil cs)
      | cons t ts =>
        rw [hs] at ih
        simp only [List.length_cons] at ih ⊢
        rw [ih, List.count_cons_of_ne (fun e => h e.symm)]

/-- A string has no more tokens than characters, plus one. -/
theorem splitColon_length_le (s : StdString) : (splitColon s).length ≤ s.length + 1 := by
  rw [splitColon_length]
  have := List.count_le_length ':' s
  omega

/-- The offsets at which tokens start are at least the first one and strictly increase. -/
theorem tokenStarts_increasing (ts : List StdString) : ∀ pos : Nat,
    (∀ x ∈ tokenStarts pos ts, pos ≤ x) ∧ (tokenStarts pos ts).Pairwise (fun a b => a < b) := by
  induction ts with
  | nil => intro pos; simp [tokenStarts]
  | cons t ts ih =>
    intro pos
    obtain ⟨h1, h2⟩ := ih (pos + t.length + 1)
    simp only [tokenStarts, List.mem_cons, List.pairwise_cons]
    refine ⟨?_, ?_, h2⟩
    · intro x hx
      rcases hx with rfl | hx
      · exact le_refl _
      · have := h1 x hx
        omega
    · intro x hx
      have := h1 x hx
      omega

/-- There is one offset per token. -/
theorem tokenStarts_length (ts : List StdString) : ∀ pos : Nat,
    (tokenStarts pos ts).length = ts.length := by
  induction ts with
  | nil => intro pos; simp [tokenStarts]
  | cons t ts ih => intro pos; simp [tokenStarts, ih]

/-- There are no more calls than tokens. -/
theorem tokenCalls_length_le (sub : Nat) (ts : List StdString) :
    (tokenCalls sub ts).length ≤ ts.length := by
  unfold tokenCalls
  exact List.length_filterMap_le _ _

/-- The recording handler appends the calls it is given. -/
theorem applyCalls_recordCall (cs : List FilterCall) : ∀ acc : List FilterCall,
    applyCalls recordCall cs acc = some (acc ++ cs) := by
  induction cs with
  | nil => intro acc; simp [applyCalls]
  | cons c cs ih =>
    intro acc
    simp [applyCalls, recordCall, ih]

/-- The loop of `addFilters` on a whole string, with the iterations `addFilters` allows:
the calls of its tokens in order, and the offsets at which they start. -/
theorem addFiltersLoop_whole {σ : Type} (handler : StdString → Int → Nat → σ → Option σ)
    (sub : Nat) (rules : StdString) (hlen : rules.length < sizeMod) (st : σ) :
    addFiltersLoop handler rules sub (rules.length + 1) 0 st []
      = (applyCalls handler (tokenCalls sub (splitColon rules)) st).map
          (fun s => (s, tokenStarts 0 (splitColon rules))) := by
  cases hs : splitColon rules with
  | nil => exact absurd hs (splitColon_ne_nil rules)
  | cons t ts =>
    have hno := splitColon_no_colon rules
    have hl := splitColon_length_le rules
    rw [hs] at hno hl
    have hj : rules = ([] : StdString) ++ joinColon (t :: ts) := by
      rw [← hs, joinColon_splitColon]
      rfl
    have h := addFiltersLoop_tokens handler sub rules hlen ts t [] (rules.length + 1) st [] hj
      (hno t (List.mem_cons_self _ _)) (fun u hu => hno u (List.mem_cons_of_mem _ hu))
      (by simp only [List.length_cons] at hl; omega)
    simpa using h
/-- The search of `=` from the start of a token that does not hold it. -/
theorem findChar_eq_none (t : StdString) (h : '=' ∉ t) : findChar '=' t 0 = none := by
  unfold findChar
  rw [List.drop_zero, indexOfChar_none _ _ h]
  rfl

/-- The search of `=` from the start of a token in which it follows the category. -/
theorem findChar_eq_some (cat lvl : StdString) (h : '=' ∉ cat) :
    findChar '=' (cat ++ '=' :: lvl) 0 = some cat.length := by
  unfold findChar
  rw [List.drop_zero, indexOfChar_append _ _ _ h]
  rfl

/-- The text of a well-formed rule holds no colon. -/
theorem FilterRule.token_no_colon (r : FilterRule) (h : r.WellFormed) : ':' ∉ r.token := by
  cases r with
  | enable plus cat =>
    cases plus with
    | true =>
      obtain ⟨h1, _, _⟩ := h
      simp [FilterRule.token, h1]
    | false =>
      obtain ⟨_, h1, _⟩ := h
      simp [FilterRule.token, h1]
  | disable cat =>
    obtain ⟨h1, _⟩ := h
    simp [FilterRule.token, h1]
  | level plus cat lvl =>
    cases plus with
    | true =>
      obtain ⟨h1, _, h3⟩ := h
      simp [FilterRule.token, h1, h3]
    | false =>
      obtain ⟨h1, _, h3, _⟩ := h
      simp [FilterRule.token, h1, h3]
  | blank => simp [FilterRule.token]

/-- The loop reads the text of a well-formed rule as the call the rule stands for, and skips
the empty token. -/
theorem FilterRule.tokenCall_eq (r : FilterRule) (sub : Nat) (h : r.WellFormed) :
    (if r.token = [] then none else some (tokenCall r.token sub)) = r.call sub := by
  cases r with
  | enable plus cat =>
    cases plus with
    | true =>
      obtain ⟨_, h2, h3⟩ := h
      simp [FilterRule.token, FilterRule.call, tokenCall, findChar_eq_none _ h2, h3]
    | false =>
      obtain ⟨h0, _, h2, h3, h4⟩ := h
      simp [FilterRule.token, FilterRule.call, tokenCall, findChar_eq_none _ h2, h3, h4, h0]
  | disable cat =>
    obtain ⟨_, h2⟩ := h
    have hm : '=' ∉ '-' :: cat := by simp [h2]
    simp [FilterRule.token, FilterRule.call, tokenCall, findChar_eq_none _ hm]
  | level plus cat lvl =>
    cases plus with
    | true =>
      obtain ⟨_, h2, _⟩ := h
      simp [FilterRule.token, FilterRule.call, tokenCall, findChar_eq_some _ _ h2]
    | false =>
      obtain ⟨_, h2, _, h4⟩ := h
      have hh : (cat ++ '=' :: lvl).head? ≠ some '+' := by
        cases cat with
        | nil => simp
        | cons x xs => simpa using h4
      simp [FilterRule.token, FilterRule.call, tokenCall, findChar_eq_some _ _ h2, hh, h4]
  | blank => simp [FilterRule.token, FilterRule.call]

/-- The calls the loop makes for the text of well-formed rules are the calls the rules stand
for. -/
theorem tokenCalls_rules (sub : Nat) (rs : List FilterRule) (h : ∀ r ∈ rs, r.WellFormed) :
    tokenCalls sub (rs.map FilterRule.token) = rs.filterMap (FilterRule.call sub) := by
  induction rs with
  | nil => simp [tokenCalls]
  | cons r rs ih =>
    have hr := FilterRule.tokenCall_eq r sub (h r (List.mem_cons_self _ _))
    have ih2 := ih (fun x hx => h x (List.mem_cons_of_mem _ hx))
    unfold tokenCalls at ih2 ⊢
    simp only [List.map_cons, List.filterMap_cons, hr, ih2]

/-- A colon-separated string is at least as long as the number of its colons. -/
theorem joinColon_length_ge (ts : List StdString) : ∀ t : StdString,
    ts.length ≤ (joinColon (t :: ts)).length := by
  induction ts with
  | nil => intro t; simp
  | cons t2 ts ih =>
    intro t
    have := ih t2
    simp only [joinColon, List.length_append, List.length_cons]
    omega

/-- The loop of `addFilters` on the text of a list of well-formed rules makes the calls the
rules stand for, in order. -/
theorem addFiltersLoop_rules {σ : Type} (handler : StdString → Int → Nat → σ → Option σ)
    (sub : Nat) (rs : List FilterRule) (hwf : ∀ r ∈ rs, r.WellFormed)
    (hlen : (joinRules rs).length < sizeMod) (st : σ) :
    (addFiltersLoop handler (joinRules rs) sub ((joinRules rs).length + 1) 0 st []).map
        (fun r => r.1)
      = applyCalls handler (rs.filterMap (FilterRule.call sub)) st := by
  cases rs with
  | nil => simp [joinRules, joinColon, addFiltersLoop, applyCalls]
  | cons r rs =>
    have hj : joinRules (r :: rs)
        = ([] : StdString) ++ joinColon (r.token :: rs.map FilterRule.token) := rfl
    have hge := joinColon_length_ge (rs.map FilterRule.token) r.token
    have h := addFiltersLoop_tokens handler sub (joinRules (r :: rs)) hlen
      (rs.map FilterRule.token) r.token [] ((joinRules (r :: rs)).length + 1) st [] hj
      (FilterRule.token_no_colon r (hwf r (List.mem_cons_self _ _)))
      (by
        intro u hu
        obtain ⟨x, hx, rfl⟩ := List.mem_map.mp hu
        exact FilterRule.token_no_colon x (hwf x (List.mem_cons_of_mem _ hx)))
      (by
        rw [List.length_map] at hge ⊢
        have : (joinRules (r :: rs)).length
            = (joinColon (r.token :: rs.map FilterRule.token)).length := rfl
        omega)
    have hc := tokenCalls_rules sub (r :: rs) hwf
    simp only [List.map_cons] at hc
    rw [List.length_nil] at h
    rw [h, hc, Option.map_map]
    cases applyCalls handler ((r :: rs).filterMap (FilterRule.call sub)) st <;> rfl
/-- The rule given to `mergeGlob` is in the list afterwards. -/
theorem mergeGlob_mem (p : GlobRule) (rules : List GlobRule) : p ∈ mergeGlob p rules := by
  induction rules with
  | nil => simp [mergeGlob]
  | cons c rest ih =>
    unfold mergeGlob
    by_cases h : p.target = c.target ∧ p.id = c.id
    · rw [if_pos h]; exact List.mem_cons_self _ _
    · rw [if_neg h]; exact List.mem_cons_of_mem _ ih

/-- Every rule of the list after `mergeGlob` is the rule given or a rule of the list
before. -/
theorem mergeGlob_subset (p : GlobRule) (rules : List GlobRule) :
    ∀ g ∈ mergeGlob p rules, g = p ∨ g ∈ rules := by
  induction rules with
  | nil => intro g hg; simp [mergeGlob] at hg; exact Or.inl hg
  | cons c rest ih =>
    intro g hg
    unfold mergeGlob at hg
    by_cases h : p.target = c.target ∧ p.id = c.id
    · rw [if_pos h] at hg
      rcases List.mem_cons.mp hg with e | hg
      · exact Or.inl e
      · exact Or.inr (List.mem_cons_of_mem _ hg)
    · rw [if_neg h] at hg
      rcases List.mem_cons.mp hg with e | hg
      · exact Or.inr (by rw [e]; exact List.mem_cons_self _ _)
      · rcases ih g hg with e | hm
        · exact Or.inl e
        · exact Or.inr (List.mem_cons_of_mem _ hm)

/-- A rule whose target and subscriber are new is appended by `mergeGlob`. -/
theorem mergeGlob_new (p : GlobRule) (rules : List GlobRule)
    (h : ∀ g ∈ rules, ¬ (g.target = p.target ∧ g.id = p.id)) :
    mergeGlob p rules = rules ++ [p] := by
  induction rules with
  | nil => simp [mergeGlob]
  | cons c rest ih =>
    unfold mergeGlob
    have hc : ¬ (p.target = c.target ∧ p.id = c.id) := fun e =>
      h c (List.mem_cons_self _ _) ⟨e.1.symm, e.2.symm⟩
    rw [if_neg hc, ih (fun g hg => h g (List.mem_cons_of_mem _ hg))]
    rfl

/-- Once a level is found, the scan of the rule list keeps one. -/
theorem lastLevel_some (fnmatch : StdString → StdString → Bool) (name : StdString) (id : Nat)
    (rules : List GlobRule) : ∀ l : Int, ∃ l2, lastLevel fnmatch rules name id (some l)
      = some l2 := by
  induction rules with
  | nil => intro l; exact ⟨l, rfl⟩
  | cons g rest ih =>
    intro l
    unfold lastLevel
    simp only [List.foldl_cons]
    by_cases h : fnmatch g.target name = true ∧ g.id = id
    · rw [if_pos h]; exact ih g.level
    · rw [if_neg h]; exact ih l

/-- A list that holds a rule for `name` and `id` gives a level. -/
theorem lastLevel_of_mem (fnmatch : StdString → StdString → Bool) (name : StdString) (id : Nat)
    (rules : List GlobRule) (g : GlobRule) (hg : g ∈ rules)
    (hm : fnmatch g.target name = true) (hid : g.id = id) :
    ∀ acc : Option Int, ∃ l, lastLevel fnmatch rules name id acc = some l := by
  induction rules with
  | nil => exact absurd hg (List.not_mem_nil _)
  | cons c rest ih =>
    intro acc
    unfold lastLevel
    simp only [List.foldl_cons]
    rcases List.mem_cons.mp hg with e | hg2
    · subst e
      rw [if_pos ⟨hm, hid⟩]
      exact lastLevel_some fnmatch name id rest g.level
    · exact ih hg2 _

/-- The scan of a rule list to which a rule for `name` and `id` is appended ends with the
level of that rule. -/
theorem lastLevel_append (fnmatch : StdString → StdString → Bool) (name : StdString) (id : Nat)
    (rules : List GlobRule) (p : GlobRule) (hm : fnmatch p.target name = true)
    (hid : p.id = id) (acc : Option Int) :
    lastLevel fnmatch (rules ++ [p]) name id acc = some p.level := by
  unfold lastLevel
  rw [List.foldl_append]
  simp only [List.foldl_cons, List.foldl_nil]
  rw [if_pos ⟨hm, hid⟩]

/-- The function `checkGlobs` is defined when no rule is for the subscriber 2^32 - 1; it keeps
the name of the category, and the level it leaves for a subscriber is the level of the last
rule that matches the name for that subscriber. -/
theorem checkGlobs_spec (fnmatch : StdString → StdString → Bool) (id : Nat)
    (rules : List GlobRule) (hids : ∀ g ∈ rules, g.id + 1 < 2 ^ 32) :
    ∀ (cat : Category) (acc : Option Int), (∀ l, acc = some l → cat.levels[id]? = some l) →
      ∃ cat2, checkGlobs fnmatch rules cat = some cat2 ∧ cat2.name = cat.name ∧
        ∀ l, lastLevel fnmatch rules cat.name id acc = some l → cat2.levels[id]? = some l := by
  induction rules with
  | nil =>
    intro cat acc hacc
    exact ⟨cat, rfl, rfl, fun l hl => hacc l hl⟩
  | cons g rest ih =>
    intro cat acc hacc
    have hrest : ∀ g ∈ rest, g.id + 1 < 2 ^ 32 := fun x hx => hids x (List.mem_cons_of_mem _ hx)
    unfold checkGlobs lastLevel
    simp only [List.foldl_cons]
    by_cases hm : fnmatch g.target cat.name = true
    · obtain ⟨c2, hc2, hname, _, hsub, hother, _⟩ :=
        Category.setLevel_spec cat g.id g.level (hids g (List.mem_cons_self _ _))
      rw [if_pos hm, hc2]
      simp only
      by_cases hid : g.id = id
      · rw [if_pos ⟨hm, hid⟩]
        obtain ⟨cat2, h1, h2, h3⟩ := ih hrest c2 (some g.level)
          (fun l hl => by
            rw [← hid, hsub]
            exact hl)
        refine ⟨cat2, h1, h2.trans hname, fun l hl => h3 l ?_⟩
        rw [hname]
        exact hl
      · rw [if_neg (fun e => hid e.2)]
        obtain ⟨cat2, h1, h2, h3⟩ := ih hrest c2 acc
          (fun l hl => by
            have hold := hacc l hl
            have hlt : id < cat.levels.length := by
              by_contra hge
              rw [List.getElem?_eq_none (by omega)] at hold
              exact absurd hold (by simp)
            rw [hother id (fun e => hid e.symm) hlt]
            exact hold)
        refine ⟨cat2, h1, h2.trans hname, fun l hl => h3 l ?_⟩
        rw [hname]
        exact hl
    · rw [if_neg hm, if_neg (fun e => hm e.1)]
      exact ih hrest cat acc hacc
/-- The loop of `applyGlob` is defined when no rule is for the subscriber 2^32 - 1; it keeps
the categories the rule does not match, and gives each category it matches, for the
subscriber `id` of the rule, the level of the last rule of the list that matches the name of
the category for that subscriber. -/
theorem applyGlobLoop_spec (fnmatch : StdString → StdString → Bool) (rules : List GlobRule)
    (hids : ∀ g ∈ rules, g.id + 1 < 2 ^ 32) (g : GlobRule) (hg : g ∈ rules) :
    ∀ cats : List Category, ∃ cats2, applyGlobLoop fnmatch rules g cats = some cats2 ∧
      List.Forall₂ (fun c c2 => c2.name = c.name ∧
        (fnmatch g.target c.name = true →
          ∃ l, lastLevel fnmatch rules c.name g.id none = some l ∧ c2.levels[g.id]? = some l) ∧
        (fnmatch g.target c.name = false → c2 = c)) cats cats2 := by
  intro cats
  induction cats with
  | nil => exact ⟨[], rfl, List.Forall₂.nil⟩
  | cons cat rest ih =>
    obtain ⟨rest2, hr, hf⟩ := ih
    unfold applyGlobLoop
    by_cases hm : fnmatch g.target cat.name = true
    · obtain ⟨cat2, h1, h2, h3⟩ := checkGlobs_spec fnmatch g.id rules hids cat none
        (fun l hl => by simp at hl)
      obtain ⟨l, hl⟩ := lastLevel_of_mem fnmatch cat.name g.id rules g hg hm rfl none
      rw [if_pos hm, h1, hr]
      refine ⟨cat2 :: rest2, rfl, List.Forall₂.cons ⟨h2, fun _ => ⟨l, hl, h3 l hl⟩, ?_⟩ hf⟩
      intro hfalse
      rw [hm] at hfalse
      exact absurd hfalse (by simp)
    · rw [if_neg hm, hr]
      exact ⟨cat :: rest2, rfl, List.Forall₂.cons ⟨rfl, fun h => absurd h hm, fun _ => rfl⟩ hf⟩

/-- After the insertion of a category under a name that is not in the map, the lookup of
that name finds it. -/
theorem findCategory_insertCategory (res : Category) (cats : List Category)
    (h : findCategory res.name cats = none) :
    findCategory res.name (insertCategory res cats) = some res := by
  induction cats with
  | nil => simp [insertCategory, findCategory]
  | cons c rest ih =>
    unfold findCategory at h
    by_cases hc : c.name = res.name
    · rw [if_pos hc] at h
      exact absurd h (by simp)
    · rw [if_neg hc] at h
      unfold insertCategory
      by_cases hlt : res.name < c.name
      · rw [if_pos hlt]
        simp [findCategory]
      · rw [if_neg hlt]
        unfold findCategory
        rw [if_neg hc]
        exact ih h

/-- After the assignment through the pointer to the category of a name, the lookup of that
name finds the category assigned. -/
theorem findCategory_storeCategory (res : Category) (cats : List Category) (old : Category)
    (h : findCategory res.name cats = some old) :
    findCategory res.name (storeCategory res cats) = some res := by
  induction cats with
  | nil => simp [findCategory] at h
  | cons c rest ih =>
    unfold findCategory at h
    unfold storeCategory
    by_cases hc : c.name = res.name
    · rw [if_pos hc]
      simp [findCategory]
    · rw [if_neg hc] at h
      rw [if_neg hc]
      unfold findCategory
      rw [if_neg hc]
      exact ih h

/-- The lookup of a name returns a category of that name. -/
theorem findCategory_name (name : StdString) (cats : List Category) (c : Category)
    (h : findCategory name cats = some c) : c.name = name := by
  induction cats with
  | nil => simp [findCategory] at h
  | cons x rest ih =>
    unfold findCategory at h
    by_cases hx : x.name = name
    · rw [if_pos hx] at h
      cases h
      exact hx
    · rw [if_neg hx] at h
      exact ih h

/-- The function `addCategory` is defined when no rule is for the subscriber 2^32 - 1; the
rule list is unchanged and the name is registered afterwards. -/
theorem addCategory_spec (fnmatch : StdString → StdString → Bool) (name : StdString)
    (st : LogState) (hids : ∀ g ∈ st.glGlobRules, g.id + 1 < 2 ^ 32) :
    ∃ st1 cat, addCategory fnmatch name st = some st1 ∧ st1.glGlobRules = st.glGlobRules ∧
      findCategory name st1.categories = some cat := by
  unfold addCategory
  cases hf : findCategory name st.categories with
  | some c => exact ⟨st, c, rfl, rfl, hf⟩
  | none =>
    obtain ⟨res, h1, h2, _⟩ := checkGlobs_spec fnmatch 0 st.glGlobRules hids
      (Category.new name) none (fun l hl => by simp at hl)
    have hn : res.name = name := h2
    simp only [h1]
    refine ⟨_, res, rfl, rfl, ?_⟩
    simp only
    rw [← hn] at hf ⊢
    exact findCategory_insertCategory res st.categories hf

/-- The effect of `addFilter(catName, level, sub)`, for a subscriber below 2^32 - 1 and a
rule list without a rule for the subscriber 2^32 - 1. -/
theorem addFilter_spec (fnmatch : StdString → StdString → Bool) (catName : StdString)
    (level : Int) (sub : Nat) (st : LogState) (hsub : sub + 1 < 2 ^ 32)
    (hids : ∀ g ∈ st.glGlobRules, g.id + 1 < 2 ^ 32) :
    ∃ st2, addFilter fnmatch catName level sub st = some st2 ∧
      st2.glGlobRules
        = mergeGlob { target := catName, id := sub, level := level } st.glGlobRules ∧
      ('*' ∉ catName → ∃ cat, findCategory catName st2.categories = some cat ∧
        cat.levels[sub]? = some level) ∧
      ('*' ∈ catName → List.Forall₂ (fun c c2 => c2.name = c.name ∧
        (fnmatch catName c.name = true →
          ∃ l, lastLevel fnmatch st2.glGlobRules c.name sub none = some l ∧
            c2.levels[sub]? = some l) ∧
        (fnmatch catName c.name = false → c2 = c)) st.categories st2.categories) := by
  have hu : u32 sub = sub := Nat.mod_eq_of_lt (by omega)
  unfold addFilter
  rw [hu]
  by_cases hstar : '*' ∈ catName
  · rw [if_pos hstar]
    have hids2 : ∀ g ∈ mergeGlob { target := catName, id := sub, level := level }
        st.glGlobRules, g.id + 1 < 2 ^ 32 := by
      intro g hg
      rcases mergeGlob_subset _ _ g hg with e | hm
      · rw [e]; exact hsub
      · exact hids g hm
    obtain ⟨cats2, h1, h2⟩ := applyGlobLoop_spec fnmatch _ hids2
      { target := catName, id := sub, level := level } (mergeGlob_mem _ _) st.categories
    unfold applyGlob
    simp only [h1]
    exact ⟨_, rfl, rfl, fun h => absurd hstar h, fun _ => h2⟩
  · rw [if_neg hstar]
    obtain ⟨st1, cat, h1, h2, h3⟩ := addCategory_spec fnmatch catName st hids
    obtain ⟨cat2, h4, h5, _, h6, _⟩ := Category.setLevel_spec cat sub level hsub
    have hname : cat2.name = catName := h5.trans (findCategory_name _ _ _ h3)
    simp only [h1, h3, h4, h2]
    refine ⟨_, rfl, rfl, fun _ => ⟨cat2, ?_, h6⟩, fun h => absurd h hstar⟩
    simp only
    rw [← hname] at h3 ⊢
    exact findCategory_storeCategory cat2 st1.categories cat h3

/-- Every element of the second of two lists related pointwise has a related element in the
first. -/
theorem forall₂_mem_right {α β : Type} {R : α → β → Prop} {l1 : List α} {l2 : List β}
    (h : List.Forall₂ R l1 l2) : ∀ b ∈ l2, ∃ a ∈ l1, R a b := by
  induction h with
  | nil => intro b hb; exact absurd hb (List.not_mem_nil _)
  | cons hr _ ih =>
    intro b hb
    rcases List.mem_cons.mp hb with e | hb
    · subst e
      exact ⟨_, List.mem_cons_self _ _, hr⟩
    · obtain ⟨a, ha, hab⟩ := ih b hb
      exact ⟨a, List.mem_cons_of_mem _ ha, hab⟩
/-! ## Claims about `log.cpp` -/

/-- C24, counterexample: for the message `a` followed by two newlines and the category `qi`,
`logline` with the category field gives `qi: a` followed by two newlines: `rtrim` removes one
terminator, and the output ends with two. A message that ends in a newline and a carriage
return gives an output that ends with two newlines as well. -/
theorem logline_two_terminators :
    rtrim "a\n\n".toList = some 2 ∧
    logline LogContextAttr_Category 0 0 "qi".toList "a\n\n".toList [] [] 0 LogLevel_Info 0
      = some "qi: a\n\n".toList ∧
    logline LogContextAttr_Category 0 0 "qi".toList "a\n\r".toList [] [] 0 LogLevel_Info 0
      = some "qi: a\n\n".toList := by
  decide

/-- C24, amended: for every message that is not empty (and shorter than 2^31 characters, so
that its length is an `int`), `logline` returns the header, the message without its final
line terminator (one trailing CR LF, LF or CR), and one newline; the output ends with a
newline, and what precedes it is the header and the message so shortened, which may itself
end with a terminator. -/
theorem logline_output (context : Nat) (tv_sec tv_usec : Int)
    (category msg file fct : StdString) (line verb tid : Int) (hne : msg ≠ [])
    (hlen : msg.length < 2 ^ 31) :
    ∃ out, logline context tv_sec tv_usec category msg file fct line verb tid = some out ∧
      out = loglineHeader context tv_sec tv_usec category file fct line verb tid
          ++ withoutTerminator msg ++ ['\n'] ∧
      out.getLast? = some '\n' ∧
      out.dropLast = loglineHeader context tv_sec tv_usec category file fct line verb tid
          ++ withoutTerminator msg := by
  refine ⟨_, logline_eq context tv_sec tv_usec category msg file fct line verb tid hne hlen,
    rfl, ?_, ?_⟩
  · simp
  · simp

/-- A concrete instance of the preceding theorem, with its hypotheses discharged. -/
theorem logline_output_witness :
    ("hello\r\n".toList ≠ [] ∧ "hello\r\n".toList.length < 2 ^ 31) ∧
    ∃ out, logline LogContextAttr_Category 0 0 "qi".toList "hello\r\n".toList [] [] 0
        LogLevel_Info 0 = some out ∧
      out = loglineHeader LogContextAttr_Category 0 0 "qi".toList [] [] 0 LogLevel_Info 0
          ++ withoutTerminator "hello\r\n".toList ++ ['\n'] ∧
      out.getLast? = some '\n' ∧
      out.dropLast = loglineHeader LogContextAttr_Category 0 0 "qi".toList [] [] 0
          LogLevel_Info 0 ++ withoutTerminator "hello\r\n".toList :=
  ⟨⟨by decide, by decide⟩,
   logline_output LogContextAttr_Category 0 0 "qi".toList "hello\r\n".toList [] [] 0
     LogLevel_Info 0 (by decide) (by decide)⟩

/-- C28, evaluated at the failing input: for the empty string `strlen(msg) - 1` wraps to
2^64 - 1, the read `msg[p]` is outside the string (whose only character is the terminator at
index 0), and `rtrim` and `logline` are undefined; on strings that are not empty `rtrim`
returns the length without the final terminator. -/
theorem rtrim_empty_reads_outside :
    (([] : StdString).length + sizeMod - 1) % sizeMod = 2 ^ 64 - 1 ∧
    cstrAt [] 0 = some (Char.ofNat 0) ∧
    cstrAt [] (2 ^ 64 - 1) = none ∧
    rtrim [] = none ∧
    logline 0 0 0 [] [] [] [] 0 LogLevel_Info 0 = none ∧
    rtrim "a".toList = some 1 ∧ rtrim "a\n".toList = some 1 ∧
    rtrim "a\r\n".toList = some 1 ∧ rtrim "a\r".toList = some 1 ∧
    rtrim "\n".toList = some 0 := by
  decide

/-- C30, evaluated at the failing input: for the subscriber 2^32 - 1 (the value
`addLogHandler` returns when there is no log instance, and the id the rule list reserves for
all listeners) `sub + 1` is 0 in `unsigned int`, `resize(0, ...)` leaves the vector empty, and
the write `levels[sub]` is outside it: `setLevel` is undefined, on a new category and on one
that has levels, and no vector of length `sub + 1` results. -/
theorem Category.setLevel_wraps :
    u32 (4294967295 + 1) = 0 ∧
    vectorResize (Category.new "qi".toList).levels (u32 (4294967295 + 1)) LogLevel_Info = [] ∧
    (Category.new "qi".toList).setLevel 4294967295 LogLevel_Debug = none ∧
    twoLevelCategory.setLevel 4294967295 LogLevel_Debug = none := by
  decide

/-- For every category, every subscriber index `sub` below 2^32 - 1 and every level,
`setLevel(sub, level)` is defined, and afterwards the vector `levels` has length
`max(old length, sub + 1)`, so at least `sub + 1`, `levels[sub]` is `level`, every entry that
existed before at another index is unchanged, every new entry other than `sub` is
`LogLevel_Info`, and `maxLevel` is an element of `levels` that bounds all of them; the name
is unchanged. -/
theorem Category.setLevel_post (c : Category) (sub : Nat) (level : Int)
    (hsub : sub + 1 < 2 ^ 32) :
    ∃ c2, c.setLevel sub level = some c2 ∧ c2.name = c.name ∧
      sub + 1 ≤ c2.levels.length ∧
      c2.levels.length = max c.levels.length (sub + 1) ∧
      c2.levels[sub]? = some level ∧
      (∀ i, i ≠ sub → i < c.levels.length → c2.levels[i]? = c.levels[i]?) ∧
      (∀ i, i ≠ sub → c.levels.length ≤ i → i < c2.levels.length →
        c2.levels[i]? = some LogLevel_Info) ∧
      c2.maxLevel ∈ c2.levels ∧ ∀ x ∈ c2.levels, x ≤ c2.maxLevel := by
  obtain ⟨c2, h1, h2, h3, h4, h5, h6, h7, h8⟩ := Category.setLevel_spec c sub level hsub
  exact ⟨c2, h1, h2, by rw [h3]; exact le_max_right _ _, h3, h4, h5, h6, h7, h8⟩

/-- A concrete instance of the preceding theorem, with its hypotheses discharged. -/
theorem Category.setLevel_post_witness :
    (3 + 1 < 2 ^ 32) ∧
    ∃ c2, debugCategory.setLevel 3 LogLevel_Error = some c2 ∧ c2.name = debugCategory.name ∧
      3 + 1 ≤ c2.levels.length ∧
      c2.levels.length = max debugCategory.levels.length (3 + 1) ∧
      c2.levels[3]? = some LogLevel_Error ∧
      (∀ i, i ≠ 3 → i < debugCategory.levels.length →
        c2.levels[i]? = debugCategory.levels[i]?) ∧
      (∀ i, i ≠ 3 → debugCategory.levels.length ≤ i → i < c2.levels.length →
        c2.levels[i]? = some LogLevel_Info) ∧
      c2.maxLevel ∈ c2.levels ∧ ∀ x ∈ c2.levels, x ≤ c2.maxLevel :=
  ⟨by decide,
   Category.setLevel_post debugCategory 3 LogLevel_Error (by decide)⟩

/-- C22, counterexample: the token `+-x` is `+CAT` for the category `-x`, for which the rule
stands for `addFilter("-x", LogLevel_Debug, sub)`; `addFilters` removes the `+`, then reads
the `-` as the sign of the rule and calls `addFilter("x", LogLevel_Silent, sub)`. -/
theorem addFilters_plus_minus_token :
    (FilterRule.enable true "-x".toList).token = "+-x".toList ∧
    (FilterRule.enable true "-x".toList).call 0
      = some { catName := "-x".toList, level := LogLevel_Debug, sub := 0 } ∧
    addFiltersCalls "+-x".toList 0
      = some ([{ catName := "x".toList, level := LogLevel_Silent, sub := 0 }], [0]) ∧
    addFiltersCalls "a:+-x".toList 0
      = some ([{ catName := "a".toList, level := LogLevel_Debug, sub := 0 },
               { catName := "x".toList, level := LogLevel_Silent, sub := 0 }], [0, 2]) := by
  decide

/-- C22, amended: for every list of rules whose category names hold no `:` and no `=`, whose
levels hold no `:`, and whose category names do not begin with a sign that reads as the sign
of the rule (no `-` after `+CAT`, no `+` or `-` in a bare `CAT`, no `+` in an unsigned
`CAT=level`), `addFilters` on their colon-separated text makes, left to right, one call of
`addFilter` per token that is not empty: `(CAT, LogLevel_Debug, sub)` for `+CAT` and `CAT`,
`(CAT, LogLevel_Silent, sub)` for `-CAT`, `(CAT, stringToLogLevel(level), sub)` for
`CAT=level` and `+CAT=level`; empty tokens are skipped. -/
theorem addFilters_applies_rules (fnmatch : StdString → StdString → Bool)
    (rs : List FilterRule) (sub : Nat) (st : LogState) (hwf : ∀ r ∈ rs, r.WellFormed)
    (hlen : (joinRules rs).length < sizeMod) :
    addFilters fnmatch (joinRules rs) sub st
      = applyCalls (addFilter fnmatch) (rs.filterMap (FilterRule.call sub)) st ∧
    (addFiltersCalls (joinRules rs) sub).map (fun r => r.1)
      = some (rs.filterMap (FilterRule.call sub)) := by
  constructor
  · exact addFiltersLoop_rules (addFilter fnmatch) sub rs hwf hlen st
  · unfold addFiltersCalls
    rw [addFiltersLoop_rules recordCall sub rs hwf hlen [], applyCalls_recordCall]
    rfl

/-- A concrete instance of the preceding theorem, with its hypotheses discharged. -/
theorem addFilters_applies_rules_witness :
    ((∀ r ∈ exampleRules, r.WellFormed) ∧ (joinRules exampleRules).length < sizeMod ∧
      joinRules exampleRules = "qi.*=debug:-qi.foo::+qi.foo.bar:qi.x:+qi.y=3".toList ∧
      exampleRules.filterMap (FilterRule.call 1)
        = [{ catName := "qi.*".toList, level := LogLevel_Debug, sub := 1 },
           { catName := "qi.foo".toList, level := LogLevel_Silent, sub := 1 },
           { catName := "qi.foo.bar".toList, level := LogLevel_Debug, sub := 1 },
           { catName := "qi.x".toList, level := LogLevel_Debug, sub := 1 },
           { catName := "qi.y".toList, level := LogLevel_Warning, sub := 1 }]) ∧
    (addFiltersCalls (joinRules exampleRules) 1).map (fun r => r.1)
      = some (exampleRules.filterMap (FilterRule.call 1)) :=
  ⟨⟨by decide, by decide, by decide, by decide⟩,
   (addFilters_applies_rules starMatch exampleRules 1 LogState.empty (by decide)
     (by decide)).2⟩

/-- C29: for every rules string (of a length a `size_t` holds) the loop of `addFilters`
ends within `rules.length() + 1` iterations: with a handler that records the calls it returns
the calls and the positions at the start of its iterations; these positions strictly
increase, there is one per colon-separated token (one more than the string has colons), the
calls are no more than the tokens, and `addFilters` itself is these calls of `addFilter` made
in order. -/
theorem addFilters_terminates (fnmatch : StdString → StdString → Bool) (rules : StdString)
    (sub : Nat) (st : LogState) (hlen : rules.length < sizeMod) :
    ∃ calls seen, addFiltersCalls rules sub = some (calls, seen) ∧
      seen.Pairwise (fun a b => a < b) ∧
      seen.length = rules.count ':' + 1 ∧
      (splitColon rules).length = rules.count ':' + 1 ∧
      calls.length ≤ rules.count ':' + 1 ∧
      addFilters fnmatch rules sub st = applyCalls (addFilter fnmatch) calls st := by
  refine ⟨tokenCalls sub (splitColon rules), tokenStarts 0 (splitColon rules), ?_, ?_, ?_, ?_,
    ?_, ?_⟩
  · unfold addFiltersCalls
    rw [addFiltersLoop_whole recordCall sub rules hlen [], applyCalls_recordCall]
    rfl
  · exact (tokenStarts_increasing (splitColon rules) 0).2
  · rw [tokenStarts_length, splitColon_length]
  · exact splitColon_length rules
  · rw [← splitColon_length]
    exact tokenCalls_length_le sub (splitColon rules)
  · unfold addFilters
    rw [addFiltersLoop_whole (addFilter fnmatch) sub rules hlen st, Option.map_map]
    cases applyCalls (addFilter fnmatch) (tokenCalls sub (splitColon rules)) st <;> rfl

/-- A concrete instance of the preceding theorem, with its hypothesis discharged. -/
theorem addFilters_terminates_witness :
    (":a::b:".toList.length < sizeMod) ∧
    ∃ calls seen, addFiltersCalls ":a::b:".toList 0 = some (calls, seen) ∧
      seen.Pairwise (fun a b => a < b) ∧
      seen.length = ":a::b:".toList.count ':' + 1 ∧
      (splitColon ":a::b:".toList).length = ":a::b:".toList.count ':' + 1 ∧
      calls.length ≤ ":a::b:".toList.count ':' + 1 ∧
      addFilters starMatch ":a::b:".toList 0 LogState.empty
        = applyCalls (addFilter starMatch) calls LogState.empty :=
  ⟨by decide, addFilters_terminates starMatch ":a::b:".toList 0 LogState.empty (by decide)⟩

/-- C23, counterexample: after `addFilter("qi.*", LogLevel_Debug, 0)` and
`addFilter("qi.foo", LogLevel_Silent, 0)`, the call `addFilter("qi.*", LogLevel_Info, 0)`
replaces the first rule in place and replays the rule list on the category `qi.foo`, which
matches `qi.*`: the rule for `qi.foo`, later in the list, is applied last, and the level of
`qi.foo` for subscriber 0 is `LogLevel_Silent`, not `LogLevel_Info`. -/
theorem addFilter_earlier_rule_wins :
    starMatch "qi.*".toList "qi.foo".toList = true ∧
    filteredTwice = some
      { glGlobRules := [{ target := "qi.*".toList, id := 0, level := LogLevel_Debug },
                        { target := "qi.foo".toList, id := 0, level := LogLevel_Silent }],
        categories := [{ name := "qi.foo".toList, levels := [LogLevel_Silent],
                         maxLevel := LogLevel_Silent }] } ∧
    filteredThrice = some
      { glGlobRules := [{ target := "qi.*".toList, id := 0, level := LogLevel_Info },
                        { target := "qi.foo".toList, id := 0, level := LogLevel_Silent }],
        categories := [{ name := "qi.foo".toList, levels := [LogLevel_Silent],
                         maxLevel := LogLevel_Silent }] } ∧
    filteredThrice.map (fun st => (findCategory "qi.foo".toList st.categories).map
        (fun c => c.levels[0]?)) = some (some (some LogLevel_Silent)) ∧
    LogLevel_Silent ≠ LogLevel_Info := by
  decide

/-- C23, amended: for a subscriber `s` below 2^32 - 1 and a rule list without a rule for the
subscriber 2^32 - 1, `addFilter(CAT, L, s)` is defined and merges the rule `(CAT, s, L)` into
the rule list. For an exact name `CAT` the category `CAT` is registered afterwards and has
level `L` for `s`. For a glob `CAT` every category keeps its name, a category that `CAT` does
not match is unchanged, and a registered category that `CAT` matches has for `s` the level of
the last rule of the merged list that matches its name for `s`; this is `L` for every
matching category when no rule for `(CAT, s)` existed before, the new rule being the last. -/
theorem addFilter_levels (fnmatch : StdString → StdString → Bool) (catName : StdString)
    (level : Int) (sub : Nat) (st : LogState) (hsub : sub + 1 < 2 ^ 32)
    (hids : ∀ g ∈ st.glGlobRules, g.id + 1 < 2 ^ 32) :
    ∃ st2, addFilter fnmatch catName level sub st = some st2 ∧
      st2.glGlobRules
        = mergeGlob { target := catName, id := sub, level := level } st.glGlobRules ∧
      ('*' ∉ catName → ∃ cat, findCategory catName st2.categories = some cat ∧
        cat.levels[sub]? = some level) ∧
      ('*' ∈ catName → List.Forall₂ (fun c c2 => c2.name = c.name ∧
        (fnmatch catName c.name = true →
          ∃ l, lastLevel fnmatch st2.glGlobRules c.name sub none = some l ∧
            c2.levels[sub]? = some l) ∧
        (fnmatch catName c.name = false → c2 = c)) st.categories st2.categories) ∧
      ('*' ∈ catName → (∀ g ∈ st.glGlobRules, ¬ (g.target = catName ∧ g.id = sub)) →
        ∀ c2 ∈ st2.categories, fnmatch catName c2.name = true →
          c2.levels[sub]? = some level) := by
  obtain ⟨st2, h1, h2, h3, h4⟩ := addFilter_spec fnmatch catName level sub st hsub hids
  refine ⟨st2, h1, h2, h3, h4, ?_⟩
  intro hstar hnew c2 hc2 hm
  obtain ⟨c, _, hname, hlvl, _⟩ := forall₂_mem_right (h4 hstar) c2 hc2
  rw [hname] at hm
  obtain ⟨l, hl, hc⟩ := hlvl hm
  have happ : st2.glGlobRules
      = st.glGlobRules ++ [{ target := catName, id := sub, level := level }] := by
    rw [h2]
    exact mergeGlob_new _ _ hnew
  rw [happ, lastLevel_append fnmatch c.name sub st.glGlobRules
    { target := catName, id := sub, level := level } hm rfl none] at hl
  cases hl
  exact hc

/-- A concrete instance of the preceding theorem, with its hypotheses discharged. -/
theorem addFilter_levels_witness :
    ((0 + 1 < 2 ^ 32) ∧ (∀ g ∈ registeredFoo.glGlobRules, g.id + 1 < 2 ^ 32) ∧
      '*' ∈ "qi.*".toList ∧
      (∀ g ∈ registeredFoo.glGlobRules, ¬ (g.target = "qi.*".toList ∧ g.id = 0))) ∧
    ∃ st2, addFilter starMatch "qi.*".toList LogLevel_Info 0 registeredFoo = some st2 ∧
      ∀ c2 ∈ st2.categories, starMatch "qi.*".toList c2.name = true →
        c2.levels[0]? = some LogLevel_Info :=
  ⟨⟨by decide, by decide, by decide, by decide⟩,
   match addFilter_levels starMatch "qi.*".toList LogLevel_Info 0 registeredFoo (by decide)
     (by decide) with
   | ⟨st2, h1, _, _, _, h5⟩ => ⟨st2, h1, h5 (by decide) (by decide)⟩⟩

end qi
